import Mathlib

/-!
valgo: a shallow embedding of the validation engine.

The development follows the repository layout:

* `validator.go`: the `Validator` session (`Is`, `Named`, `Titled`, `Valid`, `Errors`);
* `validator_string.go`, `validator_boolean_p.go`: the typed check adapters;
* the evaluation context, the session and the error set, whose Go sources are not
  part of the files at hand and are modelled from the specification.
-/

namespace Valgo

/-! ## Values -/

/-- A Go value held in an `interface{}`: the dynamic kinds the checks distinguish.
Floats and values of other kinds carry their printed form; `bytes` is a byte slice holding
a text and `nil` the nil interface. -/
inductive Value where
  | uint8 (n : Nat)
  | uint16 (n : Nat)
  | uint32 (n : Nat)
  | uint64 (n : Nat)
  | int8 (i : Int)
  | int16 (i : Int)
  | int32 (i : Int)
  | int64 (i : Int)
  | float32 (shown : String)
  | float64 (shown : String)
  | string (s : String)
  | bool (b : Bool)
  | boolP (p : Option Bool)
  | regexp (source : String)
  | other (shown : String)
  | int (i : Int)
  | bytes (text : String)
  | nil
  deriving DecidableEq, Repr

/-- The string form of a value, as Go prints it with the verb v. A pointer that is not
nil prints as an address, which the embedding does not track: it is shown as `0x`. -/
def Value.format : Value → String
  | .uint8 n => toString n
  | .uint16 n => toString n
  | .uint32 n => toString n
  | .uint64 n => toString n
  | .int8 i => toString i
  | .int16 i => toString i
  | .int32 i => toString i
  | .int64 i => toString i
  | .float32 s => s
  | .float64 s => s
  | .string s => s
  | .bool b => if b then "true" else "false"
  | .boolP none => "<nil>"
  | .boolP (some _) => "0x"
  | .regexp s => s
  | .other s => s
  | .int i => toString i
  | .bytes s => s
  | .nil => "<nil>"

/-! ## Template renderer -/

/-- A named-value map handed to the renderer, latest binding first. -/
abbrev Params := List (String × Value)

/-- Go map lookup on a parameter map. -/
def Params.get (ps : Params) (key : String) : Option Value :=
  match ps.find? (fun kv => kv.1 == key) with
  | some kv => some kv.2
  | none => none

/-- Splits a text at the first occurrence of the two-character tag `a b`:
the text before the tag and the text after it. -/
def splitAtTag (a b : Char) : List Char → Option (List Char × List Char)
  | [] => none
  | [_] => none
  | c :: d :: rest =>
    if c = a ∧ d = b then some ([], rest)
    else
      match splitAtTag a b (d :: rest) with
      | none => none
      | some (pre, post) => some (c :: pre, post)

/-- Modelled from the spec: the Template Renderer (the template library is not part of
the sources). Each placeholder, a name between two opening and two closing braces, is
replaced by the string form of the entry of that name, and by nothing when there is no
such entry; text outside placeholders is copied. -/
def renderChars (ps : Params) : Nat → List Char → List Char
  | 0, cs => cs
  | fuel + 1, cs =>
    match splitAtTag '\x7b' '\x7b' cs with
    | none => cs
    | some (pre, rest) =>
      match splitAtTag '\x7d' '\x7d' rest with
      | none => pre ++ '\x7b' :: '\x7b' :: rest
      | some (tag, post) =>
        let shown := match ps.get (String.mk tag) with
          | some v => v.format.data
          | none => []
        pre ++ shown ++ renderChars ps fuel post

/-- Rendering of a template string with a parameter map. -/
def render (template : String) (ps : Params) : String :=
  String.mk (renderChars ps template.data.length template.data)

/-! ## Message catalog -/

/-- Modelled from the spec: the error key of the `Blank` check, a lookup token (the
constant `ErrorKeyBlank` is not declared in the sources). -/
def ErrorKeyBlank : String := "blank"
/-- Modelled from the spec: the error key of the `Empty` check, a lookup token (the
constant `ErrorKeyEmpty` is not declared in the sources). -/
def ErrorKeyEmpty : String := "empty"
/-- Modelled from the spec: the error key of the `EqualTo` check, a lookup token (the
constant `ErrorKeyEqualTo` is not declared in the sources). -/
def ErrorKeyEqualTo : String := "equal_to"
/-- Modelled from the spec: the error key of the `True` check, a lookup token (the
constant `ErrorKeyTrue` is not declared in the sources). -/
def ErrorKeyTrue : String := "true"
/-- Modelled from the spec: the error key of the `False` check, a lookup token (the
constant `ErrorKeyFalse` is not declared in the sources). -/
def ErrorKeyFalse : String := "false"
/-- Modelled from the spec: the error key of the `Nil` check, a lookup token (the
constant `ErrorKeyNil` is not declared in the sources). -/
def ErrorKeyNil : String := "nil"
/-- Modelled from the spec: the error key of the `Passing` check, a lookup token (the
constant `ErrorKeyPassing` is not declared in the sources). -/
def ErrorKeyPassing : String := "passing"
/-- Modelled from the spec: the error key of the `MatchingTo` check, a lookup token (the
constant `ErrorKeyMatchingTo` is not declared in the sources). -/
def ErrorKeyMatchingTo : String := "matching_to"

/-- A locale's messages, the map `messages` of `validator.go`: error key to template
string. -/
abbrev Catalog := List (String × String)

/-- Go map lookup `messages[key]`: a key without template gives the empty string. -/
def Catalog.template (cat : Catalog) (key : String) : String :=
  match cat.find? (fun kv => kv.1 == key) with
  | some kv => kv.2
  | none => ""

/-- Modelled from the spec: the key of the negated form of a template, used when a check
fails under `Not()` (the catalog is not part of the sources): the key with `not_` before
it. -/
def negatedKey (key : String) : String := "not_" ++ key

/-- Modelled from the spec: the default locale of the Message Catalog (the locale text is
not part of the sources). It lists the templates whose rendered text the tests of the
repository state. -/
def defaultMessages : Catalog :=
  [ (ErrorKeyBlank, "\x7b\x7btitle\x7d\x7d must be blank"),
    (negatedKey ErrorKeyBlank, "\x7b\x7btitle\x7d\x7d can't be blank"),
    (ErrorKeyEqualTo, "\x7b\x7btitle\x7d\x7d must be equal to \"\x7b\x7bvalue\x7d\x7d\""),
    (ErrorKeyTrue, "\x7b\x7btitle\x7d\x7d must be true"),
    (ErrorKeyNil, "\x7b\x7btitle\x7d\x7d must be nil"),
    (ErrorKeyMatchingTo, "\x7b\x7btitle\x7d\x7d must match to \"\x7b\x7bregexp\x7d\x7d\"") ]

/-! ## Error records and the error set -/

/-- Modelled from the spec: the Error Record (its Go source is not part of the sources):
name, title, value and ordered messages of one field. -/
structure ErrorRecord where
  name : String
  title : String
  value : Value
  messages : List String
  deriving DecidableEq, Repr

/-- Modelled from the spec: `Messages()`, the accessor the tests call on a record. -/
def ErrorRecord.Messages (r : ErrorRecord) : List String := r.messages

/-- Modelled from the spec: insertion into the entries of an error set. The messages of `r`
are appended to the entry of the same name, or `r` is inserted last when there is no such
entry. -/
def extendEntries : List ErrorRecord → ErrorRecord → List ErrorRecord
  | [], r => [r]
  | e :: rest, r =>
    if e.name = r.name then { e with messages := e.messages ++ r.messages } :: rest
    else e :: extendEntries rest r

/-- Modelled from the spec: the Error Set (its Go source is not part of the sources), a
mapping from field name to error record in insertion order, with the validity flag. -/
structure ErrorSet where
  entries : List ErrorRecord
  valid : Bool
  deriving DecidableEq, Repr

/-- Modelled from the spec: the empty error set of a new session, which is valid. -/
def ErrorSet.empty : ErrorSet := { entries := [], valid := true }

/-- Modelled from the spec: lookup of a field name, as in `Errors()[name]`. -/
def ErrorSet.get (es : ErrorSet) (name : String) : Option ErrorRecord :=
  es.entries.find? (fun e => e.name == name)

/-- Modelled from the spec: appending a record under an existing name extends that
record's messages rather than replacing it; the set becomes invalid. -/
def ErrorSet.append (es : ErrorSet) (r : ErrorRecord) : ErrorSet :=
  { entries := extendEntries es.entries r, valid := false }

/-! ## Evaluation context -/

/-- Modelled from the spec: the two evaluation policies, fail-fast for `Is` and
accumulate-all for `Check`. -/
inductive Mode where
  | FailFast
  | AccumulateAll
  deriving DecidableEq, Repr

/-- A predicate is a zero-argument Go function returning a boolean; its side effects are
made explicit as a transition on a world `W`. -/
abbrev Predicate (W : Type) := W → Bool × W

/-- Modelled from the spec: the Evaluation Context (its Go source is not part of the
sources), with the mode threaded in by the session and the short-circuit mark. -/
structure Context where
  value : Value
  name : String
  title : String
  negated : Bool
  valid : Bool
  pendingErrorRecord : Option ErrorRecord
  mode : Mode
  shortCircuited : Bool
  deriving DecidableEq, Repr

/-- Modelled from the spec: `not()` sets the one-shot negation flag. -/
def Context.not (ctx : Context) : Context := { ctx with negated := true }

/-- Modelled from the spec: the message of a failed check (the renderer call is not part of
the sources): the override template if supplied, else the catalog
template of the error key (of its negated form when the check ran under `Not()`), rendered
with the check's parameters merged with the title and the value of the context. The
context's title overrides a title among the parameters; the context's value is used when
the parameters hold no value. -/
def Context.message (cat : Catalog) (ctx : Context) (negated : Bool) (errorKey : String)
    (renderParams : Params) (overrideTemplate : Option String) : String :=
  let template := match overrideTemplate with
    | some t => t
    | none => cat.template (if negated then negatedKey errorKey else errorKey)
  render template (("title", Value.string ctx.title) :: (renderParams ++ [("value", ctx.value)]))

/-- Modelled from the spec: a message appended to the context's error record, which is
created on the first failure. -/
def Context.record (ctx : Context) (message : String) : ErrorRecord :=
  match ctx.pendingErrorRecord with
  | some r => { r with messages := r.messages ++ [message] }
  | none => { name := ctx.name, title := ctx.title, value := ctx.value, messages := [message] }

/-- Modelled from the spec: `add`, the single registration primitive (its Go source is not
part of the sources). A context short-circuited in fail-fast mode returns without invoking
the predicate; otherwise the outcome is the predicate's result XOR the negation flag, the
flag is reset, and a false outcome records the rendered message, marks the context invalid
and, in fail-fast mode, short-circuited. -/
def Context.add {W : Type} (cat : Catalog) (ctx : Context) (predicate : Predicate W)
    (errorKey : String) (renderParams : Params) (overrideTemplate : Option String)
    (w : W) : Context × W :=
  if ctx.shortCircuited then (ctx, w)
  else
    let res := predicate w
    let outcome := xor res.1 ctx.negated
    let cleared := { ctx with negated := false }
    if outcome then (cleared, res.2)
    else
      let message := ctx.message cat ctx.negated errorKey renderParams overrideTemplate
      ({ cleared with
          pendingErrorRecord := some (ctx.record message)
          valid := false
          shortCircuited := decide (ctx.mode = Mode.FailFast) }, res.2)

/-! ## Chains: the context a typed validator builds -/

/-- Modelled from the spec: one registration of a chain, in the order of the fluent calls:
the negation or a predicate with its error key, parameters and optional template. -/
inductive Step (W : Type) where
  | Not
  | Add (predicate : Predicate W) (errorKey : String) (params : Params)
      (template : List String)

/-- Modelled from the spec: the context of one chain, `ValidatorContext` in Go (its source
is not part of the sources): the value, the optional name and
title, and the registrations made so far. -/
structure ValidatorContext (W : Type) where
  value : Value
  name : Option String
  title : Option String
  fragments : List (Step W)

/-- Modelled from the spec: `NewContext(value, nameAndTitle...)` (its Go source is not part
of the sources): the first optional string is the name, the second the title. -/
def NewContext {W : Type} (value : Value) (nameAndTitle : List String) : ValidatorContext W :=
  { value := value
    name := nameAndTitle.head?
    title := nameAndTitle.tail.head?
    fragments := [] }

namespace ValidatorContext

variable {W : Type}

/-- Modelled from the spec: `Value()`, the value under validation. -/
def Value (ctx : ValidatorContext W) : Valgo.Value := ctx.value

/-- Modelled from the spec: the field `title` as the adapters read it while a chain is
built; it is empty when no title was supplied. -/
def titleField (ctx : ValidatorContext W) : String := ctx.title.getD ""

/-- Modelled from the spec: `Not()` registers the one-shot negation. -/
def Not (ctx : ValidatorContext W) : ValidatorContext W :=
  { ctx with fragments := ctx.fragments ++ [Step.Not] }

/-- Modelled from the spec: `AddWithParams` registers a predicate with explicit template
parameters. -/
def AddWithParams (ctx : ValidatorContext W) (function : Predicate W) (errorKey : String)
    (params : Params) (template : List String) : ValidatorContext W :=
  { ctx with fragments := ctx.fragments ++ [Step.Add function errorKey params template] }

/-- Modelled from the spec: `Add` registers a predicate with no parameter of its own. -/
def Add (ctx : ValidatorContext W) (function : Predicate W) (errorKey : String)
    (template : List String) : ValidatorContext W :=
  ctx.AddWithParams function errorKey [] template

/-- Modelled from the spec: `AddWithValue` registers a predicate whose message shows the
value it compares with. -/
def AddWithValue (ctx : ValidatorContext W) (function : Predicate W) (errorKey : String)
    (value : Valgo.Value) (template : List String) : ValidatorContext W :=
  ctx.AddWithParams function errorKey [("value", value)] template

end ValidatorContext

/-- A Go closure without side effect, as a predicate on the world. -/
def Predicate.ofBool {W : Type} (b : Bool) : Predicate W := fun w => (b, w)

/-! ## String checks (`validator_string.go`) -/

/-- Go `len` of a string: its number of bytes. -/
def len (s : String) : Nat := s.utf8ByteSize

/-- White space as `unicode.IsSpace` defines it. -/
def isSpace (c : Char) : Bool :=
  let n := c.toNat
  n == 0x09 || n == 0x0A || n == 0x0B || n == 0x0C || n == 0x0D || n == 0x20 ||
  n == 0x85 || n == 0xA0 || n == 0x1680 || (0x2000 ≤ n && n ≤ 0x200A) ||
  n == 0x2028 || n == 0x2029 || n == 0x202F || n == 0x205F || n == 0x3000

/-- Go `strings.TrimSpace`: leading and trailing white space removed. -/
def TrimSpace (s : String) : String :=
  String.mk ((s.data.dropWhile isSpace).reverse.dropWhile isSpace).reverse

/-- Source: `isStringEqualTo`. -/
def isStringEqualTo (v0 v1 : String) : Bool := v0 == v1

/-- Source: `isStringEmpty`. -/
def isStringEmpty (v : String) : Bool := len v == 0

/-- Source: `isStringBlank`. -/
def isStringBlank (v : String) : Bool := len (TrimSpace v) == 0

/-- A compiled regular expression of Go's `regexp` package: its source text and its
matcher. -/
structure Regexp where
  source : String
  MatchString : String → Bool

/-- Source: `isStringMatchingTo`. -/
def isStringMatchingTo (v : String) (regex : Regexp) : Bool := regex.MatchString v

/-- The type assertion `Value().(T)` of a string validator. -/
def Value.asString : Value → String
  | .string s => s
  | _ => ""

/-- Source: `ValidatorString`. -/
structure ValidatorString (W : Type) where
  context : ValidatorContext W

/-- Source: `String(value, nameAndTitle...)`, in lower case here, `String` being the type
of strings. -/
def string {W : Type} (value : String) (nameAndTitle : List String) : ValidatorString W :=
  { context := NewContext (Value.string value) nameAndTitle }

namespace ValidatorString

variable {W : Type}

/-- Source: `ValidatorString.Context`. -/
def Context (validator : ValidatorString W) : ValidatorContext W := validator.context

/-- Source: `ValidatorString.Not`. -/
def Not (validator : ValidatorString W) : ValidatorString W :=
  { context := validator.context.Not }

/-- Source: `ValidatorString.EqualTo`. -/
def EqualTo (validator : ValidatorString W) (value : String) (template : List String) :
    ValidatorString W :=
  { context := validator.context.AddWithValue
      (Predicate.ofBool (isStringEqualTo validator.context.Value.asString value))
      ErrorKeyEqualTo (Value.string value) template }

/-- Source: `ValidatorString.Empty`. -/
def Empty (validator : ValidatorString W) (template : List String) : ValidatorString W :=
  { context := validator.context.Add
      (Predicate.ofBool (isStringEmpty validator.context.Value.asString))
      ErrorKeyEmpty template }

/-- Source: `ValidatorString.Blank`. -/
def Blank (validator : ValidatorString W) (template : List String) : ValidatorString W :=
  { context := validator.context.Add
      (Predicate.ofBool (isStringBlank validator.context.Value.asString))
      ErrorKeyBlank template }

/-- Source: `ValidatorString.Passing`; the custom function may have side effects. -/
def Passing (validator : ValidatorString W) (function : String → Predicate W)
    (template : List String) : ValidatorString W :=
  { context := validator.context.Add
      (function validator.context.Value.asString)
      ErrorKeyPassing template }

/-- Source: `ValidatorString.MatchingTo`. -/
def MatchingTo (validator : ValidatorString W) (regex : Regexp) (template : List String) :
    ValidatorString W :=
  { context := validator.context.AddWithParams
      (Predicate.ofBool (isStringMatchingTo validator.context.Value.asString regex))
      ErrorKeyMatchingTo
      [("title", Value.string validator.context.titleField), ("regexp", Value.regexp regex.source)]
      template }

end ValidatorString

/-! ## Boolean checks (`validator_boolean_p.go`) -/

/-- Modelled from the spec: `isBoolEqual`, a helper of the boolean validator whose Go
source is not part of the sources. -/
def isBoolEqual (v0 v1 : Bool) : Bool := v0 == v1

/-- Modelled from the spec: `isBoolTrue`, a helper of the boolean validator whose Go
source is not part of the sources. -/
def isBoolTrue (v : Bool) : Bool := v == true

/-- Modelled from the spec: `isBoolFalse`, a helper of the boolean validator whose Go
source is not part of the sources. -/
def isBoolFalse (v : Bool) : Bool := v == false

/-- The type assertion `Value().(*T)` of a boolean pointer validator. -/
def Value.asBoolP : Value → Option Bool
  | .boolP p => p
  | _ => none

/-- The type assertion `Value().(T)` of a boolean validator. -/
def Value.asBool : Value → Bool
  | .bool b => b
  | _ => false

/-- Source: `ValidatorBoolP`. -/
structure ValidatorBoolP (W : Type) where
  context : ValidatorContext W

/-- Source: `BoolP(value, nameAndTitle...)`; a nil pointer is `none`. -/
def BoolP {W : Type} (value : Option Bool) (nameAndTitle : List String) : ValidatorBoolP W :=
  { context := NewContext (Value.boolP value) nameAndTitle }

namespace ValidatorBoolP

variable {W : Type}

/-- Source: `ValidatorBoolP.Context`. -/
def Context (validator : ValidatorBoolP W) : ValidatorContext W := validator.context

/-- Source: `ValidatorBoolP.Not`. -/
def Not (validator : ValidatorBoolP W) : ValidatorBoolP W :=
  { context := validator.context.Not }

/-- Source: `ValidatorBoolP.EqualTo`: the pointer is not nil and its target equals `value`. -/
def EqualTo (validator : ValidatorBoolP W) (value : Bool) (template : List String) :
    ValidatorBoolP W :=
  { context := validator.context.AddWithValue
      (Predicate.ofBool (match validator.context.Value.asBoolP with
        | none => false
        | some b => isBoolEqual b value))
      ErrorKeyEqualTo (Value.bool value) template }

/-- Source: `ValidatorBoolP.True`. -/
def True (validator : ValidatorBoolP W) (template : List String) : ValidatorBoolP W :=
  { context := validator.context.Add
      (Predicate.ofBool (match validator.context.Value.asBoolP with
        | none => false
        | some b => isBoolTrue b))
      ErrorKeyTrue template }

/-- Source: `ValidatorBoolP.False`. -/
def False (validator : ValidatorBoolP W) (template : List String) : ValidatorBoolP W :=
  { context := validator.context.Add
      (Predicate.ofBool (match validator.context.Value.asBoolP with
        | none => false
        | some b => isBoolFalse b))
      ErrorKeyFalse template }

/-- Source: `ValidatorBoolP.Nil`. -/
def Nil (validator : ValidatorBoolP W) (template : List String) : ValidatorBoolP W :=
  { context := validator.context.Add
      (Predicate.ofBool (validator.context.Value.asBoolP).isNone)
      ErrorKeyNil template }

/-- Source: `ValidatorBoolP.Passing`; the custom function may have side effects. -/
def Passing (validator : ValidatorBoolP W) (function : Option Bool → Predicate W)
    (template : List String) : ValidatorBoolP W :=
  { context := validator.context.Add
      (function validator.context.Value.asBoolP)
      ErrorKeyPassing template }

end ValidatorBoolP

/-- Modelled from the spec: the boolean validator `ValidatorBool`, whose Go source is not
part of the sources; it is the twin of `ValidatorBoolP` on a value instead of a pointer. -/
structure ValidatorBool (W : Type) where
  context : ValidatorContext W

/-- Modelled from the spec: `Bool(value, nameAndTitle...)` (its Go source is not part of
the sources), in lower case here, `Bool` being the type of booleans. -/
def bool {W : Type} (value : Bool) (nameAndTitle : List String) : ValidatorBool W :=
  { context := NewContext (Value.bool value) nameAndTitle }

namespace ValidatorBool

variable {W : Type}

/-- Modelled from the spec: `ValidatorBool.Not` (its Go source is not part of the
sources). -/
def Not (validator : ValidatorBool W) : ValidatorBool W :=
  { context := validator.context.Not }

/-- Modelled from the spec: `ValidatorBool.EqualTo` (its Go source is not part of the
sources). -/
def EqualTo (validator : ValidatorBool W) (value : Bool) (template : List String) :
    ValidatorBool W :=
  { context := validator.context.AddWithValue
      (Predicate.ofBool (isBoolEqual validator.context.Value.asBool value))
      ErrorKeyEqualTo (Value.bool value) template }

end ValidatorBool

/-! ## Names and titles -/

/-- Modelled from the spec: the separator characters of a field name (the humanizer is not
part of the sources). The spec names no set; the underscore is the separator of its
examples. -/
def isSeparator (c : Char) : Bool := c == '_'

/-- Capitalizes the first character of each word of a text whose words are separated by
spaces; the flag tells whether the next character starts a word. -/
def capitalizeWords : Bool → List Char → List Char
  | _, [] => []
  | start, c :: cs =>
    if c = ' ' then ' ' :: capitalizeWords true cs
    else (if start then c.toUpper else c) :: capitalizeWords false cs

/-- Modelled from the spec: the humanized form of a name (the humanizer is not part of the
sources): separator characters replaced with spaces, each word capitalized. -/
def humanizeName (name : String) : String :=
  String.mk (capitalizeWords true (name.data.map (fun c => if isSeparator c then ' ' else c)))

/-- Modelled from the spec: the name of a field, `value_N` with the 0-based index of the
value in the session when no name is supplied. -/
def fieldName (index : Nat) (name : Option String) : String :=
  match name with
  | some n => n
  | none => "value_" ++ toString index

/-- Modelled from the spec: the title of a field, the humanized name when no title is
supplied. -/
def fieldTitle (name : String) (title : Option String) : String :=
  match title with
  | some t => t
  | none => humanizeName name

/-! ## Session -/

/-- Modelled from the spec: a custom serializer, from the error set to a byte sequence or
an error. -/
abbrev Serializer := ErrorSet → Except String String

/-- Modelled from the spec: the session configuration (its Go source is not part of the
sources), with the custom serializer as its one option. -/
structure Options where
  MarshalJsonFunc : Option Serializer

/-- Modelled from the spec: the Session (its Go source is not part of the sources): the
number of contexts evaluated so far, the error set, the active locale and the serializer
given at construction. -/
structure Session where
  currentIndex : Nat
  errorSet : ErrorSet
  locale : Catalog
  marshalJsonFunc : Option Serializer

/-- Modelled from the spec: `New(options)`, a valid session with no error. -/
def New (options : Options) : Session :=
  { currentIndex := 0
    errorSet := ErrorSet.empty
    locale := defaultMessages
    marshalJsonFunc := options.MarshalJsonFunc }

/-- Modelled from the spec: the evaluation context a session opens for a chain in a mode,
with the name and the title derived at the index of the chain. -/
def openContext {W : Type} (mode : Mode) (index : Nat) (chain : ValidatorContext W) : Context :=
  { value := chain.value
    name := fieldName index chain.name
    title := fieldTitle (fieldName index chain.name) chain.title
    negated := false
    valid := true
    pendingErrorRecord := none
    mode := mode
    shortCircuited := false }

/-- Modelled from the spec: one registration of a chain funnelled into the context's two
primitives, `not` and `add`. -/
def Context.step {W : Type} (cat : Catalog) (ctx : Context) (st : Step W) (w : W) : Context × W :=
  match st with
  | Step.Not => (ctx.not, w)
  | Step.Add predicate errorKey params template =>
    ctx.add cat predicate errorKey params template.head? w

/-- Modelled from the spec: the registrations of a chain, run in order. -/
def Context.run {W : Type} (cat : Catalog) : Context → List (Step W) → W → Context × W
  | ctx, [], w => (ctx, w)
  | ctx, st :: rest, w =>
    let r := ctx.step cat st w
    Context.run cat r.1 rest r.2

/-- Modelled from the spec: the failures a context accumulated, folded into the error set
of the session. -/
def ErrorSet.fold (es : ErrorSet) (ctx : Context) : ErrorSet :=
  match ctx.pendingErrorRecord with
  | some r => es.append r
  | none => es

namespace Session

variable {W : Type}

/-- Modelled from the spec: the context a session opens for a chain, after the given
registrations ran on it. -/
def evalSteps (mode : Mode) (s : Session) (chain : ValidatorContext W) (steps : List (Step W))
    (w : W) : Context × W :=
  (openContext mode s.currentIndex chain).run s.locale steps w

/-- Modelled from the spec: one chain evaluated in a mode: a context is opened, the registrations run, and the
context's failures are merged into the session's error set. -/
def validate (mode : Mode) (s : Session) (chain : ValidatorContext W) (w : W) : Session × W :=
  let r := evalSteps mode s chain chain.fragments w
  ({ s with currentIndex := s.currentIndex + 1, errorSet := s.errorSet.fold r.1 }, r.2)

/-- Modelled from the spec: several chains supplied in one call, each contributing to the
same session. -/
def validateAll (mode : Mode) : Session → List (ValidatorContext W) → W → Session × W
  | s, [], w => (s, w)
  | s, chain :: rest, w =>
    let r := validate mode s chain w
    validateAll mode r.1 rest r.2

/-- Modelled from the spec: `Is`, the fail-fast entry point. -/
def Is (s : Session) (chains : List (ValidatorContext W)) (w : W) : Session × W :=
  validateAll Mode.FailFast s chains w

/-- Modelled from the spec: `Check`, the accumulate-all entry point. -/
def Check (s : Session) (chains : List (ValidatorContext W)) (w : W) : Session × W :=
  validateAll Mode.AccumulateAll s chains w

/-- Modelled from the spec: `AddErrorMessage(name, text)`, direct injection: it creates or
extends the record of `name` as a failing predicate would and marks the session invalid.
No value is at hand, and the title is the humanized name. -/
def AddErrorMessage (s : Session) (name : String) (message : String) : Session :=
  let record : ErrorRecord :=
    { name := name, title := humanizeName name, value := Value.other "<nil>",
      messages := [message] }
  { s with errorSet := s.errorSet.append record }

/-- Modelled from the spec: `Valid()`. -/
def Valid (s : Session) : Bool := s.errorSet.valid

/-- Modelled from the spec: `Errors()`, the read view of the error set. -/
def Errors (s : Session) : List ErrorRecord := s.errorSet.entries

/-- Modelled from the spec: `IsValid(name)`: the error set has no entry for `name`. -/
def IsValid (s : Session) (name : String) : Bool := (s.errorSet.get name).isNone

end Session

/-! ## Auxiliary definitions of the proofs -/

/-- The fields of a context that no registration changes. -/
def Context.SameField (a b : Context) : Prop :=
  a.name = b.name ∧ a.title = b.title ∧ a.value = b.value ∧ a.mode = b.mode

/-- A short-circuited context has a pending record. -/
def Context.Marked (ctx : Context) : Prop :=
  ctx.shortCircuited = true → ctx.pendingErrorRecord.isSome = true

/-- Lookup of a name among entries. -/
def findEntry (entries : List ErrorRecord) (name : String) : Option ErrorRecord :=
  entries.find? (fun e => e.name == name)

/-- The regular expression `a` of the repository's tests: it matches the strings holding
the letter a. -/
def regexA : Regexp := { source := "a", MatchString := fun s => s.data.contains 'a' }

/-! ## The chains of the repository's tests -/

/-- The chain `String("", "email").Not().Blank().MatchingTo(/a/)` of `error_test.go`. -/
def emailChain (W : Type) : ValidatorContext W :=
  ((((string "" ["email"]).Not).Blank []).MatchingTo regexA []).context

/-- The registration `MatchingTo(/a/)` of the chain on "email". -/
def emailMatchingStep (W : Type) : Step W :=
  Step.Add (Predicate.ofBool (isStringMatchingTo "" regexA)) ErrorKeyMatchingTo
    [("title", Value.string ""), ("regexp", Value.regexp "a")] []

/-! ## Accumulate-all evaluation, after the words of the spec -/

/-- Every registered predicate of a chain evaluated in registration order, each under the
negation pending for it, whatever failed before: per predicate its outcome and the message
it records when the outcome is false, and the world after the last predicate. -/
def evaluateAll {W : Type} (cat : Catalog) (ctx : Context) :
    Bool → List (Step W) → W → List (Bool × String) × W
  | _, [], w => ([], w)
  | _, Step.Not :: rest, w => evaluateAll cat ctx true rest w
  | negated, Step.Add p key params tmpl :: rest, w =>
    let res := p w
    let later := evaluateAll cat ctx false rest res.2
    ((xor res.1 negated, ctx.message cat negated key params tmpl.head?) :: later.1, later.2)

/-- The messages of the failed outcomes, in order. -/
def failedMessages (outcomes : List (Bool × String)) : List String :=
  (outcomes.filter (fun o => !o.1)).map (fun o => o.2)

/-- The number of predicates registered in a chain. -/
def countPredicates {W : Type} : List (Step W) → Nat
  | [] => 0
  | Step.Not :: rest => countPredicates rest
  | Step.Add _ _ _ _ :: rest => countPredicates rest + 1

/-- The pending record of a context after further messages are recorded in order. -/
def Context.recordAll (ctx : Context) : List String → Option ErrorRecord
  | [] => ctx.pendingErrorRecord
  | m :: ms => Context.recordAll { ctx with pendingErrorRecord := some (ctx.record m) } ms

/-- The outcomes of a chain a session checks in accumulate-all mode, after the words of the
spec: all its predicates evaluated in registration order. -/
def Session.outcomes {W : Type} (s : Session) (chain : ValidatorContext W) (w : W) :
    List (Bool × String) × W :=
  evaluateAll s.locale (openContext Mode.AccumulateAll s.currentIndex chain) false
    chain.fragments w

/-- The record a chain hands to the error set of a session for the given messages. -/
def Session.recordOf {W : Type} (s : Session) (chain : ValidatorContext W)
    (messages : List String) : ErrorRecord :=
  { name := fieldName s.currentIndex chain.name
    title := fieldTitle (fieldName s.currentIndex chain.name) chain.title
    value := chain.value
    messages := messages }

/-! ## The `Validator` session (`validator.go`) -/

/-- Modelled from the spec: the error record `Error` that `validator.go` fills (its
declaration is not part of the sources): name, title, value and messages of one value. It is declared under `Validator` here, `Error` being also the name of the error
value of the generic session. -/
structure Validator.Error where
  Name : String
  Title : String
  Value : Value
  Messages : List String
  deriving DecidableEq, Repr

/-- Source: `Validator`. The pointer `currentError` is `none` when nil; `errors` holds
copies of records, as the Go slice of struct values does. -/
structure Validator where
  currentValue : Value
  currentTitle : String
  currentName : String
  currentValid : Bool
  currentIndex : Int
  currentError : Option Validator.Error
  _locale : Catalog
  valid : Bool
  errors : List Validator.Error

/-- Go `int` addition on a 64-bit platform: the sum wraps around. -/
def wrapInt (i : Int) : Int := (i + 2 ^ 63) % 2 ^ 64 - 2 ^ 63

namespace Validator

/-- Source: `Validator.Is`. -/
def Is (validator : Validator) (value : Value) : Validator :=
  { validator with
      currentIndex := wrapInt (validator.currentIndex + 1)
      currentValue := value
      currentValid := true
      currentName := "value" ++ toString (wrapInt (validator.currentIndex + 1))
      currentTitle := "value" ++ toString (wrapInt (validator.currentIndex + 1)) }

/-- Source: `Validator.Named`. -/
def Named (validator : Validator) (name : String) : Validator :=
  { validator with currentName := name }

/-- Source: `Validator.Titled`. -/
def Titled (validator : Validator) (title : String) : Validator :=
  { validator with currentTitle := title }

/-- Source: `Validator.Valid`. -/
def Valid (validator : Validator) : Bool := validator.valid

/-- Source: `Validator.Errors`. -/
def Errors (validator : Validator) : List Validator.Error := validator.errors

/-- The calls of a `Validator` that open, name or title a value. -/
inductive Call where
  | Is (value : Value)
  | Named (name : String)
  | Titled (title : String)

/-- One such call applied to a validator. -/
def call (validator : Validator) : Call → Validator
  | Call.Is value => validator.Is value
  | Call.Named name => validator.Named name
  | Call.Titled title => validator.Titled title

/-- A sequence of such calls, applied in order. -/
def calls (validator : Validator) (cs : List Call) : Validator :=
  cs.foldl call validator

end Validator

/-! ## Sessions with no failure -/

/-- The sessions on which no predicate has failed and no error message has been injected:
a new session, and such a session after a chain all of whose outcomes are true was
evaluated in either mode. -/
inductive Session.Clean : Session → Prop where
  | new (options : Options) : Session.Clean (New options)
  | is {W : Type} (s : Session) (chain : ValidatorContext W) (w : W) :
      Session.Clean s → (∀ o ∈ (s.outcomes chain w).1, o.1 = true) →
      Session.Clean (s.Is [chain] w).1
  | check {W : Type} (s : Session) (chain : ValidatorContext W) (w : W) :
      Session.Clean s → (∀ o ∈ (s.outcomes chain w).1, o.1 = true) →
      Session.Clean (s.Check [chain] w).1

/-- A valid validator with no error and no value opened yet, for the examples. -/
def Validator.fresh : Validator :=
  { currentValue := Value.other "<nil>"
    currentTitle := ""
    currentName := ""
    currentValid := true
    currentIndex := -1
    currentError := none
    _locale := []
    valid := true
    errors := [] }

/-! ## Reachable sessions -/

/-- The sessions a caller can build: a new session, and a session after `Is`, `Check` or
`AddErrorMessage`. -/
inductive Session.Reachable : Session → Prop where
  | new (options : Options) : Session.Reachable (New options)
  | is {W : Type} (s : Session) (chains : List (ValidatorContext W)) (w : W) :
      Session.Reachable s → Session.Reachable (s.Is chains w).1
  | check {W : Type} (s : Session) (chains : List (ValidatorContext W)) (w : W) :
      Session.Reachable s → Session.Reachable (s.Check chains w).1
  | addErrorMessage (s : Session) (name message : String) :
      Session.Reachable s → Session.Reachable (s.AddErrorMessage name message)

/-- The pending record of a context, if any, is the record of the context's field and holds
a message. -/
def Context.RecordOk (ctx : Context) : Prop :=
  ∀ r, ctx.pendingErrorRecord = some r →
    r.name = ctx.name ∧ r.title = ctx.title ∧ r.value = ctx.value ∧ r.messages ≠ []

/-- Every entry holds a message. -/
def EntriesOk (entries : List ErrorRecord) : Prop :=
  ∀ e ∈ entries, e.messages ≠ []

/-- The chains of `TestIsValidByName`. -/
def firstNameChain (W : Type) : ValidatorContext W :=
  (((string "Steve" ["firstName"]).Not).Blank []).context

/-- The second chain of `TestIsValidByName`. -/
def lastNameChain (W : Type) : ValidatorContext W :=
  (((string "" ["lastName"]).Not).Blank []).context

/-- The name and the messages of each entry, in order: the mapping the error set shows. -/
def shownEntries (entries : List ErrorRecord) : List (String × List String) :=
  entries.map (fun e => (e.name, e.messages))

/-- The chain `String("Vitalik Buterin", "name").Blank()` of `error_test.go`. -/
def nameChain (W : Type) : ValidatorContext W :=
  ((string "Vitalik Buterin" ["name"]).Blank []).context

/-! ## The error value and its serialization -/

/-- The hexadecimal digit of a number below 16, in lower case. -/
def hexDigit (n : Nat) : Char :=
  if n < 10 then Char.ofNat (48 + n) else Char.ofNat (87 + n)

/-- The characters `encoding/json` writes as a `u` escape. -/
def needsHexEscape (c : Char) : Bool :=
  c.toNat < 0x20 || c == '<' || c == '>' || c == '&' || c.toNat == 0x2028 || c.toNat == 0x2029

/-- The escaped form of one character of a JSON string as `encoding/json` writes it: the
quote and the backslash are escaped, line feed, carriage return and tab have their short
escapes, the other control characters, the HTML characters and the two Unicode line
separators are written as a `u` escape of four hexadecimal digits. Go releases from 1.22 on
write the backspace and the form feed with a short escape instead of the `u` escape written
here; both forms decode to the same character. -/
def escapeChar (c : Char) : List Char :=
  if c = '"' then ['\\', '"']
  else if c = '\\' then ['\\', '\\']
  else if c = '\n' then ['\\', 'n']
  else if c = '\r' then ['\\', 'r']
  else if c = '\t' then ['\\', 't']
  else if needsHexEscape c then
    ['\\', 'u', hexDigit (c.toNat / 4096), hexDigit (c.toNat / 256 % 16),
      hexDigit (c.toNat / 16 % 16), hexDigit (c.toNat % 16)]
  else [c]

/-- The escaped characters of a text. -/
def escapeChars : List Char → List Char
  | [] => []
  | c :: cs => escapeChar c ++ escapeChars cs

/-- A JSON string: the escaped text between quotes. -/
def encodeString (s : String) : List Char :=
  '"' :: (escapeChars s.data ++ ['"'])

/-- The strings of a JSON array after the first, each behind a comma. -/
def encodeMore : List String → List Char
  | [] => []
  | s :: rest => ',' :: (encodeString s ++ encodeMore rest)

/-- A JSON array of strings. -/
def encodeArray : List String → List Char
  | [] => ['[', ']']
  | s :: rest => '[' :: (encodeString s ++ (encodeMore rest ++ [']']))

/-- One member of a JSON object: the key, a colon, the array. -/
def encodeMember (kv : String × List String) : List Char :=
  encodeString kv.1 ++ ':' :: encodeArray kv.2

/-- The members of a JSON object after the first, each behind a comma. -/
def encodeMoreMembers : List (String × List String) → List Char
  | [] => []
  | kv :: rest => ',' :: (encodeMember kv ++ encodeMoreMembers rest)

/-- A JSON object whose values are arrays of strings, as `json.Marshal` writes a map from
string to slice of strings, the members in the order given. -/
def encodeObject : List (String × List String) → List Char
  | [] => ['\x7b', '\x7d']
  | kv :: rest => '\x7b' :: (encodeMember kv ++ (encodeMoreMembers rest ++ ['\x7d']))

/-- Go's order on strings, byte by byte; on well-formed text it is the order of the code
points. -/
def keyLE : List Char → List Char → Bool
  | [], _ => true
  | _ :: _, [] => false
  | a :: as, b :: bs =>
    if a.toNat < b.toNat then true
    else if b.toNat < a.toNat then false
    else keyLE as bs

/-- Insertion of a member into members sorted by key. -/
def insertMember (kv : String × List String) :
    List (String × List String) → List (String × List String)
  | [] => [kv]
  | x :: rest => if keyLE kv.1.data x.1.data then kv :: x :: rest else x :: insertMember kv rest

/-- The members of a map in the order `json.Marshal` writes them: sorted by key. -/
def sortMembers : List (String × List String) → List (String × List String)
  | [] => []
  | kv :: rest => insertMember kv (sortMembers rest)

/-- The value of a hexadecimal digit. -/
def hexValue (c : Char) : Option Nat :=
  if 48 ≤ c.toNat ∧ c.toNat ≤ 57 then some (c.toNat - 48)
  else if 97 ≤ c.toNat ∧ c.toNat ≤ 102 then some (c.toNat - 87)
  else if 65 ≤ c.toNat ∧ c.toNat ≤ 70 then some (c.toNat - 55)
  else none

/-- The character a short escape stands for. -/
def decodeEscape (e : Char) : Option Char :=
  if e = '"' then some '"'
  else if e = '\\' then some '\\'
  else if e = '/' then some '/'
  else if e = 'b' then some (Char.ofNat 8)
  else if e = 'f' then some (Char.ofNat 12)
  else if e = 'n' then some '\n'
  else if e = 'r' then some '\r'
  else if e = 't' then some '\t'
  else none

/-- The text of a JSON string read after its opening quote, and what follows its closing
quote. -/
def decodeChars : List Char → Option (List Char × List Char)
  | [] => none
  | c :: rest =>
    if c = '"' then some ([], rest)
    else if c = '\\' then
      match rest with
      | [] => none
      | e :: rest2 =>
        if e = 'u' then
          match rest2 with
          | a :: b :: c2 :: d :: rest3 =>
            match hexValue a, hexValue b, hexValue c2, hexValue d, decodeChars rest3 with
            | some x, some y, some z, some t, some (s, r) =>
              some (Char.ofNat (4096 * x + 256 * y + 16 * z + t) :: s, r)
            | _, _, _, _, _ => none
          | _ => none
        else
          match decodeEscape e, decodeChars rest2 with
          | some ch, some (s, r) => some (ch :: s, r)
          | _, _ => none
    else
      match decodeChars rest with
      | some (s, r) => some (c :: s, r)
      | none => none

/-- A JSON string read from its opening quote. -/
def decodeString : List Char → Option (String × List Char)
  | [] => none
  | c :: rest =>
    if c = '"' then
      match decodeChars rest with
      | some (s, r) => some (String.mk s, r)
      | none => none
    else none

/-- The strings of a JSON array after the first, up to the closing bracket. -/
def decodeMore : Nat → List Char → Option (List String × List Char)
  | 0, _ => none
  | _ + 1, [] => none
  | fuel + 1, c :: rest =>
    if c = ']' then some ([], rest)
    else if c = ',' then
      match decodeString rest with
      | some (s, r) =>
        match decodeMore fuel r with
        | some (ss, r2) => some (s :: ss, r2)
        | none => none
      | none => none
    else none

/-- A JSON array of strings. -/
def decodeArray (fuel : Nat) : List Char → Option (List String × List Char)
  | [] => none
  | c :: rest =>
    if c = '[' then
      match rest with
      | [] => none
      | d :: rest2 =>
        if d = ']' then some ([], rest2)
        else
          match decodeString (d :: rest2) with
          | some (s, r) =>
            match decodeMore fuel r with
            | some (ss, r2) => some (s :: ss, r2)
            | none => none
          | none => none
    else none

/-- One member of a JSON object. -/
def decodeMember (fuel : Nat) (cs : List Char) : Option ((String × List String) × List Char) :=
  match decodeString cs with
  | some (k, r) =>
    match r with
    | [] => none
    | c :: r2 =>
      if c = ':' then
        match decodeArray fuel r2 with
        | some (v, r3) => some ((k, v), r3)
        | none => none
      else none
  | none => none

/-- The members of a JSON object after the first, up to the closing brace. -/
def decodeMoreMembers : Nat → List Char → Option (List (String × List String) × List Char)
  | 0, _ => none
  | _ + 1, [] => none
  | fuel + 1, c :: rest =>
    if c = '\x7d' then some ([], rest)
    else if c = ',' then
      match decodeMember fuel rest with
      | some (kv, r) =>
        match decodeMoreMembers fuel r with
        | some (kvs, r2) => some (kv :: kvs, r2)
        | none => none
      | none => none
    else none

/-- A JSON object whose values are arrays of strings. -/
def decodeObject (fuel : Nat) : List Char → Option (List (String × List String) × List Char)
  | [] => none
  | c :: rest =>
    if c = '\x7b' then
      match rest with
      | [] => none
      | d :: rest2 =>
        if d = '\x7d' then some ([], rest2)
        else
          match decodeMember fuel (d :: rest2) with
          | some (kv, r) =>
            match decodeMoreMembers fuel r with
            | some (kvs, r2) => some (kv :: kvs, r2)
            | none => none
          | none => none
    else none

/-- Go `json.Marshal` on a map from field name to messages: the members sorted by key, the
strings escaped. -/
def jsonMarshal (m : List (String × List String)) : String :=
  String.mk (encodeObject (sortMembers m))

/-- Go `json.Unmarshal` into a map from string to slice of strings: the whole text must be
one object. Only the compact text that `jsonMarshal` writes is read: white space between
the tokens, which Go skips, is not accepted here. -/
def jsonUnmarshal (text : String) : Option (List (String × List String)) :=
  match decodeObject text.data.length text.data with
  | some (m, []) => some m
  | _ => none

/-- Go map lookup on the decoded mapping. -/
def lookupMember (m : List (String × List String)) (name : String) : Option (List String) :=
  match m.find? (fun kv => kv.1 == name) with
  | some kv => some kv.2
  | none => none

/-- Modelled from the spec: the error value `Error` that `Error()` returns (its Go source
is not part of the sources): the error set and the serializer to use, if any. -/
structure Error where
  errors : ErrorSet
  marshalJsonFunc : Option Serializer

/-- Modelled from the spec: the default serialized shape, a mapping from field name to the
ordered messages of the field, written by `json.Marshal`. -/
def defaultMarshal (es : ErrorSet) : String :=
  jsonMarshal (shownEntries es.entries)

/-- Modelled from the spec: `Error.MarshalJSON`: a custom serializer, when one is supplied,
replaces the default shape. -/
def Error.MarshalJSON (e : Error) : Except String String :=
  match e.marshalJsonFunc with
  | some f => f e.errors
  | none => Except.ok (defaultMarshal e.errors)

/-- Modelled from the spec: `Error(marshalJsonFunc...)`: nil, here `none`, when the session
is valid; else the error value, with the serializer of the call if one is passed, else the
one given at construction. -/
def Session.Error (s : Session) (marshalJsonFunc : List Serializer) : Option Error :=
  if s.Valid then none
  else
    some { errors := s.errorSet
           marshalJsonFunc :=
             match marshalJsonFunc with
             | f :: _ => some f
             | [] => s.marshalJsonFunc }

/-- The validity flag of an error set agrees with its entries. -/
def ErrorSet.Consistent (es : ErrorSet) : Prop :=
  es.valid = true ↔ es.entries = []

/-- The chain `String(" ").Blank()` of `TestNotError`. -/
def blankChain (W : Type) : ValidatorContext W :=
  ((string " " []).Blank []).context

/-- The chain `String("Vitalik Buterin").Blank()` of `TestError`. -/
def vitalikChain (W : Type) : ValidatorContext W :=
  ((string "Vitalik Buterin" []).Blank []).context

/-- A custom serializer in the manner of `TestCustomErrorMarshallJSON`: the default mapping
under a root member `errors`. -/
def customFunc : Serializer :=
  fun es => Except.ok ("\x7b\"errors\":" ++ defaultMarshal es ++ "\x7d")

/-- Another custom serializer, which writes only the number of fields in error. -/
def countFunc : Serializer :=
  fun es => Except.ok (toString es.entries.length)

/-- The chain `String("", "name").Not().Blank()` of `error_test.go`. -/
def emptyNameChain (W : Type) : ValidatorContext W :=
  (((string "" ["name"]).Not).Blank []).context

/-- The chain `BoolP(&valFalse).True()` of `validator_boolean_p_test.go`. -/
def boolPTrueChain (W : Type) : ValidatorContext W :=
  ((BoolP (some false) []).True []).context

/-- A chain whose second check counts its evaluations in the world:
`String("", "email").Not().Blank().Passing(f)`, where `f` passes and adds one to a counter. -/
def countingChain : ValidatorContext Nat :=
  ((((string "" ["email"]).Not).Blank []).Passing (fun _ n => (true, n + 1)) []).context

/-! ## The other string checks (`validator_string.go`) -/

/-- Go's comparison of two strings: the first place where they differ decides, and a
string that is a proper beginning of another comes first. Go compares bytes; on the
well-formed text of the embedding that is the order of the code points. -/
def compareString : List Char → List Char → Ordering
  | [], [] => Ordering.eq
  | [], _ :: _ => Ordering.lt
  | _ :: _, [] => Ordering.gt
  | a :: as, b :: bs =>
    if a.toNat < b.toNat then Ordering.lt
    else if b.toNat < a.toNat then Ordering.gt
    else compareString as bs

/-- Go `v0 < v1` on strings. -/
def stringLT (v0 v1 : String) : Bool := decide (compareString v0.data v1.data = Ordering.lt)

/-- Go `v0 <= v1` on strings. -/
def stringLE (v0 v1 : String) : Bool := decide (compareString v0.data v1.data ≠ Ordering.gt)

/-- Go `v0 > v1` on strings. -/
def stringGT (v0 v1 : String) : Bool := decide (compareString v0.data v1.data = Ordering.gt)

/-- Go `v0 >= v1` on strings. -/
def stringGE (v0 v1 : String) : Bool := decide (compareString v0.data v1.data ≠ Ordering.lt)

/-- Source: `isStringGreaterThan`. -/
def isStringGreaterThan (v0 v1 : String) : Bool := stringGT v0 v1

/-- Source: `isStringGreaterOrEqualTo`. -/
def isStringGreaterOrEqualTo (v0 v1 : String) : Bool := stringGE v0 v1

/-- Source: `isStringLessThan`. -/
def isStringLessThan (v0 v1 : String) : Bool := stringLT v0 v1

/-- Source: `isStringLessOrEqualTo`. -/
def isStringLessOrEqualTo (v0 v1 : String) : Bool := stringLE v0 v1

/-- Source: `isStringBetween`. -/
def isStringBetween (v min max : String) : Bool := stringGE v min && stringLE v max

/-- Source: `isStringInSlice`: the loop over the slice, which returns at the first element
equal to `v`. -/
def isStringInSlice (v : String) : List String → Bool
  | [] => false
  | x :: rest => if v == x then true else isStringInSlice v rest

/-- Source: `isStringMaxLength`; the length is a Go `int`. -/
def isStringMaxLength (v : String) (length : Int) : Bool := decide ((len v : Int) ≤ length)

/-- Source: `isStringMinLength`. -/
def isStringMinLength (v : String) (length : Int) : Bool := decide ((len v : Int) ≥ length)

/-- Source: `isStringLength`. -/
def isStringLength (v : String) (length : Int) : Bool := decide ((len v : Int) = length)

/-- Source: `isStringLengthBetween`. -/
def isStringLengthBetween (v : String) (min max : Int) : Bool :=
  decide ((len v : Int) ≥ min) && decide ((len v : Int) ≤ max)

/-- Modelled from the spec: the error key of the `GreaterThan` check, a lookup token (the
constant `ErrorKeyGreaterThan` is not declared in the sources). -/
def ErrorKeyGreaterThan : String := "greater_than"
/-- Modelled from the spec: the error key of the `GreaterOrEqualTo` check, a lookup token
(the constant `ErrorKeyGreaterOrEqualTo` is not declared in the sources). -/
def ErrorKeyGreaterOrEqualTo : String := "greater_or_equal_to"
/-- Modelled from the spec: the error key of the `LessThan` check, a lookup token (the
constant `ErrorKeyLessThan` is not declared in the sources). -/
def ErrorKeyLessThan : String := "less_than"
/-- Modelled from the spec: the error key of the `LessOrEqualTo` check, a lookup token (the
constant `ErrorKeyLessOrEqualTo` is not declared in the sources). -/
def ErrorKeyLessOrEqualTo : String := "less_or_equal_to"
/-- Modelled from the spec: the error key of the `InSlice` check, a lookup token (the
constant `ErrorKeyInSlice` is not declared in the sources). -/
def ErrorKeyInSlice : String := "in_slice"
/-- Modelled from the spec: the error key of the `MaxLength` check, a lookup token (the
constant `ErrorKeyMaxLength` is not declared in the sources). -/
def ErrorKeyMaxLength : String := "max_length"
/-- Modelled from the spec: the error key of the `MinLength` check, a lookup token (the
constant `ErrorKeyMinLength` is not declared in the sources). -/
def ErrorKeyMinLength : String := "min_length"
/-- Modelled from the spec: the error key of the `Length` check, a lookup token (the
constant `ErrorKeyLength` is not declared in the sources). -/
def ErrorKeyLength : String := "length"
/-- Modelled from the spec: the error key of the `LengthBetween` check, a lookup token (the
constant `ErrorKeyLengthBetween` is not declared in the sources). -/
def ErrorKeyLengthBetween : String := "length_between"
/-- Modelled from the spec: the error key of the `Between` check, a lookup token (the
constant `ErrorKeyBetween` is not declared in the sources). -/
def ErrorKeyBetween : String := "between"

namespace ValidatorString

variable {W : Type}

/-- Source: `ValidatorString.GreaterThan`. -/
def GreaterThan (validator : ValidatorString W) (value : String) (template : List String) :
    ValidatorString W :=
  { context := validator.context.AddWithValue
      (Predicate.ofBool (isStringGreaterThan validator.context.Value.asString value))
      ErrorKeyGreaterThan (Value.string value) template }

/-- Source: `ValidatorString.GreaterOrEqualTo`. -/
def GreaterOrEqualTo (validator : ValidatorString W) (value : String) (template : List String) :
    ValidatorString W :=
  { context := validator.context.AddWithValue
      (Predicate.ofBool (isStringGreaterOrEqualTo validator.context.Value.asString value))
      ErrorKeyGreaterOrEqualTo (Value.string value) template }

/-- Source: `ValidatorString.LessThan`. -/
def LessThan (validator : ValidatorString W) (value : String) (template : List String) :
    ValidatorString W :=
  { context := validator.context.AddWithValue
      (Predicate.ofBool (isStringLessThan validator.context.Value.asString value))
      ErrorKeyLessThan (Value.string value) template }

/-- Source: `ValidatorString.LessOrEqualTo`. -/
def LessOrEqualTo (validator : ValidatorString W) (value : String) (template : List String) :
    ValidatorString W :=
  { context := validator.context.AddWithValue
      (Predicate.ofBool (isStringLessOrEqualTo validator.context.Value.asString value))
      ErrorKeyLessOrEqualTo (Value.string value) template }

/-- Source: `ValidatorString.InSlice`. -/
def InSlice (validator : ValidatorString W) (slice : List String) (template : List String) :
    ValidatorString W :=
  { context := validator.context.AddWithValue
      (Predicate.ofBool (isStringInSlice validator.context.Value.asString slice))
      ErrorKeyInSlice validator.context.Value template }

/-- Source: `ValidatorString.MaxLength`. -/
def MaxLength (validator : ValidatorString W) (length : Int) (template : List String) :
    ValidatorString W :=
  { context := validator.context.AddWithParams
      (Predicate.ofBool (isStringMaxLength validator.context.Value.asString length))
      ErrorKeyMaxLength
      [("title", Value.string validator.context.titleField), ("length", Value.int length)]
      template }

/-- Source: `ValidatorString.MinLength`. -/
def MinLength (validator : ValidatorString W) (length : Int) (template : List String) :
    ValidatorString W :=
  { context := validator.context.AddWithParams
      (Predicate.ofBool (isStringMinLength validator.context.Value.asString length))
      ErrorKeyMinLength
      [("title", Value.string validator.context.titleField), ("length", Value.int length)]
      template }

/-- Source: `ValidatorString.Length`. -/
def Length (validator : ValidatorString W) (length : Int) (template : List String) :
    ValidatorString W :=
  { context := validator.context.AddWithParams
      (Predicate.ofBool (isStringLength validator.context.Value.asString length))
      ErrorKeyLength
      [("title", Value.string validator.context.titleField), ("length", Value.int length)]
      template }

/-- Source: `ValidatorString.LengthBetween`. -/
def LengthBetween (validator : ValidatorString W) (min max : Int) (template : List String) :
    ValidatorString W :=
  { context := validator.context.AddWithParams
      (Predicate.ofBool (isStringLengthBetween validator.context.Value.asString min max))
      ErrorKeyLengthBetween
      [("title", Value.string validator.context.titleField), ("min", Value.int min),
        ("max", Value.int max)]
      template }

/-- Source: `ValidatorString.Between`. -/
def Between (validator : ValidatorString W) (min max : String) (template : List String) :
    ValidatorString W :=
  { context := validator.context.AddWithParams
      (Predicate.ofBool (isStringBetween validator.context.Value.asString min max))
      ErrorKeyBetween
      [("title", Value.string validator.context.titleField), ("min", Value.string min),
        ("max", Value.string max)]
      template }

end ValidatorString

/-! ## The template library that `validator.go` calls -/

/-- A template parsed by the library `fasttemplate`: the texts around the tags, and the
tags, in order. -/
structure Template where
  texts : List (List Char)
  tags : List String
  deriving DecidableEq, Repr

/-- The parsing loop of `fasttemplate` with the start tag and the end tag of `validator.go`,
two opening and two closing braces: the text before each start tag and the tag up to the
next end tag; a start tag with no end tag after it is an error. -/
def parseTemplate : Nat → List Char → Except String (List (List Char) × List String)
  | 0, s => Except.ok ([s], [])
  | fuel + 1, s =>
    match splitAtTag '\x7b' '\x7b' s with
    | none => Except.ok ([s], [])
    | some (text, rest) =>
      match splitAtTag '\x7d' '\x7d' rest with
      | none => Except.error "Cannot find end tag"
      | some (tag, post) =>
        match parseTemplate fuel post with
        | Except.ok (texts, tags) => Except.ok (text :: texts, String.mk tag :: tags)
        | Except.error e => Except.error e

/-- The call `fasttemplate.New(template, start, end)` of `validator.go`: it panics, here an
error, when the template cannot be parsed. -/
def fasttemplateNew (template : String) : Except String Template :=
  match parseTemplate template.data.length template.data with
  | Except.ok (texts, tags) => Except.ok { texts := texts, tags := tags }
  | Except.error e => Except.error e

/-- The substitution of one tag by `fasttemplate`: nothing for a tag with no entry or a nil
entry, the text of a string or of a byte slice, and a panic, here an error, for an entry of
any other type. An entry that is a `TagFunc` of the library, which the library would call,
is not among the values of the embedding. -/
def stdTagFunc (m : Params) (tag : String) : Except String String :=
  match m.get tag with
  | none => Except.ok ""
  | some Value.nil => Except.ok ""
  | some (Value.string s) => Except.ok s
  | some (Value.bytes s) => Except.ok s
  | some _ => Except.error "unexpected value type"

/-- The texts of a parsed template written in turn with the value of each tag. -/
def executeSegments (m : Params) : List (List Char) → List String → Except String (List Char)
  | [], _ => Except.ok []
  | [t], _ => Except.ok t
  | t :: t2 :: texts, [] => Except.ok (t ++ (t2 :: texts).flatten)
  | t :: t2 :: texts, tag :: tags =>
    match stdTagFunc m tag with
    | Except.error e => Except.error e
    | Except.ok v =>
      match executeSegments m (t2 :: texts) tags with
      | Except.error e => Except.error e
      | Except.ok rest => Except.ok (t ++ v.data ++ rest)

/-- The call `template.ExecuteString(values)` of `validator.go`. -/
def Template.ExecuteString (t : Template) (m : Params) : Except String String :=
  match executeSegments m t.texts t.tags with
  | Except.ok out => Except.ok (String.mk out)
  | Except.error e => Except.error e

/-- The two library calls of `Validator.invalidate` on a template string: it is parsed,
then executed with the values; a panic of the library is an error. -/
def renderTemplate (templateString : String) (values : Params) : Except String String :=
  match fasttemplateNew templateString with
  | Except.error e => Except.error e
  | Except.ok template => template.ExecuteString values

/-- Source: the first three lines of `Validator.invalidate`: the template of the key is
looked up in the locale and rendered with the values. -/
def Validator.message (validator : Validator) (key : String) (values : Params) :
    Except String String :=
  renderTemplate (validator._locale.template key) values

/-- Source: `Validator.invalidate`. The first failure of the current error creates the
record, marks the validator invalid and appends a copy of the record to `errors`; a later
failure appends its message to the current error only. A panic while the message is
rendered aborts the call. -/
def Validator.invalidate (validator : Validator) (key : String) (values : Params) :
    Except String Validator :=
  match validator.message key values with
  | Except.error e => Except.error e
  | Except.ok message =>
    match validator.currentError with
    | none =>
      let currentError : Validator.Error :=
        { Name := validator.currentName
          Title := validator.currentTitle
          Value := validator.currentValue
          Messages := [message] }
      Except.ok { validator with
        currentError := some currentError
        currentValid := false
        valid := false
        errors := validator.errors ++ [currentError] }
    | some currentError =>
      Except.ok { validator with
        currentError := some { currentError with Messages := currentError.Messages ++ [message] } }

/-- Whether a call ended in a panic. -/
def panicked {α : Type} : Except String α → Bool
  | Except.ok _ => false
  | Except.error _ => true

/-- The result of a call that did not panic. -/
def returned {α : Type} : Except String α → Option α
  | Except.ok a => some a
  | Except.error _ => none

/-! ## The tests of the boolean pointer checks, with the dereference made explicit -/

/-- Go `*p` on a boolean pointer: dereferencing a nil pointer panics, here an error. -/
def derefBoolP (p : Option Bool) : Except String Bool :=
  match p with
  | some b => Except.ok b
  | none => Except.error "invalid memory address or nil pointer dereference"

/-- Go `a && b`: the right operand is evaluated only when the left one is true. -/
def shortCircuitAnd (a : Bool) (b : Unit → Except String Bool) : Except String Bool :=
  if a then b () else Except.ok false

/-- Source: the closure of `ValidatorBoolP.True`, `p != nil && isBoolTrue(*p)`. -/
def boolPTrueTest (p : Option Bool) : Except String Bool :=
  shortCircuitAnd p.isSome (fun _ =>
    match derefBoolP p with
    | Except.ok b => Except.ok (isBoolTrue b)
    | Except.error e => Except.error e)

/-- Source: the closure of `ValidatorBoolP.False`, `p != nil && isBoolFalse(*p)`. -/
def boolPFalseTest (p : Option Bool) : Except String Bool :=
  shortCircuitAnd p.isSome (fun _ =>
    match derefBoolP p with
    | Except.ok b => Except.ok (isBoolFalse b)
    | Except.error e => Except.error e)

/-- Source: the closure of `ValidatorBoolP.EqualTo`, `p != nil && isBoolEqual(*p, value)`. -/
def boolPEqualToTest (p : Option Bool) (value : Bool) : Except String Bool :=
  shortCircuitAnd p.isSome (fun _ =>
    match derefBoolP p with
    | Except.ok b => Except.ok (isBoolEqual b value)
    | Except.error e => Except.error e)

/-- Source: the closure of `ValidatorBoolP.Nil`, `p == nil`. -/
def boolPNilTest (p : Option Bool) : Bool := p.isNone

/-- Whether a call opens a value. -/
def Validator.Call.opens : Validator.Call → Bool
  | Validator.Call.Is _ => true
  | _ => false

/-- A validator with the template of the number type check in its locale, valid, with no
error and no value opened yet. -/
def Validator.withNumberType : Validator :=
  { Validator.fresh with
      _locale := [("a_number_type", "\"\x7b\x7bTitle\x7d\x7d\" must be a number type")] }

/-- The entries the template library writes as they are: strings, byte slices and nil. -/
def Value.isText : Value → Bool
  | Value.string _ => true
  | Value.bytes _ => true
  | Value.nil => true
  | _ => false

/-- A validator whose locale has a template with a start tag that is never closed. -/
def Validator.withUnclosedTemplate : Validator :=
  { Validator.fresh with _locale := [("blank", "\x7b\x7bTitle must be blank")] }

/-- A validator whose locale has a template with a placeholder for a length. -/
def Validator.withLengthTemplate : Validator :=
  { Validator.fresh with
      _locale := [("length", "\x7b\x7bTitle\x7d\x7d must have \x7b\x7bLength\x7d\x7d characters")] }

/-! ## `ensureString` and the operations of a `Validator` (`validator.go`) -/

/-- Go `cv.(uint64)`: the assertion yields the number when the dynamic type of the value
is `uint64`, and panics for every other type. -/
def assertUint64 : Value → Except String Nat
  | Value.uint64 n => Except.ok n
  | _ => Except.error "interface conversion: interface is not uint64"

/-- Go `cv.(int64)`: the assertion panics unless the dynamic type is `int64`. -/
def assertInt64 : Value → Except String Int
  | Value.int64 i => Except.ok i
  | _ => Except.error "interface conversion: interface is not int64"

/-- Go `cv.(float64)`: the assertion panics unless the dynamic type is `float64`. The
number is carried by its decimal text, which stands here for the text that
`strconv.FormatFloat(v, 'f', -1, 64)` writes; Go prints a number with an exponent below -4 or
from 21 on in another form than that one. -/
def assertFloat64 : Value → Except String String
  | Value.float64 shown => Except.ok shown
  | _ => Except.error "interface conversion: interface is not float64"

/-- Go `cv.(string)`: the assertion panics unless the dynamic type is `string`. -/
def assertString : Value → Except String String
  | Value.string s => Except.ok s
  | _ => Except.error "interface conversion: interface is not string"

/-- Go `strconv.FormatUint(n, 10)`. -/
def FormatUint (n : Nat) : String := toString n

/-- Go `strconv.FormatInt(i, 10)`. -/
def FormatInt (i : Int) : String := toString i

/-- Source: `Validator.ensureString`. The type switch chooses the case by the dynamic type
of the current value; each case then asserts one type on the value, and a failed
assertion panics. The default case prints a note and returns the empty string. -/
def Validator.ensureString (validator : Validator) : Except String String :=
  let cv := validator.currentValue
  match validator.currentValue with
  | Value.uint8 _ | Value.uint16 _ | Value.uint32 _ | Value.uint64 _ =>
    match assertUint64 cv with
    | Except.ok n => Except.ok (FormatUint n)
    | Except.error e => Except.error e
  | Value.int8 _ | Value.int16 _ | Value.int32 _ | Value.int64 _ =>
    match assertInt64 cv with
    | Except.ok i => Except.ok (FormatInt i)
    | Except.error e => Except.error e
  | Value.float32 _ | Value.float64 _ => assertFloat64 cv
  | Value.string _ => assertString cv
  | _ => Except.ok ""

/-- The operations of `validator.go` that change a `Validator`. -/
inductive Validator.Operation where
  | Is (value : Value)
  | Named (name : String)
  | Titled (title : String)
  | invalidate (key : String) (values : Params)

/-- One operation applied to a validator; `invalidate` can panic. -/
def Validator.apply (validator : Validator) : Validator.Operation → Except String Validator
  | Validator.Operation.Is value => Except.ok (validator.Is value)
  | Validator.Operation.Named name => Except.ok (validator.Named name)
  | Validator.Operation.Titled title => Except.ok (validator.Titled title)
  | Validator.Operation.invalidate key values => validator.invalidate key values

/-- A sequence of operations applied in order; a panic ends the run. -/
def Validator.run (validator : Validator) : List Validator.Operation → Except String Validator
  | [] => Except.ok validator
  | op :: ops =>
    match validator.apply op with
    | Except.error e => Except.error e
    | Except.ok next => next.run ops

/-- Whether rendering the message of an operation panics in the locale of a validator. -/
def Validator.Operation.panics (validator : Validator) : Validator.Operation → Bool
  | Validator.Operation.invalidate key values => panicked (validator.message key values)
  | _ => false

/-- The failures `(key, values)` recorded one after the other by `invalidate`. -/
def Validator.invalidateAll (validator : Validator) :
    List (String × Params) → Except String Validator
  | [] => Except.ok validator
  | f :: fs =>
    match validator.invalidate f.1 f.2 with
    | Except.error e => Except.error e
    | Except.ok next => next.invalidateAll fs

/-- The messages that the failures render in the locale of a validator, in order. -/
def Validator.messages (validator : Validator) (failures : List (String × Params)) :
    List String :=
  failures.filterMap (fun f => returned (validator.message f.1 f.2))

/-- A validator with two templates in its locale, valid, with no error and no value opened
yet. -/
def Validator.withTwoTemplates : Validator :=
  { Validator.fresh with
      _locale := [("blank", "\x7b\x7bTitle\x7d\x7d can not be blank"),
                  ("min_length", "\x7b\x7bTitle\x7d\x7d is too short")] }

/-! ## The templates that render and the ones that abort -/

/-- Whether a text holds an end tag, two closing braces. -/
def hasEndTag (cs : List Char) : Bool := (splitAtTag '\x7d' '\x7d' cs).isSome

/-- Whether a text begins with a start tag, two opening braces, that no end tag follows. -/
def startsUnclosed : List Char → Bool
  | c :: d :: after => decide (c = '\x7b') && decide (d = '\x7b') && !hasEndTag after
  | _ => false

/-- Whether some start tag of a template has no end tag after it. -/
def hasUnclosedTag : List Char → Bool
  | [] => false
  | c :: rest => startsUnclosed (c :: rest) || hasUnclosedTag rest

/-- The placeholders of a text, in order: the name between the first start tag and the
first end tag after it, then the placeholders of what follows that end tag. -/
def placeholders : Nat → List Char → List String
  | 0, _ => []
  | fuel + 1, s =>
    match splitAtTag '\x7b' '\x7b' s with
    | none => []
    | some (_, rest) =>
      match splitAtTag '\x7d' '\x7d' rest with
      | none => []
      | some (tag, post) => String.mk tag :: placeholders fuel post

/-- The placeholders of a template string. -/
def templatePlaceholders (template : String) : List String :=
  placeholders template.data.length template.data

/-- Whether the map has for a name what the template library can write: no entry, nil, a
string or a byte slice. -/
def Params.entryIsText (values : Params) (tag : String) : Bool :=
  match values.get tag with
  | none => true
  | some v => v.isText

/-! ## Lemmas on the evaluation context -/

section ContextLemmas

variable {W : Type}

theorem Context.sameField_refl (a : Context) : a.SameField a := ⟨rfl, rfl, rfl, rfl⟩

theorem Context.sameField_trans {a b c : Context} (h1 : a.SameField b) (h2 : b.SameField c) :
    a.SameField c :=
  ⟨h1.1.trans h2.1, h1.2.1.trans h2.2.1, h1.2.2.1.trans h2.2.2.1, h1.2.2.2.trans h2.2.2.2⟩

theorem Context.step_sameField (cat : Catalog) (ctx : Context) (st : Step W) (w : W) :
    ctx.SameField (ctx.step cat st w).1 := by
  cases st with
  | Not => exact ⟨rfl, rfl, rfl, rfl⟩
  | Add p key params tmpl =>
    simp only [Context.step, Context.add]
    split
    · exact ⟨rfl, rfl, rfl, rfl⟩
    · split <;> exact ⟨rfl, rfl, rfl, rfl⟩

theorem Context.run_sameField (cat : Catalog) (steps : List (Step W)) :
    ∀ (ctx : Context) (w : W), ctx.SameField (ctx.run cat steps w).1 := by
  induction steps with
  | nil => intro ctx w; exact Context.sameField_refl ctx
  | cons st rest ih =>
    intro ctx w
    simp only [Context.run]
    exact Context.sameField_trans (Context.step_sameField cat ctx st w) (ih _ _)

theorem Context.run_append (cat : Catalog) (xs ys : List (Step W)) :
    ∀ (ctx : Context) (w : W),
      ctx.run cat (xs ++ ys) w = (ctx.run cat xs w).1.run cat ys (ctx.run cat xs w).2 := by
  induction xs with
  | nil => intro ctx w; rfl
  | cons st rest ih =>
    intro ctx w
    simp only [List.cons_append, Context.run]
    exact ih _ _

theorem Context.step_marked (cat : Catalog) (ctx : Context) (st : Step W) (w : W)
    (h : ctx.Marked) : (ctx.step cat st w).1.Marked := by
  cases st with
  | Not => exact h
  | Add p key params tmpl =>
    simp only [Context.step, Context.add]
    split
    · exact h
    · split
      · intro hs; rename_i hn _; exact absurd hs hn
      · intro _; rfl

theorem Context.run_marked (cat : Catalog) (steps : List (Step W)) :
    ∀ (ctx : Context) (w : W), ctx.Marked → (ctx.run cat steps w).1.Marked := by
  induction steps with
  | nil => intro ctx w h; exact h
  | cons st rest ih =>
    intro ctx w h
    simp only [Context.run]
    exact ih _ _ (Context.step_marked cat ctx st w h)

/-- On a short-circuited context a registration evaluates nothing and records nothing. -/
theorem Context.step_shortCircuited (cat : Catalog) (ctx : Context) (st : Step W) (w : W)
    (h : ctx.shortCircuited = true) :
    (ctx.step cat st w).2 = w ∧
      (ctx.step cat st w).1.pendingErrorRecord = ctx.pendingErrorRecord ∧
      (ctx.step cat st w).1.shortCircuited = true ∧
      (ctx.step cat st w).1.valid = ctx.valid := by
  cases st with
  | Not => exact ⟨rfl, rfl, h, rfl⟩
  | Add p key params tmpl =>
    simp [Context.step, Context.add, h]

theorem Context.run_shortCircuited (cat : Catalog) (steps : List (Step W)) :
    ∀ (ctx : Context) (w : W), ctx.shortCircuited = true →
      (ctx.run cat steps w).2 = w ∧
      (ctx.run cat steps w).1.pendingErrorRecord = ctx.pendingErrorRecord ∧
      (ctx.run cat steps w).1.valid = ctx.valid := by
  induction steps with
  | nil => intro ctx w _; exact ⟨rfl, rfl, rfl⟩
  | cons st rest ih =>
    intro ctx w h
    obtain ⟨h1, h2, h3, h4⟩ := Context.step_shortCircuited cat ctx st w h
    obtain ⟨i1, i2, i3⟩ := ih (ctx.step cat st w).1 (ctx.step cat st w).2 h3
    simp only [Context.run]
    exact ⟨i1.trans h1, i2.trans h2, i3.trans h4⟩

theorem Context.step_add_fail (cat : Catalog) (ctx : Context) (p : Predicate W)
    (key : String) (params : Params) (tmpl : List String) (w : W)
    (hs : ctx.shortCircuited = false) (hf : xor (p w).1 ctx.negated = false) :
    ctx.step cat (Step.Add p key params tmpl) w =
      ({ ctx with
          negated := false
          pendingErrorRecord :=
            some (ctx.record (ctx.message cat ctx.negated key params tmpl.head?))
          valid := false
          shortCircuited := decide (ctx.mode = Mode.FailFast) }, (p w).2) := by
  simp [Context.step, Context.add, hs, hf]

theorem Context.step_add_pass (cat : Catalog) (ctx : Context) (p : Predicate W)
    (key : String) (params : Params) (tmpl : List String) (w : W)
    (hs : ctx.shortCircuited = false) (hf : xor (p w).1 ctx.negated = true) :
    ctx.step cat (Step.Add p key params tmpl) w = ({ ctx with negated := false }, (p w).2) := by
  simp [Context.step, Context.add, hs, hf]

theorem Context.unmarked_of_none (ctx : Context) (hm : ctx.Marked)
    (hn : ctx.pendingErrorRecord = none) : ctx.shortCircuited = false := by
  cases hsc : ctx.shortCircuited
  · rfl
  · have := hm hsc
    rw [hn] at this
    exact absurd this (by simp)

/-- Fail-fast evaluation of `pre`, a failing registration and `post`, on a context with no
failure after `pre`: the world is the one the failing predicate left and the record holds
the one message of that registration. -/
theorem Context.run_failFast_first_failure (cat : Catalog) (ctx : Context)
    (pre post : List (Step W)) (p : Predicate W) (key : String) (params : Params)
    (tmpl : List String) (w : W)
    (hm : ctx.Marked) (hmode : ctx.mode = Mode.FailFast)
    (hpre : (ctx.run cat pre w).1.pendingErrorRecord = none)
    (hfail : xor (p (ctx.run cat pre w).2).1 (ctx.run cat pre w).1.negated = false) :
    (ctx.run cat (pre ++ Step.Add p key params tmpl :: post) w).2 = (p (ctx.run cat pre w).2).2 ∧
    (ctx.run cat (pre ++ Step.Add p key params tmpl :: post) w).1.pendingErrorRecord =
      some { name := ctx.name, title := ctx.title, value := ctx.value,
             messages := [(ctx.run cat pre w).1.message cat (ctx.run cat pre w).1.negated
               key params tmpl.head?] } := by
  have hsame := Context.run_sameField cat pre ctx w
  have hm1 := Context.run_marked cat pre ctx w hm
  have hs1 := Context.unmarked_of_none _ hm1 hpre
  rw [Context.run_append]
  simp only [Context.run]
  rw [Context.step_add_fail cat _ p key params tmpl _ hs1 hfail]
  have hsc : decide ((ctx.run cat pre w).1.mode = Mode.FailFast) = true := by
    rw [← hsame.2.2.2, hmode]; rfl
  obtain ⟨h1, h2, _⟩ := Context.run_shortCircuited cat post
    { (ctx.run cat pre w).1 with
        negated := false
        pendingErrorRecord := some ((ctx.run cat pre w).1.record
          ((ctx.run cat pre w).1.message cat (ctx.run cat pre w).1.negated key params tmpl.head?))
        valid := false
        shortCircuited := decide ((ctx.run cat pre w).1.mode = Mode.FailFast) }
    (p (ctx.run cat pre w).2).2 hsc
  refine ⟨h1, ?_⟩
  rw [h2]
  simp only [Context.record, hpre, hsame.1, hsame.2.1, hsame.2.2.1]

end ContextLemmas

/-! ## Lemmas on the error set -/

section ErrorSetLemmas

theorem ErrorSet.get_eq (es : ErrorSet) (name : String) :
    es.get name = findEntry es.entries name := rfl

theorem findEntry_nil (name : String) : findEntry [] name = none := rfl

theorem findEntry_cons (e : ErrorRecord) (rest : List ErrorRecord) (name : String) :
    findEntry (e :: rest) name = if e.name = name then some e else findEntry rest name := by
  by_cases h : e.name = name
  · have hb : (e.name == name) = true := by simpa using h
    simp [findEntry, List.find?_cons, hb, h]
  · have hb : (e.name == name) = false := by simpa using h
    simp [findEntry, List.find?_cons, hb, h]

theorem findEntry_extend_absent (entries : List ErrorRecord) (r : ErrorRecord)
    (h : findEntry entries r.name = none) :
    findEntry (extendEntries entries r) r.name = some r := by
  induction entries with
  | nil => simp [extendEntries, findEntry_cons]
  | cons e rest ih =>
    rw [findEntry_cons] at h
    by_cases hn : e.name = r.name
    · rw [if_pos hn] at h; exact absurd h (by simp)
    · rw [if_neg hn] at h
      simp only [extendEntries, if_neg hn]
      rw [findEntry_cons, if_neg hn]
      exact ih h

theorem findEntry_extend_present (entries : List ErrorRecord) (r e : ErrorRecord)
    (h : findEntry entries r.name = some e) :
    findEntry (extendEntries entries r) r.name =
      some { e with messages := e.messages ++ r.messages } := by
  induction entries with
  | nil => simp [findEntry_nil] at h
  | cons x rest ih =>
    rw [findEntry_cons] at h
    by_cases hn : x.name = r.name
    · rw [if_pos hn] at h
      have hx : x = e := Option.some.inj h
      subst hx
      simp only [extendEntries, if_pos hn]
      rw [findEntry_cons, if_pos hn]
    · rw [if_neg hn] at h
      simp only [extendEntries, if_neg hn]
      rw [findEntry_cons, if_neg hn]
      exact ih h

theorem findEntry_extend_other (entries : List ErrorRecord) (r : ErrorRecord) (name : String)
    (h : name ≠ r.name) :
    findEntry (extendEntries entries r) name = findEntry entries name := by
  induction entries with
  | nil =>
    simp only [extendEntries]
    rw [findEntry_cons, if_neg (Ne.symm h)]
  | cons x rest ih =>
    by_cases hn : x.name = r.name
    · have hx : ¬ x.name = name := fun hx => h (hx.symm.trans hn)
      simp only [extendEntries, if_pos hn]
      rw [findEntry_cons, findEntry_cons, if_neg hx, if_neg hx]
    · simp only [extendEntries, if_neg hn]
      rw [findEntry_cons, findEntry_cons, ih]

end ErrorSetLemmas

/-! ## Lemmas on accumulate-all evaluation -/

section AccumulateLemmas

variable {W : Type}

theorem Context.message_congr (cat : Catalog) (a b : Context) (ht : a.title = b.title)
    (hv : a.value = b.value) (negated : Bool) (key : String) (params : Params)
    (tmpl : Option String) :
    a.message cat negated key params tmpl = b.message cat negated key params tmpl := by
  simp only [Context.message, ht, hv]

theorem evaluateAll_congr (cat : Catalog) (a b : Context) (ht : a.title = b.title)
    (hv : a.value = b.value) (steps : List (Step W)) :
    ∀ (negated : Bool) (w : W),
      evaluateAll cat a negated steps w = evaluateAll cat b negated steps w := by
  induction steps with
  | nil => intro negated w; rfl
  | cons st rest ih =>
    intro negated w
    cases st with
    | Not => simp only [evaluateAll]; exact ih _ _
    | Add p key params tmpl =>
      simp only [evaluateAll, ih, Context.message_congr cat a b ht hv]

theorem Context.recordAll_congr (a b : Context) (hn : a.name = b.name) (ht : a.title = b.title)
    (hv : a.value = b.value) (hp : a.pendingErrorRecord = b.pendingErrorRecord)
    (msgs : List String) : a.recordAll msgs = b.recordAll msgs := by
  induction msgs generalizing a b with
  | nil => exact hp
  | cons m ms ih =>
    simp only [Context.recordAll]
    apply ih
    · exact hn
    · exact ht
    · exact hv
    · simp only [Context.record, hn, ht, hv, hp]

/-- In accumulate-all mode the run of a chain evaluates every predicate and records the
message of every failure, in order. -/
theorem Context.run_accumulateAll (cat : Catalog) (steps : List (Step W)) :
    ∀ (ctx : Context) (w : W), ctx.mode = Mode.AccumulateAll → ctx.shortCircuited = false →
      (ctx.run cat steps w).2 = (evaluateAll cat ctx ctx.negated steps w).2 ∧
      (ctx.run cat steps w).1.pendingErrorRecord =
        ctx.recordAll (failedMessages (evaluateAll cat ctx ctx.negated steps w).1) := by
  induction steps with
  | nil => intro ctx w _ _; exact ⟨rfl, rfl⟩
  | cons st rest ih =>
    intro ctx w hmode hs
    cases st with
    | Not =>
      simp only [Context.run, Context.step, evaluateAll]
      obtain ⟨h1, h2⟩ := ih ctx.not w hmode hs
      rw [h1, h2]
      have hc := evaluateAll_congr cat ctx.not ctx rfl rfl rest true w
      constructor
      · exact congrArg Prod.snd hc
      · have : ctx.not.negated = true := rfl
        rw [this, hc]
        apply Context.recordAll_congr <;> rfl
    | Add p key params tmpl =>
      simp only [Context.run, evaluateAll]
      cases hx : xor (p w).1 ctx.negated
      · rw [Context.step_add_fail cat ctx p key params tmpl w hs hx]
        have hd : decide (ctx.mode = Mode.FailFast) = false := by rw [hmode]; rfl
        simp only [hd]
        obtain ⟨h1, h2⟩ := ih
          { ctx with
              negated := false
              pendingErrorRecord :=
                some (ctx.record (ctx.message cat ctx.negated key params tmpl.head?))
              valid := false
              shortCircuited := false } (p w).2 hmode rfl
        rw [h1, h2]
        have hc := evaluateAll_congr cat
          { ctx with
              negated := false
              pendingErrorRecord :=
                some (ctx.record (ctx.message cat ctx.negated key params tmpl.head?))
              valid := false
              shortCircuited := false } ctx rfl rfl rest false (p w).2
        simp only [hc, failedMessages, List.filter_cons, Bool.not_false, if_true, List.map_cons,
          Context.recordAll, true_and]
        apply Context.recordAll_congr <;> rfl
      · rw [Context.step_add_pass cat ctx p key params tmpl w hs hx]
        obtain ⟨h1, h2⟩ := ih { ctx with negated := false } (p w).2 hmode hs
        rw [h1, h2]
        have hc := evaluateAll_congr cat { ctx with negated := false } ctx rfl rfl rest false
          (p w).2
        simp only [hc, failedMessages, List.filter_cons, Bool.not_true, Bool.false_eq_true,
          if_false, true_and]
        apply Context.recordAll_congr <;> rfl

theorem Context.recordAll_some (ctx : Context) (r : ErrorRecord) (msgs : List String)
    (h : ctx.pendingErrorRecord = some r) :
    ctx.recordAll msgs = some { r with messages := r.messages ++ msgs } := by
  induction msgs generalizing ctx r with
  | nil => simp [Context.recordAll, h]
  | cons m ms ih =>
    simp only [Context.recordAll]
    rw [ih _ { r with messages := r.messages ++ [m] } (by simp [Context.record, h])]
    simp

theorem Context.recordAll_none (ctx : Context) (m : String) (ms : List String)
    (h : ctx.pendingErrorRecord = none) :
    ctx.recordAll (m :: ms) =
      some { name := ctx.name, title := ctx.title, value := ctx.value, messages := m :: ms } := by
  simp only [Context.recordAll]
  have hr : ctx.record m =
      { name := ctx.name, title := ctx.title, value := ctx.value, messages := [m] } := by
    simp [Context.record, h]
  rw [Context.recordAll_some _ (ctx.record m) ms rfl, hr]
  simp

theorem evaluateAll_length (cat : Catalog) (ctx : Context) (steps : List (Step W)) :
    ∀ (negated : Bool) (w : W),
      (evaluateAll cat ctx negated steps w).1.length = countPredicates steps := by
  induction steps with
  | nil => intro negated w; rfl
  | cons st rest ih =>
    intro negated w
    cases st with
    | Not => simp only [evaluateAll, countPredicates]; exact ih _ _
    | Add p key params tmpl => simp only [evaluateAll, countPredicates, List.length_cons, ih]

end AccumulateLemmas

/-! ## Lemmas on negation -/

section NegationLemmas

variable {W : Type}

/-- Recording a message changes the pending record. -/
theorem Context.record_ne (ctx : Context) (m : String) :
    some (ctx.record m) ≠ ctx.pendingErrorRecord := by
  intro h
  cases hp : ctx.pendingErrorRecord with
  | none => rw [hp] at h; exact absurd h (by simp)
  | some r =>
    rw [hp] at h
    have h2 : ctx.record m = r := Option.some.inj h
    have h3 : (ctx.record m).messages.length = r.messages.length := by rw [h2]
    simp [Context.record, hp] at h3

/-- A registration on a context that is not short-circuited leaves the pending record as it
was exactly when its outcome is true. -/
theorem Context.step_add_unchanged_iff (cat : Catalog) (ctx : Context) (p : Predicate W)
    (key : String) (params : Params) (tmpl : List String) (w : W)
    (hs : ctx.shortCircuited = false) :
    (ctx.step cat (Step.Add p key params tmpl) w).1.pendingErrorRecord = ctx.pendingErrorRecord ↔
      xor (p w).1 ctx.negated = true := by
  cases hx : xor (p w).1 ctx.negated
  · rw [Context.step_add_fail cat ctx p key params tmpl w hs hx]
    constructor
    · intro h; exact absurd h (Context.record_ne ctx _)
    · intro h; exact absurd h (by simp)
  · rw [Context.step_add_pass cat ctx p key params tmpl w hs hx]
    simp

theorem Context.step_add_negated (cat : Catalog) (ctx : Context) (p : Predicate W)
    (key : String) (params : Params) (tmpl : List String) (w : W)
    (hs : ctx.shortCircuited = false) :
    (ctx.step cat (Step.Add p key params tmpl) w).1.negated = false ∧
      (ctx.step cat (Step.Add p key params tmpl) w).2 = (p w).2 := by
  cases hx : xor (p w).1 ctx.negated
  · rw [Context.step_add_fail cat ctx p key params tmpl w hs hx]; exact ⟨rfl, rfl⟩
  · rw [Context.step_add_pass cat ctx p key params tmpl w hs hx]; exact ⟨rfl, rfl⟩

end NegationLemmas

/-! ## Lemmas on chains with no failure -/

section PassLemmas

variable {W : Type}

/-- A chain all of whose outcomes are true records nothing, in either mode. -/
theorem Context.run_all_pass (cat : Catalog) (steps : List (Step W)) :
    ∀ (ctx : Context) (w : W), ctx.shortCircuited = false →
      (∀ o ∈ (evaluateAll cat ctx ctx.negated steps w).1, o.1 = true) →
      (ctx.run cat steps w).1.pendingErrorRecord = ctx.pendingErrorRecord := by
  induction steps with
  | nil => intro ctx w _ _; rfl
  | cons st rest ih =>
    intro ctx w hs hall
    cases st with
    | Not =>
      simp only [Context.run, Context.step]
      have hc := evaluateAll_congr cat ctx.not ctx rfl rfl rest true w
      have h := ih ctx.not w hs (by
        have hn : ctx.not.negated = true := rfl
        rw [hn, hc]
        simpa only [evaluateAll] using hall)
      exact h
    | Add p key params tmpl =>
      simp only [evaluateAll, List.mem_cons] at hall
      have hx : xor (p w).1 ctx.negated = true := hall _ (Or.inl rfl)
      simp only [Context.run]
      rw [Context.step_add_pass cat ctx p key params tmpl w hs hx]
      have hc := evaluateAll_congr cat { ctx with negated := false } ctx rfl rfl rest false (p w).2
      have h := ih { ctx with negated := false } (p w).2 hs (by
        intro o ho
        have ho2 : o ∈ (evaluateAll cat ctx false rest (p w).2).1 := by
          have := hc ▸ ho
          exact this
        exact hall o (Or.inr ho2))
      exact h

theorem Session.validate_all_pass (mode : Mode) (s : Session) (chain : ValidatorContext W)
    (w : W) (hall : ∀ o ∈ (s.outcomes chain w).1, o.1 = true) :
    (s.validate mode chain w).1.errorSet = s.errorSet := by
  have hc := evaluateAll_congr s.locale (openContext mode s.currentIndex chain)
    (openContext Mode.AccumulateAll s.currentIndex chain) rfl rfl chain.fragments false w
  have h := Context.run_all_pass s.locale chain.fragments (openContext mode s.currentIndex chain)
    w rfl (by
      have hn : (openContext mode s.currentIndex chain).negated = false := rfl
      rw [hn, hc]
      exact hall)
  simp only [Session.validate, Session.evalSteps, ErrorSet.fold, h]
  rfl

theorem Validator.call_frame (validator : Validator) (c : Validator.Call) :
    (validator.call c).valid = validator.valid ∧ (validator.call c).errors = validator.errors := by
  cases c <;> exact ⟨rfl, rfl⟩

theorem Validator.calls_frame (cs : List Validator.Call) :
    ∀ (validator : Validator),
      (validator.calls cs).valid = validator.valid ∧
        (validator.calls cs).errors = validator.errors := by
  induction cs with
  | nil => intro validator; exact ⟨rfl, rfl⟩
  | cons c rest ih =>
    intro validator
    obtain ⟨h1, h2⟩ := ih (validator.call c)
    obtain ⟨c1, c2⟩ := Validator.call_frame validator c
    exact ⟨by simpa [Validator.calls] using h1.trans c1, by simpa [Validator.calls] using h2.trans c2⟩

end PassLemmas

/-! ## Invariants of the error set -/

section InvariantLemmas

variable {W : Type}

theorem Context.step_recordOk (cat : Catalog) (ctx : Context) (st : Step W) (w : W)
    (h : ctx.RecordOk) : (ctx.step cat st w).1.RecordOk := by
  cases st with
  | Not => exact h
  | Add p key params tmpl =>
    cases hs : ctx.shortCircuited
    · cases hx : xor (p w).1 ctx.negated
      · rw [Context.step_add_fail cat ctx p key params tmpl w hs hx]
        intro r hr
        have hr2 : ctx.record (ctx.message cat ctx.negated key params tmpl.head?) = r :=
          Option.some.inj hr
        subst hr2
        cases hp : ctx.pendingErrorRecord with
        | none => simp [Context.record, hp]
        | some r0 =>
          obtain ⟨a, b, c, _⟩ := h r0 hp
          simp [Context.record, hp, a, b, c]
      · rw [Context.step_add_pass cat ctx p key params tmpl w hs hx]
        exact h
    · have : ctx.step cat (Step.Add p key params tmpl) w = (ctx, w) := by
        simp [Context.step, Context.add, hs]
      rw [this]
      exact h

theorem Context.run_recordOk (cat : Catalog) (steps : List (Step W)) :
    ∀ (ctx : Context) (w : W), ctx.RecordOk → (ctx.run cat steps w).1.RecordOk := by
  induction steps with
  | nil => intro ctx w h; exact h
  | cons st rest ih =>
    intro ctx w h
    simp only [Context.run]
    exact ih _ _ (Context.step_recordOk cat ctx st w h)

theorem openContext_recordOk (mode : Mode) (index : Nat) (chain : ValidatorContext W) :
    (openContext mode index chain).RecordOk := by
  intro r hr
  exact absurd hr (by simp [openContext])

theorem extendEntries_ok (entries : List ErrorRecord) (r : ErrorRecord)
    (h : EntriesOk entries) (hr : r.messages ≠ []) : EntriesOk (extendEntries entries r) := by
  induction entries with
  | nil =>
    intro e he
    simp only [extendEntries, List.mem_singleton] at he
    rw [he]; exact hr
  | cons x rest ih =>
    have hrest : EntriesOk rest := fun e he => h e (List.mem_cons_of_mem _ he)
    intro e he
    by_cases hn : x.name = r.name
    · simp only [extendEntries, if_pos hn, List.mem_cons] at he
      rcases he with he | he
      · rw [he]
        simp only [ne_eq, List.append_eq_nil, not_and]
        intro _; exact hr
      · exact hrest e he
    · simp only [extendEntries, if_neg hn, List.mem_cons] at he
      rcases he with he | he
      · rw [he]; exact h x (List.mem_cons_self _ _)
      · exact ih hrest e he

/-- The record a chain hands to the error set, if any, bears the name of the chain's field
and holds a message. -/
theorem Session.evalSteps_recordOk (mode : Mode) (s : Session) (chain : ValidatorContext W)
    (w : W) (r : ErrorRecord)
    (h : (s.evalSteps mode chain chain.fragments w).1.pendingErrorRecord = some r) :
    r.name = fieldName s.currentIndex chain.name ∧ r.messages ≠ [] := by
  have hok := Context.run_recordOk s.locale chain.fragments (openContext mode s.currentIndex chain)
    w (openContext_recordOk mode s.currentIndex chain)
  have hsame := Context.run_sameField s.locale chain.fragments
    (openContext mode s.currentIndex chain) w
  obtain ⟨a, _, _, d⟩ := hok r h
  exact ⟨a.trans hsame.1.symm, d⟩

theorem Session.validate_entriesOk (mode : Mode) (s : Session) (chain : ValidatorContext W)
    (w : W) (h : EntriesOk s.errorSet.entries) :
    EntriesOk (s.validate mode chain w).1.errorSet.entries := by
  simp only [Session.validate, ErrorSet.fold]
  cases hp : (s.evalSteps mode chain chain.fragments w).1.pendingErrorRecord with
  | none => exact h
  | some r =>
    exact extendEntries_ok _ r h (Session.evalSteps_recordOk mode s chain w r hp).2

theorem Session.validateAll_entriesOk (mode : Mode) (chains : List (ValidatorContext W)) :
    ∀ (s : Session) (w : W), EntriesOk s.errorSet.entries →
      EntriesOk (Session.validateAll mode s chains w).1.errorSet.entries := by
  induction chains with
  | nil => intro s w h; exact h
  | cons c rest ih =>
    intro s w h
    simp only [Session.validateAll]
    exact ih _ _ (Session.validate_entriesOk mode s c w h)

theorem Session.reachable_entriesOk (s : Session) (h : s.Reachable) :
    EntriesOk s.errorSet.entries := by
  induction h with
  | new options => intro e he; simp [New, ErrorSet.empty] at he
  | is s chains w _ ih => exact Session.validateAll_entriesOk Mode.FailFast chains s w ih
  | check s chains w _ ih => exact Session.validateAll_entriesOk Mode.AccumulateAll chains s w ih
  | addErrorMessage s name message _ ih =>
    exact extendEntries_ok _ _ ih (by simp)

theorem findEntry_some_mem (entries : List ErrorRecord) (name : String) (e : ErrorRecord)
    (h : findEntry entries name = some e) : e ∈ entries ∧ e.name = name := by
  induction entries with
  | nil => simp [findEntry_nil] at h
  | cons x rest ih =>
    rw [findEntry_cons] at h
    by_cases hn : x.name = name
    · rw [if_pos hn] at h
      have hx : x = e := Option.some.inj h
      subst hx
      exact ⟨List.mem_cons_self _ _, hn⟩
    · rw [if_neg hn] at h
      obtain ⟨a, b⟩ := ih h
      exact ⟨List.mem_cons_of_mem _ a, b⟩

theorem findEntry_none_of_mem (entries : List ErrorRecord) (name : String) (e : ErrorRecord)
    (he : e ∈ entries) (hn : e.name = name) : findEntry entries name ≠ none := by
  induction entries with
  | nil => simp at he
  | cons x rest ih =>
    rw [findEntry_cons]
    by_cases hx : x.name = name
    · rw [if_pos hx]; simp
    · rw [if_neg hx]
      rcases List.mem_cons.mp he with h1 | h1
      · exact absurd (h1 ▸ hn) hx
      · exact ih h1

/-- A chain on another field leaves the entry of `name` as it was. -/
theorem Session.validate_get_other (mode : Mode) (s : Session) (chain : ValidatorContext W)
    (w : W) (name : String) (hne : fieldName s.currentIndex chain.name ≠ name) :
    (s.validate mode chain w).1.errorSet.get name = s.errorSet.get name := by
  simp only [Session.validate, ErrorSet.fold]
  cases hp : (s.evalSteps mode chain chain.fragments w).1.pendingErrorRecord with
  | none => rfl
  | some r =>
    have hr := (Session.evalSteps_recordOk mode s chain w r hp).1
    simp only [ErrorSet.get_eq, ErrorSet.append]
    apply findEntry_extend_other
    rw [hr]
    exact Ne.symm hne

end InvariantLemmas

/-! ## Validity and the entries -/

section ConsistencyLemmas

variable {W : Type}

theorem extendEntries_ne_nil (entries : List ErrorRecord) (r : ErrorRecord) :
    extendEntries entries r ≠ [] := by
  cases entries with
  | nil => simp [extendEntries]
  | cons x rest =>
    by_cases hn : x.name = r.name
    · simp [extendEntries, hn]
    · simp [extendEntries, hn]

theorem ErrorSet.append_consistent (es : ErrorSet) (r : ErrorRecord) :
    (es.append r).Consistent := by
  constructor
  · intro h; exact absurd h (by simp [ErrorSet.append])
  · intro h; exact absurd h (extendEntries_ne_nil _ _)

theorem Session.validate_consistent (mode : Mode) (s : Session) (chain : ValidatorContext W)
    (w : W) (h : s.errorSet.Consistent) : (s.validate mode chain w).1.errorSet.Consistent := by
  simp only [Session.validate, ErrorSet.fold]
  cases hp : (s.evalSteps mode chain chain.fragments w).1.pendingErrorRecord with
  | none => exact h
  | some r => exact ErrorSet.append_consistent _ r

theorem Session.validateAll_consistent (mode : Mode) (chains : List (ValidatorContext W)) :
    ∀ (s : Session) (w : W), s.errorSet.Consistent →
      (Session.validateAll mode s chains w).1.errorSet.Consistent := by
  induction chains with
  | nil => intro s w h; exact h
  | cons c rest ih =>
    intro s w h
    simp only [Session.validateAll]
    exact ih _ _ (Session.validate_consistent mode s c w h)

theorem Session.reachable_consistent (s : Session) (h : s.Reachable) :
    s.errorSet.Consistent := by
  induction h with
  | new options => exact ⟨fun _ => rfl, fun _ => rfl⟩
  | is s chains w _ ih => exact Session.validateAll_consistent Mode.FailFast chains s w ih
  | check s chains w _ ih => exact Session.validateAll_consistent Mode.AccumulateAll chains s w ih
  | addErrorMessage s name message _ _ => exact ErrorSet.append_consistent _ _

end ConsistencyLemmas

/-! ## The serializer of a session -/

section SerializerLemmas

variable {W : Type}

theorem Session.validateAll_marshalJsonFunc (mode : Mode) (chains : List (ValidatorContext W)) :
    ∀ (s : Session) (w : W),
      (Session.validateAll mode s chains w).1.marshalJsonFunc = s.marshalJsonFunc := by
  induction chains with
  | nil => intro s w; rfl
  | cons c rest ih =>
    intro s w
    simp only [Session.validateAll]
    exact ih _ _

end SerializerLemmas

/-! ## Lemmas on names and titles -/

section NameLemmas

theorem toUpper_not_separator (c : Char) (h : isSeparator c = false) :
    isSeparator c.toUpper = false := by
  unfold Char.toUpper
  simp only []
  split
  · rename_i hr
    obtain ⟨h1, h2⟩ := hr
    generalize c.toNat = n at h1 h2
    have h1' : 97 ≤ n := h1
    have h2' : n ≤ 122 := h2
    clear h1 h2
    interval_cases n <;> decide
  · exact h

theorem capitalizeWords_length (cs : List Char) :
    ∀ start : Bool, (capitalizeWords start cs).length = cs.length := by
  induction cs with
  | nil => intro start; rfl
  | cons c rest ih =>
    intro start
    simp only [capitalizeWords]
    split
    · simp [ih]
    · simp [ih]

theorem capitalizeWords_no_separator (cs : List Char) :
    ∀ start : Bool, (∀ c ∈ cs, isSeparator c = false) →
      ∀ c ∈ capitalizeWords start cs, isSeparator c = false := by
  induction cs with
  | nil => intro start _ c hc; simp [capitalizeWords] at hc
  | cons x rest ih =>
    intro start hall c hc
    have hx : isSeparator x = false := hall x (List.mem_cons_self _ _)
    have hrest : ∀ c ∈ rest, isSeparator c = false :=
      fun c h => hall c (List.mem_cons_of_mem _ h)
    simp only [capitalizeWords] at hc
    split at hc
    · rcases List.mem_cons.mp hc with h | h
      · rw [h]; decide
      · exact ih true hrest c h
    · rcases List.mem_cons.mp hc with h | h
      · rw [h]
        cases start
        · simpa using hx
        · simpa using toUpper_not_separator x hx
      · exact ih false hrest c h

theorem humanizeName_no_separator (name : String) :
    ∀ c ∈ (humanizeName name).data, isSeparator c = false := by
  apply capitalizeWords_no_separator
  intro c hc
  obtain ⟨d, _, hd⟩ := List.mem_map.mp hc
  by_cases hs : isSeparator d = true
  · rw [if_pos hs] at hd; rw [← hd]; decide
  · rw [if_neg hs] at hd; rw [← hd]; simpa using hs

theorem humanizeName_length (name : String) :
    (humanizeName name).data.length = name.data.length := by
  simp [humanizeName, capitalizeWords_length]

end NameLemmas

/-! ## The JSON text round-trips -/

section JsonLemmas

theorem hexValue_hexDigit (n : Nat) (h : n < 16) : hexValue (hexDigit n) = some n := by
  interval_cases n <;> decide

theorem needsHexEscape_lt (c : Char) (h : needsHexEscape c = true) : c.toNat < 65536 := by
  simp only [needsHexEscape, Bool.or_eq_true, decide_eq_true_eq, beq_iff_eq] at h
  rcases h with ((((h | h) | h) | h) | h) | h
  · omega
  · rw [h]; decide
  · rw [h]; decide
  · rw [h]; decide
  · omega
  · omega

theorem decodeChars_quote (rest : List Char) : decodeChars ('"' :: rest) = some ([], rest) := by
  rw [decodeChars.eq_def]
  simp

theorem decodeChars_plain (c : Char) (rest : List Char) (hq : c ≠ '"') (hb : c ≠ '\\') :
    decodeChars (c :: rest) =
      match decodeChars rest with
      | some (s, r) => some (c :: s, r)
      | none => none := by
  rw [decodeChars.eq_def]
  simp only [if_neg hq, if_neg hb]

theorem decodeChars_short (e : Char) (rest : List Char) (hu : e ≠ 'u') :
    decodeChars ('\\' :: e :: rest) =
      match decodeEscape e, decodeChars rest with
      | some ch, some (s, r) => some (ch :: s, r)
      | _, _ => none := by
  rw [decodeChars.eq_def]
  simp [if_neg hu]

theorem decodeChars_hex (a b c d : Char) (rest : List Char) :
    decodeChars ('\\' :: 'u' :: a :: b :: c :: d :: rest) =
      match hexValue a, hexValue b, hexValue c, hexValue d, decodeChars rest with
      | some x, some y, some z, some t, some (s, r) =>
        some (Char.ofNat (4096 * x + 256 * y + 16 * z + t) :: s, r)
      | _, _, _, _, _ => none := by
  rw [decodeChars.eq_def]
  simp

/-- Reading the escaped form of a character gives the character back. -/
theorem decodeChars_escapeChar (c : Char) (tail : List Char) :
    decodeChars (escapeChar c ++ tail) =
      match decodeChars tail with
      | some (s, r) => some (c :: s, r)
      | none => none := by
  unfold escapeChar
  split
  · rename_i h; subst h
    rw [List.cons_append, List.cons_append, List.nil_append,
      decodeChars_short _ _ (by decide)]
    cases decodeChars tail <;> rfl
  · split
    · rename_i h; subst h
      rw [List.cons_append, List.cons_append, List.nil_append,
        decodeChars_short _ _ (by decide)]
      cases decodeChars tail <;> rfl
    · split
      · rename_i h; subst h
        rw [List.cons_append, List.cons_append, List.nil_append,
          decodeChars_short _ _ (by decide)]
        cases decodeChars tail <;> rfl
      · split
        · rename_i h; subst h
          rw [List.cons_append, List.cons_append, List.nil_append,
            decodeChars_short _ _ (by decide)]
          cases decodeChars tail <;> rfl
        · split
          · rename_i h; subst h
            rw [List.cons_append, List.cons_append, List.nil_append,
              decodeChars_short _ _ (by decide)]
            cases decodeChars tail <;> rfl
          · split
            · rename_i hq hb _ _ _ hx
              have hlt := needsHexEscape_lt c hx
              have h1 := hexValue_hexDigit (c.toNat / 4096) (by omega)
              have h2 := hexValue_hexDigit (c.toNat / 256 % 16) (by omega)
              have h3 := hexValue_hexDigit (c.toNat / 16 % 16) (by omega)
              have h4 := hexValue_hexDigit (c.toNat % 16) (by omega)
              have hsum : 4096 * (c.toNat / 4096) + 256 * (c.toNat / 256 % 16) +
                  16 * (c.toNat / 16 % 16) + c.toNat % 16 = c.toNat := by omega
              simp only [List.cons_append, List.nil_append]
              rw [decodeChars_hex, h1, h2, h3, h4]
              cases decodeChars tail with
              | none => rfl
              | some p =>
                simp only [hsum, Char.ofNat_toNat]
            · rename_i hq hb _ _ _ _
              rw [List.cons_append, List.nil_append, decodeChars_plain c tail hq hb]

theorem decodeChars_escapeChars (s : List Char) (tail : List Char) :
    decodeChars (escapeChars s ++ '"' :: tail) = some (s, tail) := by
  induction s with
  | nil => simp [escapeChars, decodeChars_quote]
  | cons c rest ih =>
    simp only [escapeChars, List.append_assoc]
    rw [decodeChars_escapeChar, ih]

theorem decodeString_encodeString (s : String) (tail : List Char) :
    decodeString (encodeString s ++ tail) = some (s, tail) := by
  simp only [encodeString, List.cons_append, List.append_assoc, List.nil_append, decodeString,
    if_true, decodeChars_escapeChars]

theorem decodeMore_nil (fuel : Nat) (tail : List Char) :
    decodeMore (fuel + 1) (']' :: tail) = some ([], tail) := by
  simp [decodeMore]

theorem decodeMore_comma (fuel : Nat) (rest : List Char) :
    decodeMore (fuel + 1) (',' :: rest) =
      match decodeString rest with
      | some (s, r) =>
        match decodeMore fuel r with
        | some (ss, r2) => some (s :: ss, r2)
        | none => none
      | none => none := by
  have hc : ¬ (',' : Char) = ']' := by decide
  simp only [decodeMore, if_neg hc, if_true]

theorem decodeMore_encodeMore (ss : List String) :
    ∀ (fuel : Nat) (tail : List Char), ss.length < fuel →
      decodeMore fuel (encodeMore ss ++ ']' :: tail) = some (ss, tail) := by
  induction ss with
  | nil =>
    intro fuel tail h
    cases fuel with
    | zero => omega
    | succ f => exact decodeMore_nil f tail
  | cons s rest ih =>
    intro fuel tail h
    cases fuel with
    | zero => omega
    | succ f =>
      have hlen : rest.length < f := by simpa using h
      have henc : encodeMore (s :: rest) ++ ']' :: tail =
          ',' :: (encodeString s ++ (encodeMore rest ++ ']' :: tail)) := by
        simp [encodeMore]
      rw [henc, decodeMore_comma, decodeString_encodeString]
      simp only [ih f tail hlen]

theorem decodeArray_encodeArray (ss : List String) (fuel : Nat) (tail : List Char)
    (h : ss.length ≤ fuel) : decodeArray fuel (encodeArray ss ++ tail) = some (ss, tail) := by
  cases ss with
  | nil => simp [encodeArray, decodeArray]
  | cons s rest =>
    have hlen : rest.length < fuel := by simpa using h
    have hc : ¬ ('"' : Char) = ']' := by decide
    have henc : encodeArray (s :: rest) ++ tail =
        '[' :: '"' :: (escapeChars s.data ++ '"' :: (encodeMore rest ++ ']' :: tail)) := by
      simp [encodeArray, encodeString]
    have hstr : decodeString ('"' :: (escapeChars s.data ++ '"' :: (encodeMore rest ++ ']' :: tail)))
        = some (s, encodeMore rest ++ ']' :: tail) := by
      have := decodeString_encodeString s (encodeMore rest ++ ']' :: tail)
      simpa [encodeString] using this
    rw [henc]
    simp only [decodeArray, if_true, if_neg hc, hstr, decodeMore_encodeMore rest fuel tail hlen]

theorem decodeMember_encodeMember (kv : String × List String) (fuel : Nat) (tail : List Char)
    (h : kv.2.length ≤ fuel) :
    decodeMember fuel (encodeMember kv ++ tail) = some (kv, tail) := by
  have henc : encodeMember kv ++ tail = encodeString kv.1 ++ (':' :: (encodeArray kv.2 ++ tail)) := by
    simp [encodeMember]
  rw [henc]
  simp only [decodeMember, decodeString_encodeString, if_true,
    decodeArray_encodeArray kv.2 fuel tail h]

theorem decodeMoreMembers_comma (fuel : Nat) (rest : List Char) :
    decodeMoreMembers (fuel + 1) (',' :: rest) =
      match decodeMember fuel rest with
      | some (kv, r) =>
        match decodeMoreMembers fuel r with
        | some (kvs, r2) => some (kv :: kvs, r2)
        | none => none
      | none => none := by
  have hc : ¬ (',' : Char) = '\x7d' := by decide
  simp only [decodeMoreMembers, if_neg hc, if_true]

theorem decodeMoreMembers_encodeMoreMembers (m : List (String × List String)) (bound : Nat) :
    ∀ (fuel : Nat) (tail : List Char), m.length + bound < fuel →
      (∀ kv ∈ m, kv.2.length ≤ bound) →
      decodeMoreMembers fuel (encodeMoreMembers m ++ '\x7d' :: tail) = some (m, tail) := by
  induction m with
  | nil =>
    intro fuel tail h _
    cases fuel with
    | zero => omega
    | succ f => simp [encodeMoreMembers, decodeMoreMembers]
  | cons kv rest ih =>
    intro fuel tail h hall
    cases fuel with
    | zero => omega
    | succ f =>
      have hlen : rest.length + bound < f := by
        simp only [List.length_cons] at h; omega
      have hkv : kv.2.length ≤ f := by
        have := hall kv (List.mem_cons_self _ _)
        omega
      have hrest : ∀ x ∈ rest, x.2.length ≤ bound :=
        fun x hx => hall x (List.mem_cons_of_mem _ hx)
      have henc : encodeMoreMembers (kv :: rest) ++ '\x7d' :: tail =
          ',' :: (encodeMember kv ++ (encodeMoreMembers rest ++ '\x7d' :: tail)) := by
        simp [encodeMoreMembers]
      rw [henc, decodeMoreMembers_comma, decodeMember_encodeMember kv f _ hkv]
      simp only [ih f tail hlen hrest]

theorem decodeObject_encodeObject (m : List (String × List String)) (bound fuel : Nat)
    (tail : List Char) (h : m.length + bound ≤ fuel) (hall : ∀ kv ∈ m, kv.2.length ≤ bound) :
    decodeObject fuel (encodeObject m ++ tail) = some (m, tail) := by
  cases m with
  | nil => simp [encodeObject, decodeObject]
  | cons kv rest =>
    have hlen : rest.length + bound < fuel := by
      simp only [List.length_cons] at h; omega
    have hkv : kv.2.length ≤ fuel := by
      have := hall kv (List.mem_cons_self _ _)
      omega
    have hrest : ∀ x ∈ rest, x.2.length ≤ bound :=
      fun x hx => hall x (List.mem_cons_of_mem _ hx)
    have hc : ¬ ('"' : Char) = '\x7d' := by decide
    have henc : encodeObject (kv :: rest) ++ tail =
        '\x7b' :: '"' :: (escapeChars kv.1.data ++
          '"' :: (':' :: (encodeArray kv.2 ++ (encodeMoreMembers rest ++ '\x7d' :: tail)))) := by
      simp [encodeObject, encodeMember, encodeString]
    have hmem : decodeMember fuel ('"' :: (escapeChars kv.1.data ++
          '"' :: (':' :: (encodeArray kv.2 ++ (encodeMoreMembers rest ++ '\x7d' :: tail)))))
        = some (kv, encodeMoreMembers rest ++ '\x7d' :: tail) := by
      have := decodeMember_encodeMember kv fuel (encodeMoreMembers rest ++ '\x7d' :: tail) hkv
      simpa [encodeMember, encodeString] using this
    rw [henc]
    simp only [decodeObject, if_true, if_neg hc, hmem,
      decodeMoreMembers_encodeMoreMembers rest bound fuel tail hlen hrest]

theorem encodeMore_length (ss : List String) : ss.length ≤ (encodeMore ss).length := by
  induction ss with
  | nil => simp [encodeMore]
  | cons s rest ih => simp [encodeMore]; omega

theorem encodeArray_length (ss : List String) : ss.length ≤ (encodeArray ss).length := by
  cases ss with
  | nil => simp [encodeArray]
  | cons s rest =>
    have := encodeMore_length rest
    simp [encodeArray]; omega

theorem encodeMember_length (kv : String × List String) :
    kv.2.length + 1 ≤ (encodeMember kv).length := by
  have := encodeArray_length kv.2
  simp [encodeMember]; omega

theorem encodeMoreMembers_length (m : List (String × List String)) :
    m.length + (m.map (fun kv => kv.2.length)).sum ≤ (encodeMoreMembers m).length := by
  induction m with
  | nil => simp [encodeMoreMembers]
  | cons kv rest ih =>
    have := encodeMember_length kv
    simp [encodeMoreMembers]; omega

theorem encodeObject_length (m : List (String × List String)) :
    m.length + (m.map (fun kv => kv.2.length)).sum ≤ (encodeObject m).length := by
  cases m with
  | nil => simp [encodeObject]
  | cons kv rest =>
    have := encodeMember_length kv
    have := encodeMoreMembers_length rest
    simp [encodeObject]; omega

theorem length_le_sum (m : List (String × List String)) :
    ∀ kv ∈ m, kv.2.length ≤ (m.map (fun kv => kv.2.length)).sum := by
  induction m with
  | nil => intro kv h; simp at h
  | cons x rest ih =>
    intro kv h
    rcases List.mem_cons.mp h with h1 | h1
    · rw [h1]; simp
    · have := ih kv h1
      simp; omega

/-- Decoding an encoded mapping gives the mapping back. -/
theorem decodeObject_roundtrip (m : List (String × List String)) :
    decodeObject (encodeObject m).length (encodeObject m) = some (m, []) := by
  have h := decodeObject_encodeObject m (m.map (fun kv => kv.2.length)).sum
    (encodeObject m).length [] (encodeObject_length m) (length_le_sum m)
  simpa using h

theorem jsonUnmarshal_jsonMarshal (m : List (String × List String)) :
    jsonUnmarshal (jsonMarshal m) = some (sortMembers m) := by
  simp only [jsonUnmarshal, jsonMarshal, decodeObject_roundtrip]

end JsonLemmas

/-! ## The serialized mapping and the error set -/

section MappingLemmas

variable {W : Type}

theorem insertMember_perm (kv : String × List String) (l : List (String × List String)) :
    (insertMember kv l).Perm (kv :: l) := by
  induction l with
  | nil => exact List.Perm.refl _
  | cons x rest ih =>
    simp only [insertMember]
    split
    · exact List.Perm.refl _
    · exact (List.Perm.cons x ih).trans (List.Perm.swap kv x rest)

theorem sortMembers_perm (l : List (String × List String)) : (sortMembers l).Perm l := by
  induction l with
  | nil => exact List.Perm.refl _
  | cons x rest ih =>
    simp only [sortMembers]
    exact (insertMember_perm x _).trans (List.Perm.cons x ih)

theorem lookupMember_nil (name : String) : lookupMember [] name = none := rfl

theorem lookupMember_cons (x : String × List String) (rest : List (String × List String))
    (name : String) :
    lookupMember (x :: rest) name = if x.1 = name then some x.2 else lookupMember rest name := by
  by_cases h : x.1 = name
  · have hb : (x.1 == name) = true := by simpa using h
    simp [lookupMember, List.find?_cons, hb, h]
  · have hb : (x.1 == name) = false := by simpa using h
    simp [lookupMember, List.find?_cons, hb, h]

theorem lookupMember_iff_mem (l : List (String × List String)) (name : String)
    (v : List String) (hnd : (l.map (fun kv => kv.1)).Nodup) :
    lookupMember l name = some v ↔ (name, v) ∈ l := by
  induction l with
  | nil => simp [lookupMember_nil]
  | cons x rest ih =>
    have hnd2 : (rest.map (fun kv => kv.1)).Nodup := (List.nodup_cons.mp hnd).2
    have hx : x.1 ∉ rest.map (fun kv => kv.1) := (List.nodup_cons.mp hnd).1
    rw [lookupMember_cons]
    by_cases h : x.1 = name
    · rw [if_pos h]
      constructor
      · intro hv
        have : x.2 = v := Option.some.inj hv
        rw [← this, ← h]
        exact List.mem_cons_self _ _
      · intro hm
        rcases List.mem_cons.mp hm with h1 | h1
        · rw [← h1]
        · exfalso
          apply hx
          rw [h]
          exact List.mem_map.mpr ⟨(name, v), h1, rfl⟩
    · rw [if_neg h, ih hnd2]
      constructor
      · intro hm; exact List.mem_cons_of_mem _ hm
      · intro hm
        rcases List.mem_cons.mp hm with h1 | h1
        · exfalso; apply h; rw [← h1]
        · exact h1

theorem lookupMember_perm (l l2 : List (String × List String)) (name : String)
    (hp : l.Perm l2) (hnd : (l2.map (fun kv => kv.1)).Nodup) :
    lookupMember l name = lookupMember l2 name := by
  have hnd1 : (l.map (fun kv => kv.1)).Nodup := (hp.map _).nodup_iff.mpr hnd
  apply Option.ext
  intro v
  simp only [Option.mem_def]
  rw [lookupMember_iff_mem l name v hnd1, lookupMember_iff_mem l2 name v hnd]
  exact hp.mem_iff

theorem lookupMember_shownEntries (entries : List ErrorRecord) (name : String) :
    lookupMember (shownEntries entries) name =
      (findEntry entries name).map (fun e => e.messages) := by
  induction entries with
  | nil => rfl
  | cons x rest ih =>
    simp only [shownEntries, List.map_cons] at ih ⊢
    rw [lookupMember_cons, findEntry_cons]
    by_cases h : x.name = name
    · simp [h]
    · simp only [if_neg h]
      exact ih

theorem extendEntries_names (entries : List ErrorRecord) (r : ErrorRecord) :
    (extendEntries entries r).map (fun e => e.name) =
      if r.name ∈ entries.map (fun e => e.name) then entries.map (fun e => e.name)
      else entries.map (fun e => e.name) ++ [r.name] := by
  induction entries with
  | nil => simp [extendEntries]
  | cons x rest ih =>
    by_cases hn : x.name = r.name
    · simp [extendEntries, hn]
    · have hne : ¬ r.name = x.name := fun h => hn h.symm
      simp only [extendEntries, if_neg hn, List.map_cons, ih, List.mem_cons, hne, false_or]
      split <;> simp

theorem extendEntries_nodup (entries : List ErrorRecord) (r : ErrorRecord)
    (h : (entries.map (fun e => e.name)).Nodup) :
    ((extendEntries entries r).map (fun e => e.name)).Nodup := by
  rw [extendEntries_names]
  split
  · exact h
  · rename_i hm
    rw [List.nodup_append]
    refine ⟨h, List.nodup_singleton _, ?_⟩
    intro a ha hb
    rw [List.mem_singleton] at hb
    exact hm (hb ▸ ha)

theorem Session.validateAll_nodup (mode : Mode) (chains : List (ValidatorContext W)) :
    ∀ (s : Session) (w : W), (s.errorSet.entries.map (fun e => e.name)).Nodup →
      ((Session.validateAll mode s chains w).1.errorSet.entries.map (fun e => e.name)).Nodup := by
  induction chains with
  | nil => intro s w h; exact h
  | cons c rest ih =>
    intro s w h
    simp only [Session.validateAll]
    apply ih
    simp only [Session.validate, ErrorSet.fold]
    cases hp : (s.evalSteps mode c c.fragments w).1.pendingErrorRecord with
    | none => exact h
    | some r => exact extendEntries_nodup _ r h

theorem Session.reachable_nodup (s : Session) (h : s.Reachable) :
    (s.errorSet.entries.map (fun e => e.name)).Nodup := by
  induction h with
  | new options => simp [New, ErrorSet.empty]
  | is s chains w _ ih => exact Session.validateAll_nodup Mode.FailFast chains s w ih
  | check s chains w _ ih => exact Session.validateAll_nodup Mode.AccumulateAll chains s w ih
  | addErrorMessage s name message _ ih => exact extendEntries_nodup _ _ ih

theorem shownEntries_keys (entries : List ErrorRecord) :
    (shownEntries entries).map (fun kv => kv.1) = entries.map (fun e => e.name) := by
  simp [shownEntries]

end MappingLemmas

/-! ## Lemmas on the string checks -/

section StringLemmas

theorem utf8ByteSize_eq_zero (s : String) : s.utf8ByteSize = 0 ↔ s.data = [] := by
  cases s with
  | mk l =>
    cases l with
    | nil => simp [String.utf8ByteSize, String.utf8ByteSize.go]
    | cons c cs =>
      have := Char.utf8Size_pos c
      simp [String.utf8ByteSize, String.utf8ByteSize.go]
      omega

theorem len_eq_zero (s : String) : len s = 0 ↔ s = "" := by
  rw [len, utf8ByteSize_eq_zero]
  constructor
  · intro h; cases s; simp_all
  · intro h; rw [h]

theorem dropWhile_all_iff (p : Char → Bool) (l : List Char) :
    (∀ x ∈ l.dropWhile p, p x = true) ↔ ∀ x ∈ l, p x = true := by
  constructor
  · intro h
    cases hd : l.dropWhile p with
    | nil => exact List.dropWhile_eq_nil_iff.mp hd
    | cons y ys =>
      exfalso
      have hy : p y = true := h y (by rw [hd]; exact List.mem_cons_self _ _)
      have hne : l.dropWhile p ≠ [] := by rw [hd]; simp
      have hhead := List.head_dropWhile_not p l hne
      simp only [hd, List.head_cons] at hhead
      rw [hy] at hhead
      exact absurd hhead (by simp)
  · intro h
    rw [List.dropWhile_eq_nil_iff.mpr h]
    intro x hx
    simp at hx

theorem trimSpace_data_eq_nil (s : String) :
    (TrimSpace s).data = [] ↔ ∀ c ∈ s.data, isSpace c = true := by
  simp only [TrimSpace, List.reverse_eq_nil_iff, List.dropWhile_eq_nil_iff, List.mem_reverse]
  exact dropWhile_all_iff isSpace s.data

theorem isStringBlank_iff (s : String) :
    isStringBlank s = true ↔ ∀ c ∈ s.data, isSpace c = true := by
  simp only [isStringBlank, beq_iff_eq, len, utf8ByteSize_eq_zero]
  exact trimSpace_data_eq_nil s

theorem isStringEmpty_iff (s : String) : isStringEmpty s = true ↔ s = "" := by
  simp only [isStringEmpty, beq_iff_eq, len_eq_zero]

theorem isStringInSlice_iff (v : String) (slice : List String) :
    isStringInSlice v slice = true ↔ v ∈ slice := by
  induction slice with
  | nil => simp [isStringInSlice]
  | cons x rest ih =>
    simp only [isStringInSlice, List.mem_cons]
    by_cases h : v = x
    · simp [h]
    · have hb : (v == x) = false := by simpa using h
      simp only [hb, if_false, ih, h, false_or, Bool.false_eq_true]

theorem compareString_refl (a : List Char) : compareString a a = Ordering.eq := by
  induction a with
  | nil => rfl
  | cons x rest ih => simp [compareString, ih]

theorem compareString_swap (a : List Char) :
    ∀ b : List Char, compareString b a = (compareString a b).swap := by
  induction a with
  | nil => intro b; cases b <;> rfl
  | cons x rest ih =>
    intro b
    cases b with
    | nil => rfl
    | cons y ys =>
      simp only [compareString]
      by_cases h1 : x.toNat < y.toNat
      · have h2 : ¬ y.toNat < x.toNat := by omega
        simp only [h1, h2, if_true, if_false]
        rfl
      · by_cases h2 : y.toNat < x.toNat
        · simp only [h1, h2, if_true, if_false]
          rfl
        · simp only [h1, h2, if_false]
          exact ih ys

theorem compareString_le_trans (a : List Char) :
    ∀ b c : List Char, compareString a b ≠ Ordering.gt → compareString b c ≠ Ordering.gt →
      compareString a c ≠ Ordering.gt := by
  induction a with
  | nil => intro b c _ _; cases c <;> simp [compareString]
  | cons x rest ih =>
    intro b c hab hbc
    cases b with
    | nil => simp [compareString] at hab
    | cons y ys =>
      cases c with
      | nil => simp [compareString] at hbc
      | cons z zs =>
        simp only [compareString] at hab hbc ⊢
        by_cases h1 : x.toNat < y.toNat
        · by_cases h3 : y.toNat < z.toNat
          · have : x.toNat < z.toNat := by omega
            simp [this]
          · by_cases h4 : z.toNat < y.toNat
            · simp [h3, h4] at hbc
            · have : x.toNat < z.toNat := by omega
              simp [this]
        · by_cases h2 : y.toNat < x.toNat
          · simp [h1, h2] at hab
          · simp only [h1, h2, if_false] at hab
            by_cases h3 : y.toNat < z.toNat
            · have : x.toNat < z.toNat := by omega
              simp [this]
            · by_cases h4 : z.toNat < y.toNat
              · simp [h3, h4] at hbc
              · simp only [h3, h4, if_false] at hbc
                have h5 : ¬ x.toNat < z.toNat := by omega
                have h6 : ¬ z.toNat < x.toNat := by omega
                simp only [h5, h6, if_false]
                exact ih ys zs hab hbc

theorem stringGE_iff_stringLE (a b : String) : stringGE a b = stringLE b a := by
  simp only [stringGE, stringLE, compareString_swap a.data b.data]
  cases compareString a.data b.data <;> rfl

theorem stringGT_iff_stringLT (a b : String) : stringGT a b = stringLT b a := by
  simp only [stringGT, stringLT, compareString_swap a.data b.data]
  cases compareString a.data b.data <;> rfl

theorem stringLE_refl (a : String) : stringLE a a = true := by
  simp [stringLE, compareString_refl]

theorem stringLE_trans (a b c : String) (h1 : stringLE a b = true) (h2 : stringLE b c = true) :
    stringLE a c = true := by
  simp only [stringLE, decide_eq_true_eq] at h1 h2 ⊢
  exact compareString_le_trans a.data b.data c.data h1 h2

theorem stringGT_iff_not_stringLE (a b : String) : stringGT a b = !stringLE a b := by
  simp only [stringGT, stringLE]
  cases compareString a.data b.data <;> rfl

end StringLemmas

/-! ## Chains of one check -/

section SingleCheckLemmas

variable {W : Type}

/-- A chain of one check: a passing check leaves the error set, a failing one appends the
record with its message. -/
theorem Session.validate_single (mode : Mode) (s : Session) (chain : ValidatorContext W)
    (p : Predicate W) (key : String) (params : Params) (tmpl : List String) (w : W)
    (hchain : chain.fragments = [Step.Add p key params tmpl]) :
    (s.validate mode chain w).1.errorSet =
      if (p w).1 = true then s.errorSet
      else s.errorSet.append (s.recordOf chain
        [(openContext mode s.currentIndex chain).message s.locale false key params tmpl.head?]) := by
  simp only [Session.validate, Session.evalSteps, hchain, Context.run]
  by_cases hp : (p w).1 = true
  · have hx : xor (p w).1 (openContext mode s.currentIndex chain).negated = true := by
      simp [openContext, hp]
    rw [Context.step_add_pass s.locale _ p key params tmpl w rfl hx, if_pos hp]
    rfl
  · have hx : xor (p w).1 (openContext mode s.currentIndex chain).negated = false := by
      simp [openContext, hp]
    rw [Context.step_add_fail s.locale _ p key params tmpl w rfl hx, if_neg hp]
    rfl

/-- A chain of one negated check: the check passes when its test is false. -/
theorem Session.validate_not_single (mode : Mode) (s : Session) (chain : ValidatorContext W)
    (p : Predicate W) (key : String) (params : Params) (tmpl : List String) (w : W)
    (hchain : chain.fragments = [Step.Not, Step.Add p key params tmpl]) :
    (s.validate mode chain w).1.errorSet =
      if (p w).1 = false then s.errorSet
      else s.errorSet.append (s.recordOf chain
        [(openContext mode s.currentIndex chain).message s.locale true key params tmpl.head?]) := by
  simp only [Session.validate, Session.evalSteps, hchain, Context.run]
  have hstep : (openContext mode s.currentIndex chain).step s.locale (Step.Not : Step W) w =
      ((openContext mode s.currentIndex chain).not, w) := rfl
  rw [hstep]
  by_cases hp : (p w).1 = false
  · have hx : xor (p w).1 (openContext mode s.currentIndex chain).not.negated = true := by
      simp [openContext, Context.not, hp]
    rw [Context.step_add_pass s.locale _ p key params tmpl w rfl hx, if_pos hp]
    rfl
  · have hx : xor (p w).1 (openContext mode s.currentIndex chain).not.negated = false := by
      simp [openContext, Context.not, hp]
    rw [Context.step_add_fail s.locale _ p key params tmpl w rfl hx, if_neg hp]
    rfl

end SingleCheckLemmas

/-! ## Rendering a template that starts with the title -/

section TitleLemmas

theorem renderChars_no_tag (ps : Params) (cs : List Char)
    (h : splitAtTag '\x7b' '\x7b' cs = none) : ∀ fuel, renderChars ps fuel cs = cs := by
  intro fuel
  cases fuel with
  | zero => rfl
  | succ f => simp only [renderChars, h]

theorem renderChars_title (ps : Params) (T : String) (suffix : List Char) (fuel : Nat)
    (hs : splitAtTag '\x7b' '\x7b' suffix = none) :
    renderChars (("title", Value.string T) :: ps) (fuel + 1)
      ('\x7b' :: '\x7b' :: 't' :: 'i' :: 't' :: 'l' :: 'e' :: '\x7d' :: '\x7d' :: suffix) =
      T.data ++ suffix := by
  have h1 : splitAtTag '\x7b' '\x7b'
      ('\x7b' :: '\x7b' :: 't' :: 'i' :: 't' :: 'l' :: 'e' :: '\x7d' :: '\x7d' :: suffix) =
      some ([], 't' :: 'i' :: 't' :: 'l' :: 'e' :: '\x7d' :: '\x7d' :: suffix) := by
    simp [splitAtTag]
  have h2 : splitAtTag '\x7d' '\x7d' ('t' :: 'i' :: 't' :: 'l' :: 'e' :: '\x7d' :: '\x7d' :: suffix) =
      some (['t', 'i', 't', 'l', 'e'], suffix) := by
    simp [splitAtTag]
  have h3 : Params.get (("title", Value.string T) :: ps) (String.mk ['t', 'i', 't', 'l', 'e']) =
      some (Value.string T) := by
    have : String.mk ['t', 'i', 't', 'l', 'e'] = "title" := rfl
    simp [Params.get, this]
  simp only [renderChars, h1, h2, h3, renderChars_no_tag _ suffix hs, Value.format,
    List.nil_append]

theorem render_title (ps : Params) (T suffix : String)
    (hs : splitAtTag '\x7b' '\x7b' suffix.data = none) :
    render ("\x7b\x7btitle\x7d\x7d" ++ suffix) (("title", Value.string T) :: ps) = T ++ suffix := by
  have hd : ("\x7b\x7btitle\x7d\x7d" ++ suffix).data =
      '\x7b' :: '\x7b' :: 't' :: 'i' :: 't' :: 'l' :: 'e' :: '\x7d' :: '\x7d' :: suffix.data := by
    simp [String.data_append]
  simp only [render, hd, List.length_cons]
  rw [renderChars_title ps T suffix.data _ hs]
  apply String.ext
  simp [String.data_append]

/-- The message of a check whose template is the title placeholder followed by a text with
no placeholder: the title of the context followed by that text. -/
theorem Context.message_title (cat : Catalog) (ctx : Context) (negated : Bool) (key : String)
    (params : Params) (suffix : String)
    (ht : cat.template (if negated then negatedKey key else key) =
      "\x7b\x7btitle\x7d\x7d" ++ suffix)
    (hs : splitAtTag '\x7b' '\x7b' suffix.data = none) :
    ctx.message cat negated key params none = ctx.title ++ suffix := by
  simp only [Context.message, ht]
  exact render_title _ ctx.title suffix hs

end TitleLemmas

/-! ## Lemmas on the `Validator` session -/

section ValidatorLemmas

theorem ok_of_returned {α : Type} (x : Except String α) (a : α) (h : returned x = some a) :
    x = Except.ok a := by
  cases x with
  | error e => simp [returned] at h
  | ok b =>
    simp only [returned, Option.some.injEq] at h
    rw [h]

theorem error_of_panicked {α : Type} (x : Except String α) (h : panicked x = true) :
    ∃ e, x = Except.error e := by
  cases x with
  | error e => exact ⟨e, rfl⟩
  | ok b => simp [panicked] at h

theorem wrapInt_of_range (i : Int) (h1 : -(2 ^ 63) ≤ i) (h2 : i < 2 ^ 63) : wrapInt i = i := by
  unfold wrapInt
  have e63 : (2 : Int) ^ 63 = 9223372036854775808 := by norm_num
  have e64 : (2 : Int) ^ 64 = 18446744073709551616 := by norm_num
  rw [e63] at h1 h2 ⊢
  rw [e64]
  omega

theorem Validator.calls_cons (validator : Validator) (c : Validator.Call)
    (cs : List Validator.Call) : validator.calls (c :: cs) = (validator.call c).calls cs := rfl

/-- The index after a sequence of calls: one more for each value opened, as long as the
Go `int` does not overflow. -/
theorem Validator.calls_currentIndex (cs : List Validator.Call) :
    ∀ (validator : Validator), -1 ≤ validator.currentIndex →
      validator.currentIndex + (cs.countP Validator.Call.opens : Int) < 2 ^ 63 →
      (validator.calls cs).currentIndex =
        validator.currentIndex + (cs.countP Validator.Call.opens : Int) := by
  induction cs with
  | nil => intro validator _ _; simp [Validator.calls]
  | cons c rest ih =>
    intro validator h1 h2
    rw [Validator.calls_cons]
    have e63 : (2 : Int) ^ 63 = 9223372036854775808 := by norm_num
    cases c with
    | Is value =>
      have hcount : ((Validator.Call.Is value :: rest).countP Validator.Call.opens : Int) =
          (rest.countP Validator.Call.opens : Int) + 1 := by
        simp [List.countP_cons, Validator.Call.opens]
      rw [hcount] at h2 ⊢
      have hidx : (validator.call (Validator.Call.Is value)).currentIndex =
          validator.currentIndex + 1 := by
        show wrapInt (validator.currentIndex + 1) = _
        apply wrapInt_of_range <;> rw [e63] at * <;> omega
      rw [ih _ (by rw [hidx]; omega) (by rw [hidx]; omega), hidx]
      omega
    | Named name =>
      have hcount : ((Validator.Call.Named name :: rest).countP Validator.Call.opens : Int) =
          (rest.countP Validator.Call.opens : Int) := by
        simp [List.countP_cons, Validator.Call.opens]
      rw [hcount] at h2 ⊢
      exact ih _ h1 h2
    | Titled title =>
      have hcount : ((Validator.Call.Titled title :: rest).countP Validator.Call.opens : Int) =
          (rest.countP Validator.Call.opens : Int) := by
        simp [List.countP_cons, Validator.Call.opens]
      rw [hcount] at h2 ⊢
      exact ih _ h1 h2

end ValidatorLemmas

/-! ## Lemmas on the template library -/

section TemplateLemmas

theorem splitAtTag_length (a b : Char) (s : List Char) :
    ∀ x y, splitAtTag a b s = some (x, y) → x.length + 2 + y.length = s.length := by
  induction s with
  | nil => intro x y h; simp [splitAtTag] at h
  | cons c rest ih =>
    intro x y h
    cases rest with
    | nil => simp [splitAtTag] at h
    | cons d rest2 =>
      rw [splitAtTag] at h
      by_cases hc : c = a ∧ d = b
      · rw [if_pos hc] at h
        simp only [Option.some.injEq, Prod.mk.injEq] at h
        obtain ⟨h1, h2⟩ := h
        subst h1 h2
        simp only [List.length_nil, List.length_cons]
        omega
      · rw [if_neg hc] at h
        cases hr : splitAtTag a b (d :: rest2) with
        | none => rw [hr] at h; simp at h
        | some p =>
          rw [hr] at h
          simp only [Option.some.injEq, Prod.mk.injEq] at h
          obtain ⟨h1, h2⟩ := h
          have := ih p.1 p.2 (by rw [hr])
          subst h1 h2
          simp only [List.length_cons] at this ⊢
          omega

theorem splitAtTag_append (a b : Char) (pre : List Char) :
    ∀ rest, splitAtTag a b (pre ++ [a]) = none →
      splitAtTag a b (pre ++ a :: b :: rest) = some (pre, rest) := by
  induction pre with
  | nil => intro rest _; simp [splitAtTag]
  | cons c pre2 ih =>
    intro rest h
    cases pre2 with
    | nil =>
      simp only [List.cons_append, List.nil_append] at h ⊢
      rw [splitAtTag] at h ⊢
      by_cases hc : c = a ∧ a = b
      · rw [if_pos hc] at h; simp at h
      · rw [if_neg hc]
        simp [splitAtTag]
    | cons d pre3 =>
      simp only [List.cons_append] at h ⊢
      rw [splitAtTag] at h ⊢
      by_cases hc : c = a ∧ d = b
      · rw [if_pos hc] at h; simp at h
      · rw [if_neg hc] at h ⊢
        have h2 : splitAtTag a b (d :: (pre3 ++ [a])) = none := by
          cases hr : splitAtTag a b (d :: (pre3 ++ [a])) with
          | none => rfl
          | some p => rw [hr] at h; simp at h
        have := ih rest (by simpa using h2)
        simp only [List.cons_append] at this
        rw [this]

theorem parseTemplate_fuel (fuel1 : Nat) :
    ∀ (fuel2 : Nat) (s : List Char), s.length ≤ fuel1 → s.length ≤ fuel2 →
      parseTemplate fuel1 s = parseTemplate fuel2 s := by
  induction fuel1 with
  | zero =>
    intro fuel2 s h1 _
    have hs : s = [] := List.length_eq_zero.mp (Nat.le_zero.mp h1)
    subst hs
    cases fuel2 with
    | zero => rfl
    | succ f => simp [parseTemplate, splitAtTag]
  | succ f1 ih =>
    intro fuel2 s h1 h2
    cases fuel2 with
    | zero =>
      have hs : s = [] := List.length_eq_zero.mp (Nat.le_zero.mp h2)
      subst hs
      simp [parseTemplate, splitAtTag]
    | succ f2 =>
      simp only [parseTemplate]
      cases hsp : splitAtTag '\x7b' '\x7b' s with
      | none => rfl
      | some p =>
        obtain ⟨text, rest⟩ := p
        have hl := splitAtTag_length _ _ s text rest hsp
        simp only []
        cases hsp2 : splitAtTag '\x7d' '\x7d' rest with
        | none => rfl
        | some q =>
          obtain ⟨tag, post⟩ := q
          have hl2 := splitAtTag_length _ _ rest tag post hsp2
          simp only []
          rw [ih f2 post (by omega) (by omega)]

theorem executeSegments_cons (m : Params) (t t2 : List Char) (texts : List (List Char))
    (tag : String) (tags : List String) (v : String) (rest : List Char)
    (hv : stdTagFunc m tag = Except.ok v)
    (hr : executeSegments m (t2 :: texts) tags = Except.ok rest) :
    executeSegments m (t :: t2 :: texts) (tag :: tags) = Except.ok (t ++ v.data ++ rest) := by
  simp only [executeSegments, hv, hr]

theorem parseTemplate_texts_ne_nil (fuel : Nat) :
    ∀ (s : List Char) (texts : List (List Char)) (tags : List String),
      parseTemplate fuel s = Except.ok (texts, tags) → texts ≠ [] := by
  induction fuel with
  | zero =>
    intro s texts tags h
    simp only [parseTemplate, Except.ok.injEq, Prod.mk.injEq] at h
    rw [← h.1]; simp
  | succ f ih =>
    intro s texts tags h
    simp only [parseTemplate] at h
    cases hsp : splitAtTag '\x7b' '\x7b' s with
    | none =>
      rw [hsp] at h
      simp only [Except.ok.injEq, Prod.mk.injEq] at h
      rw [← h.1]; simp
    | some p =>
      obtain ⟨text, rest⟩ := p
      rw [hsp] at h
      simp only [] at h
      cases hsp2 : splitAtTag '\x7d' '\x7d' rest with
      | none => rw [hsp2] at h; simp at h
      | some q =>
        obtain ⟨tag, post⟩ := q
        rw [hsp2] at h
        simp only [] at h
        cases hp : parseTemplate f post with
        | error e => rw [hp] at h; simp at h
        | ok r =>
          obtain ⟨texts2, tags2⟩ := r
          rw [hp] at h
          simp only [Except.ok.injEq, Prod.mk.injEq] at h
          rw [← h.1]; simp

theorem executeSegments_total (m : Params) (texts : List (List Char)) :
    ∀ tags : List String, (∀ tag ∈ tags, panicked (stdTagFunc m tag) = false) →
      panicked (executeSegments m texts tags) = false := by
  induction texts with
  | nil => intro tags _; rfl
  | cons t rest ih =>
    intro tags h
    cases rest with
    | nil => rfl
    | cons t2 texts2 =>
      cases tags with
      | nil => rfl
      | cons tag tags2 =>
        have h1 := h tag (List.mem_cons_self _ _)
        have h2 := ih tags2 (fun x hx => h x (List.mem_cons_of_mem _ hx))
        simp only [executeSegments]
        cases hv : stdTagFunc m tag with
        | error e => rw [hv] at h1; simp [panicked] at h1
        | ok v =>
          simp only []
          cases hr : executeSegments m (t2 :: texts2) tags2 with
          | error e => rw [hr] at h2; simp [panicked] at h2
          | ok r => rfl

theorem stdTagFunc_of_isText (m : Params) (tag : String)
    (h : ∀ v, m.get tag = some v → v.isText = true) : panicked (stdTagFunc m tag) = false := by
  unfold stdTagFunc
  cases hg : m.get tag with
  | none => rfl
  | some v =>
    have := h v hg
    cases v <;> simp [Value.isText] at this <;> rfl

theorem parseTemplate_succ (fuel : Nat) (s : List Char) :
    parseTemplate (fuel + 1) s =
      match splitAtTag '\x7b' '\x7b' s with
      | none => Except.ok ([s], [])
      | some (text, rest) =>
        match splitAtTag '\x7d' '\x7d' rest with
        | none => Except.error "Cannot find end tag"
        | some (tag, post) =>
          match parseTemplate fuel post with
          | Except.ok (texts, tags) => Except.ok (text :: texts, String.mk tag :: tags)
          | Except.error e => Except.error e := rfl

theorem renderTemplate_text (values : Params) (text : String)
    (h : splitAtTag '\x7b' '\x7b' text.data = none) :
    renderTemplate text values = Except.ok text := by
  have hp : parseTemplate text.data.length text.data = Except.ok ([text.data], []) := by
    cases text.data.length with
    | zero => rfl
    | succ f => simp only [parseTemplate, h]
  simp only [renderTemplate, fasttemplateNew, hp, Template.ExecuteString, executeSegments]

theorem renderTemplate_placeholder (values : Params) (pre tag post : List Char)
    (v rest : String)
    (hpre : splitAtTag '\x7b' '\x7b' (pre ++ ['\x7b']) = none)
    (htag : splitAtTag '\x7d' '\x7d' (tag ++ ['\x7d']) = none)
    (hv : stdTagFunc values (String.mk tag) = Except.ok v)
    (hrest : renderTemplate (String.mk post) values = Except.ok rest) :
    renderTemplate (String.mk (pre ++ '\x7b' :: '\x7b' :: (tag ++ '\x7d' :: '\x7d' :: post)))
      values = Except.ok (String.mk pre ++ v ++ rest) := by
  have h1 := splitAtTag_append '\x7b' '\x7b' pre (tag ++ '\x7d' :: '\x7d' :: post) hpre
  have h2 := splitAtTag_append '\x7d' '\x7d' tag post htag
  simp only [renderTemplate, fasttemplateNew] at hrest ⊢
  cases hp : parseTemplate post.length post with
  | error e => rw [hp] at hrest; simp at hrest
  | ok r =>
    obtain ⟨texts, tags⟩ := r
    rw [hp] at hrest
    simp only [Template.ExecuteString] at hrest
    have hne := parseTemplate_texts_ne_nil _ _ _ _ hp
    cases texts with
    | nil => exact absurd rfl hne
    | cons t2 texts2 =>
      cases he : executeSegments values (t2 :: texts2) tags with
      | error e => rw [he] at hrest; simp at hrest
      | ok out =>
        rw [he] at hrest
        simp only [Except.ok.injEq] at hrest
        obtain ⟨n, hlen, hn⟩ : ∃ n,
            (pre ++ '\x7b' :: '\x7b' :: (tag ++ '\x7d' :: '\x7d' :: post)).length = n + 1 ∧
              post.length ≤ n :=
          ⟨pre.length + tag.length + post.length + 3, by
            simp only [List.length_append, List.length_cons]; omega, by omega⟩
        rw [hlen, parseTemplate_succ, h1]
        simp only [h2]
        rw [parseTemplate_fuel n post.length post hn (le_refl _), hp]
        simp only [Template.ExecuteString,
          executeSegments_cons values pre t2 texts2 (String.mk tag) tags v out hv he]
        rw [← hrest]
        congr 1

theorem renderTemplate_total (values : Params) (template : String)
    (hclosed : panicked (fasttemplateNew template) = false)
    (hvalues : ∀ tag v, values.get tag = some v → v.isText = true) :
    panicked (renderTemplate template values) = false := by
  simp only [renderTemplate, fasttemplateNew] at hclosed ⊢
  cases hp : parseTemplate template.data.length template.data with
  | error e => rw [hp] at hclosed; simp [panicked] at hclosed
  | ok r =>
    obtain ⟨texts, tags⟩ := r
    simp only [Template.ExecuteString]
    have := executeSegments_total values texts tags
      (fun tag _ => stdTagFunc_of_isText values tag (hvalues tag))
    cases he : executeSegments values texts tags with
    | error e => rw [he] at this; simp [panicked] at this
    | ok out => rfl

theorem returned_of_not_panicked {α : Type} (x : Except String α) (h : panicked x = false) :
    ∃ a, x = Except.ok a := by
  cases x with
  | error e => simp [panicked] at h
  | ok a => exact ⟨a, rfl⟩

end TemplateLemmas

/-! ## Lemmas on the comparison and the byte length of strings -/

theorem char_eq_of_toNat_eq (a b : Char) (h : a.toNat = b.toNat) : a = b := by
  apply Char.ext
  cases a; cases b; simp [Char.toNat] at h; simp; exact UInt32.toNat.inj h

theorem compareString_eq_iff (a : List Char) :
    ∀ b, compareString a b = Ordering.eq ↔ a = b := by
  induction a with
  | nil => intro b; cases b <;> simp [compareString]
  | cons x xs ih =>
    intro b
    cases b with
    | nil => simp [compareString]
    | cons y ys =>
      simp only [compareString]
      by_cases h1 : x.toNat < y.toNat
      · simp only [h1, if_true]
        constructor
        · intro h; cases h
        · intro h
          injection h with hx _
          rw [hx] at h1
          exact absurd h1 (lt_irrefl _)
      · by_cases h2 : y.toNat < x.toNat
        · simp only [h1, h2, if_true, if_false]
          constructor
          · intro h; cases h
          · intro h
            injection h with hx _
            rw [hx] at h2
            exact absurd h2 (lt_irrefl _)
        · simp only [h1, h2, if_false, ih]
          have hxy : x = y := char_eq_of_toNat_eq x y (by omega)
          simp [hxy]

theorem isStringEqualTo_iff (a b : String) :
    isStringEqualTo a b = true ↔ compareString a.data b.data = Ordering.eq := by
  rw [compareString_eq_iff]
  simp [isStringEqualTo, String.ext_iff]

theorem two_le_utf8Size (c : Char) (h : 128 ≤ c.toNat) : 2 ≤ c.utf8Size := by
  unfold Char.utf8Size
  simp only
  split_ifs with h1 h2 h3
  · exfalso
    have : c.val.toNat ≤ 127 := h1
    simp [Char.toNat] at h
    omega
  · exact le_refl _
  · omega
  · omega

theorem utf8ByteSize_go_eq_sum (l : List Char) :
    String.utf8ByteSize.go l = (l.map Char.utf8Size).sum := by
  induction l with
  | nil => rfl
  | cons c cs ih =>
    simp only [String.utf8ByteSize.go, List.map_cons, List.sum_cons, ih]
    omega

theorem length_le_utf8ByteSize_go (l : List Char) : l.length ≤ String.utf8ByteSize.go l := by
  induction l with
  | nil => simp [String.utf8ByteSize.go]
  | cons c cs ih =>
    have := Char.utf8Size_pos c
    simp only [String.utf8ByteSize.go, List.length_cons]
    omega

theorem length_lt_utf8ByteSize_go (l : List Char) (h : ∃ c ∈ l, 128 ≤ c.toNat) :
    l.length < String.utf8ByteSize.go l := by
  induction l with
  | nil => obtain ⟨c, hc, _⟩ := h; cases hc
  | cons d ds ih =>
    obtain ⟨c, hc, h128⟩ := h
    simp only [String.utf8ByteSize.go, List.length_cons]
    rcases List.mem_cons.mp hc with hcd | hcds
    · subst hcd
      have h2 := two_le_utf8Size c h128
      have := length_le_utf8ByteSize_go ds
      omega
    · have := ih ⟨c, hcds, h128⟩
      have := Char.utf8Size_pos d
      omega

/-! ## Lemmas on the operations of a `Validator` -/

theorem Validator.invalidate_locale (validator failed : Validator) (key : String)
    (values : Params) (h : validator.invalidate key values = Except.ok failed) :
    failed._locale = validator._locale := by
  unfold Validator.invalidate at h
  cases hm : validator.message key values with
  | error e => rw [hm] at h; cases h
  | ok message =>
    rw [hm] at h
    cases hc : validator.currentError with
    | none => rw [hc] at h; cases h; rfl
    | some e => rw [hc] at h; cases h; rfl

theorem Validator.invalidate_invariant (validator failed : Validator) (key : String)
    (values : Params) (hinv : validator.valid = true ↔ validator.errors = [])
    (h : validator.invalidate key values = Except.ok failed) :
    (failed.valid = true ↔ failed.errors = []) := by
  unfold Validator.invalidate at h
  cases hm : validator.message key values with
  | error e => rw [hm] at h; cases h
  | ok message =>
    rw [hm] at h
    cases hc : validator.currentError with
    | none => rw [hc] at h; cases h; simp
    | some e => rw [hc] at h; cases h; exact hinv

theorem Validator.invalidate_returns (validator : Validator) (key : String)
    (values : Params) (h : panicked (validator.message key values) = false) :
    panicked (validator.invalidate key values) = false := by
  unfold Validator.invalidate
  cases hm : validator.message key values with
  | error e => rw [hm] at h; cases h
  | ok message =>
    cases hc : validator.currentError with
    | none => rfl
    | some e => rfl

theorem Validator.apply_locale (validator next : Validator) (op : Validator.Operation)
    (h : validator.apply op = Except.ok next) : next._locale = validator._locale := by
  cases op with
  | Is value => cases h; rfl
  | Named name => cases h; rfl
  | Titled title => cases h; rfl
  | invalidate key values => exact Validator.invalidate_locale validator next key values h

theorem Validator.apply_invariant (validator next : Validator) (op : Validator.Operation)
    (hinv : validator.valid = true ↔ validator.errors = [])
    (h : validator.apply op = Except.ok next) : (next.valid = true ↔ next.errors = []) := by
  cases op with
  | Is value => cases h; exact hinv
  | Named name => cases h; exact hinv
  | Titled title => cases h; exact hinv
  | invalidate key values => exact Validator.invalidate_invariant validator next key values hinv h

theorem Validator.apply_returns (validator : Validator) (op : Validator.Operation)
    (h : op.panics validator = false) : panicked (validator.apply op) = false := by
  cases op with
  | Is value => rfl
  | Named name => rfl
  | Titled title => rfl
  | invalidate key values => exact Validator.invalidate_returns validator key values h

theorem Validator.Operation.panics_congr (a b : Validator) (op : Validator.Operation)
    (h : a._locale = b._locale) : op.panics a = op.panics b := by
  cases op with
  | invalidate key values => simp [Validator.Operation.panics, Validator.message, h]
  | Is value => rfl
  | Named name => rfl
  | Titled title => rfl

theorem Validator.run_invariant (ops : List Validator.Operation) :
    ∀ (validator last : Validator), (validator.valid = true ↔ validator.errors = []) →
      validator.run ops = Except.ok last → (last.valid = true ↔ last.errors = []) := by
  induction ops with
  | nil => intro validator last hinv h; cases h; exact hinv
  | cons op ops ih =>
    intro validator last hinv h
    simp only [Validator.run] at h
    cases ha : validator.apply op with
    | error e => rw [ha] at h; cases h
    | ok next =>
      rw [ha] at h
      exact ih next last (Validator.apply_invariant validator next op hinv ha) h

theorem Validator.run_returns (ops : List Validator.Operation) :
    ∀ (validator : Validator), (∀ op ∈ ops, op.panics validator = false) →
      panicked (validator.run ops) = false := by
  induction ops with
  | nil => intro validator _; rfl
  | cons op ops ih =>
    intro validator h
    simp only [Validator.run]
    have h1 := Validator.apply_returns validator op (h op (List.mem_cons_self _ _))
    cases ha : validator.apply op with
    | error e => rw [ha] at h1; cases h1
    | ok next =>
      simp only
      apply ih
      intro o ho
      rw [Validator.Operation.panics_congr next validator o
        (Validator.apply_locale validator next op ha)]
      exact h o (List.mem_cons_of_mem _ ho)

theorem Validator.invalidate_first (validator : Validator) (key : String) (values : Params)
    (message : String) (hnone : validator.currentError = none)
    (h : validator.message key values = Except.ok message) :
    validator.invalidate key values = Except.ok { validator with
      currentError := some { Name := validator.currentName, Title := validator.currentTitle
                             Value := validator.currentValue, Messages := [message] }
      currentValid := false
      valid := false
      errors := validator.errors ++
        [{ Name := validator.currentName, Title := validator.currentTitle
           Value := validator.currentValue, Messages := [message] }] } := by
  unfold Validator.invalidate
  rw [h, hnone]

theorem Validator.invalidate_later (validator : Validator) (key : String) (values : Params)
    (message : String) (e : Validator.Error) (hsome : validator.currentError = some e)
    (h : validator.message key values = Except.ok message) :
    validator.invalidate key values = Except.ok { validator with
      currentError := some { e with Messages := e.Messages ++ [message] } } := by
  unfold Validator.invalidate
  rw [h, hsome]

theorem Validator.message_of_locale (a b : Validator) (key : String) (values : Params)
    (h : a._locale = b._locale) : a.message key values = b.message key values := by
  simp [Validator.message, h]

theorem Validator.messages_of_locale (a b : Validator) (failures : List (String × Params))
    (h : a._locale = b._locale) : a.messages failures = b.messages failures := by
  simp [Validator.messages, Validator.message, h]

theorem Validator.messages_cons (validator : Validator) (f : String × Params)
    (fs : List (String × Params)) (message : String)
    (h : validator.message f.1 f.2 = Except.ok message) :
    validator.messages (f :: fs) = message :: validator.messages fs := by
  simp [Validator.messages, h, returned]

theorem Validator.messages_length (validator : Validator) :
    ∀ failures : List (String × Params),
      (∀ f ∈ failures, panicked (validator.message f.1 f.2) = false) →
      (validator.messages failures).length = failures.length := by
  intro failures
  induction failures with
  | nil => intro _; rfl
  | cons f fs ih =>
    intro h
    have hf := h f (List.mem_cons_self _ _)
    cases hm : validator.message f.1 f.2 with
    | error e => rw [hm] at hf; cases hf
    | ok message =>
      rw [Validator.messages_cons validator f fs message hm, List.length_cons,
        List.length_cons, ih (fun g hg => h g (List.mem_cons_of_mem _ hg))]

theorem Validator.invalidateAll_later (failures : List (String × Params)) :
    ∀ (validator : Validator) (e : Validator.Error), validator.currentError = some e →
      (∀ f ∈ failures, panicked (validator.message f.1 f.2) = false) →
      validator.invalidateAll failures = Except.ok { validator with
        currentError := some { e with
          Messages := e.Messages ++ validator.messages failures } } := by
  induction failures with
  | nil =>
    intro validator e he _
    simp only [Validator.invalidateAll, Validator.messages, List.filterMap_nil,
      List.append_nil]
    rw [← he]
  | cons f fs ih =>
    intro validator e he h
    have hf := h f (List.mem_cons_self _ _)
    cases hm : validator.message f.1 f.2 with
    | error err => rw [hm] at hf; cases hf
    | ok message =>
      simp only [Validator.invalidateAll]
      rw [Validator.invalidate_later validator f.1 f.2 message e he hm]
      simp only
      have hih := ih { validator with
          currentError := some { e with Messages := e.Messages ++ [message] } }
        { e with Messages := e.Messages ++ [message] } rfl
        (fun g hg => h g (List.mem_cons_of_mem _ hg))
      rw [hih, Validator.messages_cons validator f fs message hm]
      simp only [List.append_assoc, List.singleton_append]
      rfl

theorem Validator.calls_fields (cs : List Validator.Call) :
    ∀ validator : Validator,
      (validator.calls cs).currentError = validator.currentError ∧
      (validator.calls cs)._locale = validator._locale ∧
      (validator.calls cs).errors = validator.errors ∧
      (validator.calls cs).valid = validator.valid := by
  induction cs with
  | nil => intro validator; exact ⟨rfl, rfl, rfl, rfl⟩
  | cons c cs ih =>
    intro validator
    rw [Validator.calls_cons]
    have h := ih (validator.call c)
    cases c <;> exact h

theorem Validator.calls_currentValid (cs : List Validator.Call) :
    ∀ validator : Validator, validator.currentValid = true →
      (validator.calls cs).currentValid = true := by
  induction cs with
  | nil => intro validator h; exact h
  | cons c cs ih =>
    intro validator h
    rw [Validator.calls_cons]
    apply ih
    cases c with
    | Is value => rfl
    | Named name => exact h
    | Titled title => exact h

/-! ## The negation followed by two registrations -/

theorem Context.run_not_add {W : Type} (cat : Catalog) (ctx : Context) (p q : Predicate W)
    (key1 key2 : String) (params1 params2 : Params) (tmpl1 tmpl2 : List String) (w : W)
    (hs : ctx.shortCircuited = false) :
    (ctx.run cat [Step.Not, Step.Add p key1 params1 tmpl1] w).2 = (p w).2 ∧
    ((ctx.run cat [Step.Not, Step.Add p key1 params1 tmpl1] w).1.pendingErrorRecord =
        ctx.pendingErrorRecord ↔ (p w).1 = false) ∧
    (ctx.run cat [Step.Not, Step.Add p key1 params1 tmpl1] w).1.negated = false ∧
    ((ctx.run cat [Step.Not, Step.Add p key1 params1 tmpl1] w).1.shortCircuited = false →
      ((ctx.run cat [Step.Not, Step.Add p key1 params1 tmpl1, Step.Add q key2 params2 tmpl2]
          w).1.pendingErrorRecord =
        (ctx.run cat [Step.Not, Step.Add p key1 params1 tmpl1] w).1.pendingErrorRecord ↔
        (q (p w).2).1 = true)) := by
  have hrun : ctx.run cat [Step.Not, Step.Add p key1 params1 tmpl1] w =
      ctx.not.step cat (Step.Add p key1 params1 tmpl1) w := rfl
  have hs1 : ctx.not.shortCircuited = false := hs
  obtain ⟨hneg, hw⟩ := Context.step_add_negated cat ctx.not p key1 params1 tmpl1 w hs1
  have hiff := Context.step_add_unchanged_iff cat ctx.not p key1 params1 tmpl1 w hs1
  have hnot : ctx.not.negated = true := rfl
  have hpend : ctx.not.pendingErrorRecord = ctx.pendingErrorRecord := rfl
  rw [hnot, hpend] at hiff
  rw [hrun]
  refine ⟨hw, ?_, hneg, ?_⟩
  · rw [hiff]; cases (p w).1 <;> simp
  · intro hs2
    have hrun3 :
        ctx.run cat [Step.Not, Step.Add p key1 params1 tmpl1, Step.Add q key2 params2 tmpl2] w =
          (ctx.not.step cat (Step.Add p key1 params1 tmpl1) w).1.step cat
            (Step.Add q key2 params2 tmpl2) (ctx.not.step cat (Step.Add p key1 params1 tmpl1) w).2 :=
      rfl
    rw [hrun3, Context.step_add_unchanged_iff cat _ q key2 params2 tmpl2 _ hs2, hneg, hw]
    cases (q (p w).2).1 <;> simp

theorem Session.evalSteps_not_add {W : Type} (s : Session) (mode : Mode)
    (base : ValidatorContext W) (p q : Predicate W) (key1 key2 : String)
    (params1 params2 : Params) (tmpl1 tmpl2 : List String) (w : W)
    (hs : (s.evalSteps mode base base.fragments w).1.shortCircuited = false) :
    (s.evalSteps mode (base.Not.AddWithParams p key1 params1 tmpl1)
        (base.Not.AddWithParams p key1 params1 tmpl1).fragments w).2 =
      (p (s.evalSteps mode base base.fragments w).2).2 ∧
    ((s.evalSteps mode (base.Not.AddWithParams p key1 params1 tmpl1)
        (base.Not.AddWithParams p key1 params1 tmpl1).fragments w).1.pendingErrorRecord =
      (s.evalSteps mode base base.fragments w).1.pendingErrorRecord ↔
      (p (s.evalSteps mode base base.fragments w).2).1 = false) ∧
    (s.evalSteps mode (base.Not.AddWithParams p key1 params1 tmpl1)
        (base.Not.AddWithParams p key1 params1 tmpl1).fragments w).1.negated = false ∧
    ((s.evalSteps mode (base.Not.AddWithParams p key1 params1 tmpl1)
        (base.Not.AddWithParams p key1 params1 tmpl1).fragments w).1.shortCircuited = false →
      ((s.evalSteps mode
          ((base.Not.AddWithParams p key1 params1 tmpl1).AddWithParams q key2 params2 tmpl2)
          ((base.Not.AddWithParams p key1 params1 tmpl1).AddWithParams q key2 params2
            tmpl2).fragments w).1.pendingErrorRecord =
        (s.evalSteps mode (base.Not.AddWithParams p key1 params1 tmpl1)
          (base.Not.AddWithParams p key1 params1 tmpl1).fragments w).1.pendingErrorRecord ↔
        (q (p (s.evalSteps mode base base.fragments w).2).2).1 = true)) := by
  have h1 : s.evalSteps mode (base.Not.AddWithParams p key1 params1 tmpl1)
      (base.Not.AddWithParams p key1 params1 tmpl1).fragments w =
      (s.evalSteps mode base base.fragments w).1.run s.locale
        [Step.Not, Step.Add p key1 params1 tmpl1] (s.evalSteps mode base base.fragments w).2 := by
    show (openContext mode s.currentIndex base).run s.locale
      ((base.fragments ++ [Step.Not]) ++ [Step.Add p key1 params1 tmpl1]) w = _
    rw [List.append_assoc, Context.run_append]
    rfl
  have h2 : s.evalSteps mode
      ((base.Not.AddWithParams p key1 params1 tmpl1).AddWithParams q key2 params2 tmpl2)
      ((base.Not.AddWithParams p key1 params1 tmpl1).AddWithParams q key2 params2
        tmpl2).fragments w =
      (s.evalSteps mode base base.fragments w).1.run s.locale
        [Step.Not, Step.Add p key1 params1 tmpl1, Step.Add q key2 params2 tmpl2]
        (s.evalSteps mode base base.fragments w).2 := by
    show (openContext mode s.currentIndex base).run s.locale
      (((base.fragments ++ [Step.Not]) ++ [Step.Add p key1 params1 tmpl1]) ++
        [Step.Add q key2 params2 tmpl2]) w = _
    rw [List.append_assoc, List.append_assoc, Context.run_append]
    rfl
  rw [h1, h2]
  exact Context.run_not_add s.locale (s.evalSteps mode base base.fragments w).1 p q key1 key2
    params1 params2 tmpl1 tmpl2 (s.evalSteps mode base base.fragments w).2 hs

/-! ## Lemmas on the templates that render and the ones that abort -/

theorem splitAtTag_some_eq (a b : Char) :
    ∀ (s pre post : List Char), splitAtTag a b s = some (pre, post) →
      s = pre ++ a :: b :: post := by
  intro s
  induction s with
  | nil => intro pre post h; simp [splitAtTag] at h
  | cons c rest ih =>
    intro pre post h
    cases rest with
    | nil => simp [splitAtTag] at h
    | cons d rest2 =>
      rw [splitAtTag] at h
      by_cases hc : c = a ∧ d = b
      · rw [if_pos hc] at h
        simp only [Option.some.injEq, Prod.mk.injEq] at h
        obtain ⟨h1, h2⟩ := h
        subst h1 h2
        rw [hc.1, hc.2]
        rfl
      · rw [if_neg hc] at h
        cases hr : splitAtTag a b (d :: rest2) with
        | none => rw [hr] at h; simp at h
        | some r =>
          obtain ⟨pre2, post2⟩ := r
          rw [hr] at h
          simp only [Option.some.injEq, Prod.mk.injEq] at h
          obtain ⟨h1, h2⟩ := h
          subst h1 h2
          rw [ih pre2 post2 hr]
          rfl

theorem splitAtTag_isSome_append (a b : Char) (p : List Char) :
    ∀ q, (splitAtTag a b (p ++ a :: b :: q)).isSome = true := by
  induction p with
  | nil => intro q; simp [splitAtTag]
  | cons c p2 ih =>
    intro q
    have h := ih q
    cases p2 with
    | nil =>
      simp only [List.cons_append, List.nil_append] at h ⊢
      rw [splitAtTag]
      by_cases hc : c = a ∧ a = b
      · rw [if_pos hc]; rfl
      · rw [if_neg hc]
        cases hr : splitAtTag a b (a :: b :: q) with
        | none => rw [hr] at h; simp at h
        | some r => rfl
    | cons d p3 =>
      simp only [List.cons_append] at h ⊢
      rw [splitAtTag]
      by_cases hc : c = a ∧ d = b
      · rw [if_pos hc]; rfl
      · rw [if_neg hc]
        cases hr : splitAtTag a b (d :: (p3 ++ a :: b :: q)) with
        | none => rw [hr] at h; simp at h
        | some r => rfl

theorem hasUnclosedTag_cons (c : Char) (rest : List Char) :
    hasUnclosedTag (c :: rest) = (startsUnclosed (c :: rest) || hasUnclosedTag rest) := rfl

theorem hasUnclosedTag_of_no_start :
    ∀ s : List Char, splitAtTag '\x7b' '\x7b' s = none → hasUnclosedTag s = false := by
  intro s
  induction s with
  | nil => intro _; rfl
  | cons c rest ih =>
    intro h
    cases rest with
    | nil => rfl
    | cons d rest2 =>
      rw [splitAtTag] at h
      by_cases hc : c = '\x7b' ∧ d = '\x7b'
      · rw [if_pos hc] at h; simp at h
      · rw [if_neg hc] at h
        have hr : splitAtTag '\x7b' '\x7b' (d :: rest2) = none := by
          cases hr : splitAtTag '\x7b' '\x7b' (d :: rest2) with
          | none => rfl
          | some r => rw [hr] at h; simp at h
        rw [hasUnclosedTag_cons, ih hr, Bool.or_false]
        simp only [startsUnclosed]
        by_cases h1 : c = '\x7b'
        · have h2 : d ≠ '\x7b' := fun h2 => hc ⟨h1, h2⟩
          simp [h2]
        · simp [h1]

theorem hasUnclosedTag_end (pre : List Char) :
    ∀ post, hasUnclosedTag (pre ++ '\x7d' :: '\x7d' :: post) = hasUnclosedTag post := by
  induction pre with
  | nil =>
    intro post
    cases post with
    | nil => rfl
    | cons e post2 =>
      simp only [List.nil_append, hasUnclosedTag_cons]
      simp [startsUnclosed]
  | cons c pre2 ih =>
    intro post
    simp only [List.cons_append]
    rw [hasUnclosedTag_cons, ih post]
    cases pre2 with
    | nil => simp [startsUnclosed]
    | cons d pre3 =>
      have h := splitAtTag_isSome_append '\x7d' '\x7d' pre3 post
      simp [startsUnclosed, hasEndTag, h]

theorem hasUnclosedTag_start (pre : List Char) :
    ∀ rest, hasEndTag rest = false →
      hasUnclosedTag (pre ++ '\x7b' :: '\x7b' :: rest) = true := by
  induction pre with
  | nil => intro rest h; simp [hasUnclosedTag_cons, startsUnclosed, h]
  | cons c pre2 ih =>
    intro rest h
    simp only [List.cons_append]
    rw [hasUnclosedTag_cons, ih rest h, Bool.or_true]

theorem parseTemplate_panicked (fuel : Nat) :
    ∀ s : List Char, s.length ≤ fuel → panicked (parseTemplate fuel s) = hasUnclosedTag s := by
  induction fuel with
  | zero =>
    intro s h
    have hs : s = [] := List.length_eq_zero.mp (Nat.le_zero.mp h)
    subst hs
    rfl
  | succ f ih =>
    intro s h
    rw [parseTemplate_succ]
    cases hsp : splitAtTag '\x7b' '\x7b' s with
    | none => simp only [panicked]; exact (hasUnclosedTag_of_no_start s hsp).symm
    | some r =>
      obtain ⟨text, rest⟩ := r
      have hs := splitAtTag_some_eq _ _ s text rest hsp
      simp only []
      cases hsp2 : splitAtTag '\x7d' '\x7d' rest with
      | none =>
        simp only [panicked]
        rw [hs]
        exact (hasUnclosedTag_start text rest (by simp [hasEndTag, hsp2])).symm
      | some q =>
        obtain ⟨tag, post⟩ := q
        have hr := splitAtTag_some_eq _ _ rest tag post hsp2
        have hlen : post.length ≤ f := by
          have h1 : s.length = text.length + 2 + (tag.length + 2 + post.length) := by
            rw [hs, hr]; simp only [List.length_append, List.length_cons]; omega
          omega
        have hih := ih post hlen
        have hu : hasUnclosedTag s = hasUnclosedTag post := by
          rw [hs, hr]
          have : text ++ '\x7b' :: '\x7b' :: (tag ++ '\x7d' :: '\x7d' :: post) =
              (text ++ '\x7b' :: '\x7b' :: tag) ++ '\x7d' :: '\x7d' :: post := by simp
          rw [this, hasUnclosedTag_end]
        rw [hu, ← hih]
        simp only []
        cases parseTemplate f post with
        | error e => rfl
        | ok r => rfl

theorem parseTemplate_tags (fuel : Nat) :
    ∀ (s : List Char) (texts : List (List Char)) (tags : List String),
      parseTemplate fuel s = Except.ok (texts, tags) →
      tags = placeholders fuel s ∧ texts.length = tags.length + 1 := by
  induction fuel with
  | zero =>
    intro s texts tags h
    simp only [parseTemplate, Except.ok.injEq, Prod.mk.injEq] at h
    obtain ⟨h1, h2⟩ := h
    subst h1 h2
    exact ⟨rfl, rfl⟩
  | succ f ih =>
    intro s texts tags h
    rw [parseTemplate_succ] at h
    simp only [placeholders]
    cases hsp : splitAtTag '\x7b' '\x7b' s with
    | none =>
      rw [hsp] at h
      simp only [Except.ok.injEq, Prod.mk.injEq] at h
      obtain ⟨h1, h2⟩ := h
      subst h1 h2
      exact ⟨rfl, rfl⟩
    | some r =>
      obtain ⟨text, rest⟩ := r
      rw [hsp] at h
      simp only [] at h ⊢
      cases hsp2 : splitAtTag '\x7d' '\x7d' rest with
      | none => rw [hsp2] at h; simp at h
      | some q =>
        obtain ⟨tag, post⟩ := q
        rw [hsp2] at h
        simp only [] at h ⊢
        cases hp : parseTemplate f post with
        | error e => rw [hp] at h; simp at h
        | ok r2 =>
          obtain ⟨texts2, tags2⟩ := r2
          rw [hp] at h
          simp only [Except.ok.injEq, Prod.mk.injEq] at h
          obtain ⟨h1, h2⟩ := h
          subst h1 h2
          obtain ⟨e1, e2⟩ := ih post texts2 tags2 hp
          exact ⟨by rw [e1], by simp only [List.length_cons]; omega⟩

theorem stdTagFunc_panicked (m : Params) (tag : String) :
    panicked (stdTagFunc m tag) = !m.entryIsText tag := by
  unfold stdTagFunc Params.entryIsText
  cases hg : m.get tag with
  | none => rfl
  | some v => cases v <;> rfl

theorem executeSegments_panicked (m : Params) (tags : List String) :
    ∀ texts : List (List Char), texts.length = tags.length + 1 →
      (panicked (executeSegments m texts tags) = false ↔
        ∀ tag ∈ tags, m.entryIsText tag = true) := by
  induction tags with
  | nil =>
    intro texts h
    match texts, h with
    | [t], _ => simp [executeSegments, panicked]
  | cons tag tags2 ih =>
    intro texts h
    match texts, h with
    | t :: t2 :: texts2, h =>
      have hlen : (t2 :: texts2).length = tags2.length + 1 := by
        simp only [List.length_cons] at h ⊢; omega
      have hih := ih (t2 :: texts2) hlen
      have hp := stdTagFunc_panicked m tag
      simp only [executeSegments]
      cases hv : stdTagFunc m tag with
      | error e =>
        rw [hv] at hp
        simp only [panicked] at hp ⊢
        constructor
        · intro habs; cases habs
        · intro hall
          have := hall tag (List.mem_cons_self _ _)
          rw [this] at hp; cases hp
      | ok v =>
        rw [hv] at hp
        simp only [panicked] at hp
        have htag : m.entryIsText tag = true := by
          cases hx : m.entryIsText tag with
          | true => rfl
          | false => rw [hx] at hp; cases hp
        simp only []
        cases hr : executeSegments m (t2 :: texts2) tags2 with
        | error e =>
          rw [hr] at hih
          simp only [panicked] at hih ⊢
          constructor
          · intro habs; cases habs
          · intro hall
            exact hih.mpr (fun x hx => hall x (List.mem_cons_of_mem _ hx))
        | ok r =>
          rw [hr] at hih
          simp only [panicked] at hih ⊢
          constructor
          · intro _ x hx
            rcases List.mem_cons.mp hx with hxe | hxm
            · rw [hxe]; exact htag
            · exact hih.mp trivial x hxm
          · intro _; trivial

theorem renderTemplate_returns_iff (values : Params) (template : String) :
    panicked (renderTemplate template values) = false ↔
      hasUnclosedTag template.data = false ∧
        ∀ tag ∈ templatePlaceholders template, values.entryIsText tag = true := by
  have hparse := parseTemplate_panicked template.data.length template.data (le_refl _)
  simp only [renderTemplate, fasttemplateNew, templatePlaceholders]
  cases hp : parseTemplate template.data.length template.data with
  | error e =>
    rw [hp] at hparse
    simp only [panicked] at hparse ⊢
    constructor
    · intro habs; cases habs
    · intro habs; rw [habs.1] at hparse; cases hparse
  | ok r =>
    obtain ⟨texts, tags⟩ := r
    rw [hp] at hparse
    simp only [panicked] at hparse
    obtain ⟨htags, hlen⟩ := parseTemplate_tags _ _ texts tags hp
    have hexec := executeSegments_panicked values tags texts hlen
    simp only [Template.ExecuteString]
    rw [← htags, ← hparse]
    cases he : executeSegments values texts tags with
    | error e =>
      rw [he] at hexec
      simp only [panicked] at hexec ⊢
      constructor
      · intro habs; cases habs
      · intro habs; exact hexec.mpr habs.2
    | ok out =>
      rw [he] at hexec
      simp only [panicked] at hexec ⊢
      exact ⟨fun _ => ⟨trivial, hexec.mp trivial⟩, fun _ => trivial⟩

/-! ## The claims -/

section Claims

variable {W : Type}

/-- C1: in Is-mode, when the registrations `pre` of a chain record no failure and the next
registration fails, the chain evaluates no predicate after the failing one (the world is the
one the failing predicate left, whatever follows it) and hands the error set one record
holding only the message of that first failure; on a field with no earlier entry that
record is the field's entry. -/
theorem is_mode_records_first_failure_only (s : Session) (chain : ValidatorContext W)
    (pre post : List (Step W)) (p : Predicate W) (key : String) (params : Params)
    (tmpl : List String) (w : W)
    (hchain : chain.fragments = pre ++ Step.Add p key params tmpl :: post)
    (hpre : (s.evalSteps Mode.FailFast chain pre w).1.pendingErrorRecord = none)
    (hfail : xor (p (s.evalSteps Mode.FailFast chain pre w).2).1
        (s.evalSteps Mode.FailFast chain pre w).1.negated = false) :
    (s.Is [chain] w).2 = (p (s.evalSteps Mode.FailFast chain pre w).2).2 ∧
    (s.Is [chain] w).1.errorSet = s.errorSet.append
      { name := fieldName s.currentIndex chain.name
        title := fieldTitle (fieldName s.currentIndex chain.name) chain.title
        value := chain.value
        messages := [(s.evalSteps Mode.FailFast chain pre w).1.message s.locale
          (s.evalSteps Mode.FailFast chain pre w).1.negated key params tmpl.head?] } ∧
    (s.IsValid (fieldName s.currentIndex chain.name) = true →
      (s.Is [chain] w).1.errorSet.get (fieldName s.currentIndex chain.name) =
        some { name := fieldName s.currentIndex chain.name
               title := fieldTitle (fieldName s.currentIndex chain.name) chain.title
               value := chain.value
               messages := [(s.evalSteps Mode.FailFast chain pre w).1.message s.locale
                 (s.evalSteps Mode.FailFast chain pre w).1.negated key params tmpl.head?] }) := by
  have hm : (openContext Mode.FailFast s.currentIndex chain).Marked := by
    intro h; exact absurd h (by simp [openContext])
  obtain ⟨h1, h2⟩ := Context.run_failFast_first_failure s.locale
    (openContext Mode.FailFast s.currentIndex chain) pre post p key params tmpl w hm rfl hpre hfail
  have hw : (s.Is [chain] w).2 = (p (s.evalSteps Mode.FailFast chain pre w).2).2 := by
    simp only [Session.Is, Session.validateAll, Session.validate, Session.evalSteps, hchain]
    exact h1
  have he : (s.Is [chain] w).1.errorSet = s.errorSet.append
      { name := fieldName s.currentIndex chain.name
        title := fieldTitle (fieldName s.currentIndex chain.name) chain.title
        value := chain.value
        messages := [(s.evalSteps Mode.FailFast chain pre w).1.message s.locale
          (s.evalSteps Mode.FailFast chain pre w).1.negated key params tmpl.head?] } := by
    simp only [Session.Is, Session.validateAll, Session.validate, Session.evalSteps, hchain,
      ErrorSet.fold]
    rw [h2]
    rfl
  refine ⟨hw, he, ?_⟩
  intro hv
  rw [he, ErrorSet.get_eq]
  simp only [ErrorSet.append]
  apply findEntry_extend_absent
  simpa [Session.IsValid, ErrorSet.get_eq] using hv

/-- C1, at `Is(String("", "email").Not().Blank().MatchingTo(/a/))`: the chain records the
one message "Email can't be blank" and leaves the world untouched. With a counting check
after the failure, the counter stays at 0 under `Is` and reaches 1 under `Check`. -/
theorem is_mode_records_first_failure_only_witness :
    ((New { MarshalJsonFunc := none }).Is [emailChain Nat] 0).2 = 0 ∧
    ((New { MarshalJsonFunc := none }).Is [emailChain Nat] 0).1.Errors =
      [{ name := "email", title := "Email", value := Value.string "",
         messages := ["Email can't be blank"] }] ∧
    ((New { MarshalJsonFunc := none }).Is [countingChain] 0).2 = 0 ∧
    ((New { MarshalJsonFunc := none }).Check [countingChain] 0).2 = 1 := by
  have h := is_mode_records_first_failure_only (New { MarshalJsonFunc := none })
    (emailChain Nat) [Step.Not] [emailMatchingStep Nat]
    (Predicate.ofBool (isStringBlank "")) ErrorKeyBlank [] [] 0 rfl (by decide) (by decide)
  refine ⟨h.1, ?_, by decide, by decide⟩
  rw [Session.Errors, h.2.1]
  decide

/-- C2: in Check-mode every predicate of a chain is evaluated, in registration order (the
world is the one left by all of them, and there is one outcome per predicate); a chain of
which k predicates fail hands the error set one record holding exactly the k messages of
the failures in registration order, which is the entry of the field when the field had
none, and a chain with no failure leaves the error set as it was. -/
theorem check_mode_records_every_failure (s : Session) (chain : ValidatorContext W) (w : W) :
    (s.Check [chain] w).2 = (s.outcomes chain w).2 ∧
    (s.outcomes chain w).1.length = countPredicates chain.fragments ∧
    (failedMessages (s.outcomes chain w).1).length =
      (s.outcomes chain w).1.countP (fun o => !o.1) ∧
    (failedMessages (s.outcomes chain w).1 = [] →
      (s.Check [chain] w).1.errorSet = s.errorSet) ∧
    (failedMessages (s.outcomes chain w).1 ≠ [] →
      (s.Check [chain] w).1.errorSet =
        s.errorSet.append (s.recordOf chain (failedMessages (s.outcomes chain w).1))) ∧
    (failedMessages (s.outcomes chain w).1 ≠ [] →
      s.IsValid (fieldName s.currentIndex chain.name) = true →
      (s.Check [chain] w).1.errorSet.get (fieldName s.currentIndex chain.name) =
        some (s.recordOf chain (failedMessages (s.outcomes chain w).1))) := by
  obtain ⟨h1, h2⟩ := Context.run_accumulateAll s.locale chain.fragments
    (openContext Mode.AccumulateAll s.currentIndex chain) w rfl rfl
  have hneg : (openContext Mode.AccumulateAll s.currentIndex chain).negated = false := rfl
  rw [hneg] at h1 h2
  have hset : (s.Check [chain] w).1.errorSet =
      s.errorSet.fold ((openContext Mode.AccumulateAll s.currentIndex chain).run s.locale
        chain.fragments w).1 := rfl
  have hnonempty : failedMessages (s.outcomes chain w).1 ≠ [] →
      (s.Check [chain] w).1.errorSet =
        s.errorSet.append (s.recordOf chain (failedMessages (s.outcomes chain w).1)) := by
    intro hne
    rw [hset, ErrorSet.fold, h2]
    change (match (openContext Mode.AccumulateAll s.currentIndex chain).recordAll
        (failedMessages (s.outcomes chain w).1) with
      | some r => s.errorSet.append r
      | none => s.errorSet) = _
    cases hm : failedMessages (s.outcomes chain w).1 with
    | nil => exact absurd hm hne
    | cons m ms =>
      rw [Context.recordAll_none _ m ms rfl]
      rfl
  refine ⟨h1, evaluateAll_length _ _ _ _ _, ?_, ?_, hnonempty, ?_⟩
  · simp only [failedMessages, List.length_map, List.countP_eq_length_filter]
  · intro hnil
    rw [hset, ErrorSet.fold, h2]
    change (match (openContext Mode.AccumulateAll s.currentIndex chain).recordAll
        (failedMessages (s.outcomes chain w).1) with
      | some r => s.errorSet.append r
      | none => s.errorSet) = _
    rw [hnil]
    rfl
  · intro hne hv
    rw [hnonempty hne, ErrorSet.get_eq]
    simp only [ErrorSet.append]
    apply findEntry_extend_absent
    simpa [Session.IsValid, ErrorSet.get_eq] using hv

/-- C2, at `Check(String("", "email").Not().Blank().MatchingTo(/a/))`: both predicates are
evaluated and the entry "email" holds the two messages in registration order. -/
theorem check_mode_records_every_failure_witness :
    (failedMessages ((New { MarshalJsonFunc := none }).outcomes (emailChain Nat) 0).1).length = 2 ∧
    ((New { MarshalJsonFunc := none }).Check [emailChain Nat] 0).1.Errors =
      [{ name := "email", title := "Email", value := Value.string "",
         messages := ["Email can't be blank", "Email must match to \"a\""] }] := by
  have h := check_mode_records_every_failure (New { MarshalJsonFunc := none }) (emailChain Nat) 0
  refine ⟨by decide, ?_⟩
  rw [Session.Errors, h.2.2.2.2.1 (by decide)]
  decide

/-- C3: `Not()` is one-shot. Let `negated` be the chain that `Not()` returns on a chain
`base` of a typed validator (`ValidatorString.Not`, `ValidatorBool.Not` or
`ValidatorBoolP.Not`), and let the context not be short-circuited after the registrations
of `base`. The predicate `p` registered right after `Not()` is evaluated and passes
(records nothing) exactly when its boolean test is false; the negation flag is cleared
whatever the outcome; and the predicate `q` registered next, when it is evaluated, passes
exactly when its own test is true. -/
theorem not_is_one_shot (s : Session) (mode : Mode) (base negated : ValidatorContext W)
    (p q : Predicate W) (key1 key2 : String) (params1 params2 : Params)
    (tmpl1 tmpl2 : List String) (w : W)
    (hnot : (∃ validator : ValidatorString W,
          base = validator.context ∧ negated = (validator.Not).context) ∨
        (∃ validator : ValidatorBool W,
          base = validator.context ∧ negated = (validator.Not).context) ∨
        (∃ validator : ValidatorBoolP W,
          base = validator.context ∧ negated = (validator.Not).context))
    (hs : (s.evalSteps mode base base.fragments w).1.shortCircuited = false) :
    (s.evalSteps mode (negated.AddWithParams p key1 params1 tmpl1)
        (negated.AddWithParams p key1 params1 tmpl1).fragments w).2 =
      (p (s.evalSteps mode base base.fragments w).2).2 ∧
    ((s.evalSteps mode (negated.AddWithParams p key1 params1 tmpl1)
        (negated.AddWithParams p key1 params1 tmpl1).fragments w).1.pendingErrorRecord =
      (s.evalSteps mode base base.fragments w).1.pendingErrorRecord ↔
      (p (s.evalSteps mode base base.fragments w).2).1 = false) ∧
    (s.evalSteps mode (negated.AddWithParams p key1 params1 tmpl1)
        (negated.AddWithParams p key1 params1 tmpl1).fragments w).1.negated = false ∧
    ((s.evalSteps mode (negated.AddWithParams p key1 params1 tmpl1)
        (negated.AddWithParams p key1 params1 tmpl1).fragments w).1.shortCircuited = false →
      ((s.evalSteps mode
          ((negated.AddWithParams p key1 params1 tmpl1).AddWithParams q key2 params2 tmpl2)
          ((negated.AddWithParams p key1 params1 tmpl1).AddWithParams q key2 params2
            tmpl2).fragments w).1.pendingErrorRecord =
        (s.evalSteps mode (negated.AddWithParams p key1 params1 tmpl1)
          (negated.AddWithParams p key1 params1 tmpl1).fragments w).1.pendingErrorRecord ↔
        (q (p (s.evalSteps mode base base.fragments w).2).2).1 = true)) := by
  have hneg : negated = base.Not := by
    rcases hnot with ⟨v, hb, hn⟩ | ⟨v, hb, hn⟩ | ⟨v, hb, hn⟩ <;> rw [hn, hb] <;> rfl
  rw [hneg]
  exact Session.evalSteps_not_add s mode base p q key1 key2 params1 params2 tmpl1 tmpl2 w hs

/-- C3, at the two chains of the tests: `Is(Bool(true).Not().EqualTo(false))` is valid with
no error, and in `String("", "email").Not().Blank().MatchingTo(/a/)` checked in accumulate-all
mode the `Blank` test is true, so the negated check fails, while `MatchingTo` runs un-negated
and fails because its own test is false: the chain records both messages. -/
theorem not_is_one_shot_witness :
    ((New { MarshalJsonFunc := none }).Is
        [(((bool true []).Not).EqualTo false []).context] (0 : Nat)).1.Valid = true ∧
    ((New { MarshalJsonFunc := none }).Is
        [(((bool true []).Not).EqualTo false []).context] (0 : Nat)).1.Errors = [] ∧
    isStringBlank "" = true ∧
    ((New { MarshalJsonFunc := none }).evalSteps Mode.AccumulateAll
        (((string "" ["email"]).Not).Blank []).context
        (((string "" ["email"]).Not).Blank []).context.fragments
        (0 : Nat)).1.pendingErrorRecord ≠ none ∧
    isStringMatchingTo "" regexA = false ∧
    ((New { MarshalJsonFunc := none }).evalSteps Mode.AccumulateAll (emailChain Nat)
        (emailChain Nat).fragments 0).1.pendingErrorRecord ≠
      ((New { MarshalJsonFunc := none }).evalSteps Mode.AccumulateAll
        (((string "" ["email"]).Not).Blank []).context
        (((string "" ["email"]).Not).Blank []).context.fragments
        (0 : Nat)).1.pendingErrorRecord ∧
    ((New { MarshalJsonFunc := none }).Check [emailChain Nat] 0).1.Errors =
      [{ name := "email", title := "Email", value := Value.string "",
         messages := ["Email can't be blank", "Email must match to \"a\""] }] := by
  have h := not_is_one_shot (New { MarshalJsonFunc := none }) Mode.AccumulateAll
    (string "" ["email"]).context ((string "" ["email"]).Not).context
    (Predicate.ofBool (isStringBlank "")) (Predicate.ofBool (isStringMatchingTo "" regexA))
    ErrorKeyBlank ErrorKeyMatchingTo [] [("title", Value.string ""), ("regexp", Value.regexp "a")]
    [] [] (0 : Nat) (Or.inl ⟨string "" ["email"], rfl, rfl⟩) rfl
  refine ⟨by decide, by decide, by decide, ?_, by decide, ?_, by decide⟩
  · intro hnone
    have h2 := h.2.1.mp hnone
    exact absurd h2 (by decide)
  · intro heq
    have h3 := (h.2.2.2 (by decide)).mp heq
    exact absurd h3 (by decide)

/-- C4: a session on which no predicate has failed and no message has been injected is
valid and has no error, whatever values were opened, named or titled: a `Validator` that is
valid with no error stays so under every sequence of `Is`, `Named` and `Titled`, and a
generic session built from `New` by chains all of whose outcomes are true, in either mode,
is valid with no error. -/
theorem no_failure_valid_and_no_errors (validator : Validator) (cs : List Validator.Call)
    (s : Session) (hvalid : validator.valid = true) (herrors : validator.errors = [])
    (hclean : s.Clean) :
    ((validator.calls cs).Valid = true ∧ (validator.calls cs).Errors = []) ∧
    (s.Valid = true ∧ s.Errors = []) := by
  constructor
  · obtain ⟨h1, h2⟩ := Validator.calls_frame cs validator
    exact ⟨h1.trans hvalid, h2.trans herrors⟩
  · have key : s.errorSet = ErrorSet.empty := by
      induction hclean with
      | new options => rfl
      | is s chain w _ hall ih =>
        exact (Session.validate_all_pass Mode.FailFast s chain w hall).trans ih
      | check s chain w _ hall ih =>
        exact (Session.validate_all_pass Mode.AccumulateAll s chain w hall).trans ih
    simp only [Session.Valid, Session.Errors, key]
    exact ⟨rfl, rfl⟩

/-- C4, at a validator that opens, names and titles a value, and at the session
`Is(String(" ").Blank())` of `TestNotError`. -/
theorem no_failure_valid_and_no_errors_witness :
    ((Validator.fresh.calls [Validator.Call.Is (Value.int64 10), Validator.Call.Named "age",
        Validator.Call.Titled "Age"]).Valid = true ∧
      (Validator.fresh.calls [Validator.Call.Is (Value.int64 10), Validator.Call.Named "age",
        Validator.Call.Titled "Age"]).Errors = []) ∧
    (((New { MarshalJsonFunc := none }).Is [((string " " []).Blank []).context] (0 : Nat)).1.Valid
        = true ∧
      ((New { MarshalJsonFunc := none }).Is [((string " " []).Blank []).context] (0 : Nat)).1.Errors
        = []) :=
  no_failure_valid_and_no_errors Validator.fresh
    [Validator.Call.Is (Value.int64 10), Validator.Call.Named "age", Validator.Call.Titled "Age"]
    ((New { MarshalJsonFunc := none }).Is [((string " " []).Blank []).context] (0 : Nat)).1
    rfl rfl
    (Session.Clean.is _ _ _ (Session.Clean.new _) (by decide))

/-- C5: on every session a caller can build, `IsValid(name)` is false exactly when the
error set holds an entry under `name` with at least one message. It is true for every name
on a new session, and it keeps its value when a chain all of whose checks pass is evaluated
and when a chain on another field is evaluated, in either mode. -/
theorem isValid_false_iff_has_message (s : Session) (name : String) (hr : s.Reachable) :
    (s.IsValid name = false ↔ ∃ e ∈ s.Errors, e.name = name ∧ e.messages ≠ []) ∧
    (∀ options : Options, (New options).IsValid name = true) ∧
    (∀ {W : Type} (mode : Mode) (chain : ValidatorContext W) (w : W),
      (∀ o ∈ (s.outcomes chain w).1, o.1 = true) →
      (s.validate mode chain w).1.IsValid name = s.IsValid name) ∧
    (∀ {W : Type} (mode : Mode) (chain : ValidatorContext W) (w : W),
      fieldName s.currentIndex chain.name ≠ name →
      (s.validate mode chain w).1.IsValid name = s.IsValid name) := by
  have hok := Session.reachable_entriesOk s hr
  refine ⟨?_, ?_, ?_, ?_⟩
  · constructor
    · intro h
      cases hg : findEntry s.errorSet.entries name with
      | none => simp [Session.IsValid, ErrorSet.get_eq, hg] at h
      | some e =>
        obtain ⟨hm, hn⟩ := findEntry_some_mem _ _ _ hg
        exact ⟨e, hm, hn, hok e hm⟩
    · rintro ⟨e, hm, hn, _⟩
      have := findEntry_none_of_mem s.errorSet.entries name e hm hn
      cases hg : findEntry s.errorSet.entries name with
      | none => exact absurd hg this
      | some e2 => simp [Session.IsValid, ErrorSet.get_eq, hg]
  · intro options; rfl
  · intro W mode chain w hall
    simp only [Session.IsValid, Session.validate_all_pass mode s chain w hall]
  · intro W mode chain w hne
    simp only [Session.IsValid, Session.validate_get_other mode s chain w name hne]

/-- C5, at the session of `TestIsValidByName`: "firstName" passed and is valid, "lastName"
failed and is not, and a name never checked is valid. -/
theorem isValid_false_iff_has_message_witness :
    (((New { MarshalJsonFunc := none }).Is [firstNameChain Nat] 0).1.Is
        [lastNameChain Nat] 0).1.IsValid "firstName" = true ∧
    (((New { MarshalJsonFunc := none }).Is [firstNameChain Nat] 0).1.Is
        [lastNameChain Nat] 0).1.IsValid "lastName" = false ∧
    (((New { MarshalJsonFunc := none }).Is [firstNameChain Nat] 0).1.Is
        [lastNameChain Nat] 0).1.IsValid "email" = true ∧
    (∃ e ∈ (((New { MarshalJsonFunc := none }).Is [firstNameChain Nat] 0).1.Is
        [lastNameChain Nat] 0).1.Errors, e.name = "lastName" ∧ e.messages ≠ []) := by
  have h := isValid_false_iff_has_message
    (((New { MarshalJsonFunc := none }).Is [firstNameChain Nat] 0).1.Is [lastNameChain Nat] 0).1
    "lastName"
    (Session.Reachable.is _ _ _ (Session.Reachable.is _ _ _ (Session.Reachable.new _)))
  exact ⟨by decide, by decide, by decide, h.1.mp (by decide)⟩

/-- C6: on a session with no error yet, injecting `text` for the field `a` with
`AddErrorMessage` and evaluating, in either mode, a chain on another field that fails with
the record `r` compose in either order: the error set has exactly two entries, `a` with
exactly the injected text and the chain's field with exactly the chain's messages, and the
session is invalid. On every session, the injection leaves the entry of every other name as
it was, and so does the chain. -/
theorem injection_and_chain_compose (s : Session) (a text : String) (mode : Mode)
    (chain : ValidatorContext W) (w : W) (r : ErrorRecord)
    (hempty : s.Errors = [])
    (hab : a ≠ fieldName s.currentIndex chain.name)
    (hfail : (s.evalSteps mode chain chain.fragments w).1.pendingErrorRecord = some r) :
    (r.name = fieldName s.currentIndex chain.name ∧ r.messages ≠ []) ∧
    (shownEntries ((s.validate mode chain w).1.AddErrorMessage a text).Errors =
        [(fieldName s.currentIndex chain.name, r.messages), (a, [text])] ∧
      ((s.validate mode chain w).1.AddErrorMessage a text).Valid = false) ∧
    (shownEntries ((s.AddErrorMessage a text).validate mode chain w).1.Errors =
        [(a, [text]), (fieldName s.currentIndex chain.name, r.messages)] ∧
      ((s.AddErrorMessage a text).validate mode chain w).1.Valid = false) ∧
    (∀ (t : Session) (name : String), name ≠ a →
      (t.AddErrorMessage a text).errorSet.get name = t.errorSet.get name) ∧
    (∀ (t : Session) (name : String), fieldName t.currentIndex chain.name ≠ name →
      (t.validate mode chain w).1.errorSet.get name = t.errorSet.get name) := by
  have hr := Session.evalSteps_recordOk mode s chain w r hfail
  have hra : ¬ r.name = a := fun h => hab (h.symm.trans hr.1)
  have hentries : s.errorSet.entries = [] := hempty
  have hfail2 : ((s.AddErrorMessage a text).evalSteps mode chain chain.fragments w
      ).1.pendingErrorRecord = some r := hfail
  refine ⟨hr, ⟨?_, rfl⟩, ⟨?_, ?_⟩, ?_, ?_⟩
  · simp only [Session.Errors, Session.AddErrorMessage, Session.validate, ErrorSet.fold, hfail,
      ErrorSet.append, hentries, extendEntries, if_neg hra, shownEntries, List.map_cons,
      List.map_nil]
    rw [hr.1]
  · have hne : ¬ a = r.name := fun h => hra h.symm
    simp only [Session.Errors, Session.validate, ErrorSet.fold, hfail2, ErrorSet.append]
    simp only [Session.AddErrorMessage, ErrorSet.append, hentries, extendEntries, if_neg hne,
      shownEntries, List.map_cons, List.map_nil]
    rw [hr.1]
  · simp only [Session.Valid, Session.validate, ErrorSet.fold, hfail2, ErrorSet.append]
  · intro t name hne
    simp only [Session.AddErrorMessage, ErrorSet.get_eq, ErrorSet.append]
    exact findEntry_extend_other _ _ _ hne
  · intro t name hne
    exact Session.validate_get_other mode t chain w name hne

/-- C6, at the sessions of `TestAddErrorMessageFromValidator` and
`TestAddErrorMessageFromValgo`: "name" fails `Blank()` and "email" gets an injected
message, in both orders. -/
theorem injection_and_chain_compose_witness :
    shownEntries (((New { MarshalJsonFunc := none }).Is [nameChain Nat] 0).1.AddErrorMessage
        "email" "Email is invalid").Errors =
      [("name", ["Name must be blank"]), ("email", ["Email is invalid"])] ∧
    (((New { MarshalJsonFunc := none }).Is [nameChain Nat] 0).1.AddErrorMessage
        "email" "Email is invalid").Valid = false ∧
    shownEntries (((New { MarshalJsonFunc := none }).AddErrorMessage
        "email" "Email is invalid").Is [nameChain Nat] 0).1.Errors =
      [("email", ["Email is invalid"]), ("name", ["Name must be blank"])] ∧
    (((New { MarshalJsonFunc := none }).AddErrorMessage
        "email" "Email is invalid").Is [nameChain Nat] 0).1.Valid = false := by
  have h := injection_and_chain_compose (New { MarshalJsonFunc := none }) "email"
    "Email is invalid" Mode.FailFast (nameChain Nat) 0
    { name := "name", title := "Name", value := Value.string "Vitalik Buterin",
      messages := ["Name must be blank"] }
    rfl (by decide) (by decide)
  exact ⟨h.2.1.1, h.2.1.2, h.2.2.1.1, h.2.2.1.2⟩

/-- C7: on every session a caller can build, `Error()` returns nil exactly when the session
is valid, which is exactly when no error is recorded, and it returns an error value, which
carries the session's error set, exactly when the session is invalid; a serializer passed
to the call does not change this. -/
theorem error_nil_iff_valid (s : Session) (fs : List Serializer) (hr : s.Reachable) :
    (s.Error fs = none ↔ s.Valid = true) ∧
    (s.Error fs = none ↔ s.Errors = []) ∧
    ((∃ e, s.Error fs = some e ∧ e.errors = s.errorSet) ↔ s.Valid = false) := by
  have hc := Session.reachable_consistent s hr
  have h1 : s.Error fs = none ↔ s.Valid = true := by
    cases hv : s.Valid <;> simp [Session.Error, hv]
  refine ⟨h1, h1.trans hc, ?_⟩
  cases hv : s.Valid
  · simp [Session.Error, hv]
  · simp [Session.Error, hv]

/-- C7, at the sessions of `TestNotError` and `TestError`: `Is(String(" ").Blank())` gives a
nil error and `Is(String("Vitalik Buterin").Blank())` an error value. -/
theorem error_nil_iff_valid_witness :
    ((New { MarshalJsonFunc := none }).Is [blankChain Nat] 0).1.Error [] = none ∧
    ((New { MarshalJsonFunc := none }).Is [vitalikChain Nat] 0).1.Error [] ≠ none := by
  have h1 := error_nil_iff_valid ((New { MarshalJsonFunc := none }).Is [blankChain Nat] 0).1 []
    (Session.Reachable.is _ _ _ (Session.Reachable.new _))
  have h2 := error_nil_iff_valid ((New { MarshalJsonFunc := none }).Is [vitalikChain Nat] 0).1 []
    (Session.Reachable.is _ _ _ (Session.Reachable.new _))
  refine ⟨h1.1.mpr (by decide), ?_⟩
  intro hnone
  exact absurd (h2.1.mp hnone) (by decide)

/-- C9: on an invalid session the serialized form of the error is the output of the custom
serializer when one is supplied: a serializer `f` passed to `Error(...)` is the one used,
whether or not the session has one of its own; with none passed, the serializer `g` of the
session is used; with neither, the default shape is written. The serializer of a session is
the one of the options it was constructed with, and `Is`, `Check` and `AddErrorMessage`
keep it. -/
theorem custom_serializer_precedence (s : Session) (f g : Serializer) (fs : List Serializer)
    (hinvalid : s.Valid = false) :
    (∃ e, s.Error (f :: fs) = some e ∧ e.MarshalJSON = f s.errorSet) ∧
    (s.marshalJsonFunc = some g → ∃ e, s.Error [] = some e ∧ e.MarshalJSON = g s.errorSet) ∧
    (s.marshalJsonFunc = none →
      ∃ e, s.Error [] = some e ∧ e.MarshalJSON = Except.ok (defaultMarshal s.errorSet)) ∧
    (∀ options : Options, (New options).marshalJsonFunc = options.MarshalJsonFunc) ∧
    (∀ {V : Type} (chains : List (ValidatorContext V)) (v : V),
      (s.Is chains v).1.marshalJsonFunc = s.marshalJsonFunc ∧
      (s.Check chains v).1.marshalJsonFunc = s.marshalJsonFunc) ∧
    (∀ name message : String,
      (s.AddErrorMessage name message).marshalJsonFunc = s.marshalJsonFunc) := by
  refine ⟨?_, ?_, ?_, fun _ => rfl, ?_, fun _ _ => rfl⟩
  · refine ⟨{ errors := s.errorSet, marshalJsonFunc := some f }, ?_, rfl⟩
    simp only [Session.Error, hinvalid]
    rfl
  · intro hg
    refine ⟨{ errors := s.errorSet, marshalJsonFunc := some g }, ?_, rfl⟩
    simp only [Session.Error, hinvalid, hg]
    rfl
  · intro hg
    refine ⟨{ errors := s.errorSet, marshalJsonFunc := none }, ?_, rfl⟩
    simp only [Session.Error, hinvalid, hg]
    rfl
  · intro V chains v
    exact ⟨Session.validateAll_marshalJsonFunc Mode.FailFast chains s v,
      Session.validateAll_marshalJsonFunc Mode.AccumulateAll chains s v⟩

/-- C9, at a session constructed with `customFunc` on which "name" fails: `Error()` is
serialized by `customFunc`, and `Error(countFunc)` by `countFunc`. -/
theorem custom_serializer_precedence_witness :
    (∃ e, ((New { MarshalJsonFunc := some customFunc }).Check [emptyNameChain Nat] 0).1.Error
        [countFunc] = some e ∧ e.MarshalJSON = Except.ok "1") ∧
    (∃ e, ((New { MarshalJsonFunc := some customFunc }).Check [emptyNameChain Nat] 0).1.Error
        [] = some e ∧
      e.MarshalJSON = Except.ok "\x7b\"errors\":\x7b\"name\":[\"Name can't be blank\"]\x7d\x7d") := by
  have h := custom_serializer_precedence
    ((New { MarshalJsonFunc := some customFunc }).Check [emptyNameChain Nat] 0).1
    countFunc customFunc [] (by decide)
  obtain ⟨e1, he1, hm1⟩ := h.1
  obtain ⟨e2, he2, hm2⟩ := h.2.1 rfl
  refine ⟨⟨e1, he1, hm1.trans ?_⟩, ⟨e2, he2, hm2.trans ?_⟩⟩
  · exact congrArg Except.ok (by decide)
  · exact congrArg Except.ok (by decide)

/-- C10: name and title of the context a session opens for a typed validator, in either mode
and at every index. With no name the field is `value_N`, N the index of the value in the
session, and the title its humanized form; with a name and no title the title is the
humanized name; with both, they are used verbatim. `String` and `BoolP` hand their optional
strings to the context as they are; the index is 0 on a new session and grows by one with
each chain, while `AddErrorMessage` leaves it. The humanized form has the length of the
name and no separator, and `value_0`, `phone_number` and `email` give "Value 0",
"Phone Number" and "Email". -/
theorem name_and_title_derivation (mode : Mode) (index : Nat) (value : Value)
    (name title : String) (rest : List String) :
    ((openContext mode index (NewContext value [] : ValidatorContext W)).name =
        "value_" ++ toString index ∧
      (openContext mode index (NewContext value [] : ValidatorContext W)).title =
        humanizeName ("value_" ++ toString index)) ∧
    ((openContext mode index (NewContext value [name] : ValidatorContext W)).name = name ∧
      (openContext mode index (NewContext value [name] : ValidatorContext W)).title =
        humanizeName name) ∧
    ((openContext mode index
        (NewContext value (name :: title :: rest) : ValidatorContext W)).name = name ∧
      (openContext mode index
        (NewContext value (name :: title :: rest) : ValidatorContext W)).title = title) ∧
    ((∀ (v : String) (nameAndTitle : List String),
        (string v nameAndTitle : ValidatorString W).context =
          NewContext (Value.string v) nameAndTitle) ∧
      (∀ (p : Option Bool) (nameAndTitle : List String),
        (BoolP p nameAndTitle : ValidatorBoolP W).context =
          NewContext (Value.boolP p) nameAndTitle)) ∧
    ((∀ options : Options, (New options).currentIndex = 0) ∧
      (∀ (s : Session) (chain : ValidatorContext W) (w : W),
        (s.validate mode chain w).1.currentIndex = s.currentIndex + 1) ∧
      (∀ (s : Session) (n m : String), (s.AddErrorMessage n m).currentIndex = s.currentIndex)) ∧
    ((humanizeName name).data.length = name.data.length ∧
      (∀ c ∈ (humanizeName name).data, isSeparator c = false)) ∧
    (humanizeName "value_0" = "Value 0" ∧ humanizeName "phone_number" = "Phone Number" ∧
      humanizeName "email" = "Email") :=
  ⟨⟨rfl, rfl⟩, ⟨rfl, rfl⟩, ⟨rfl, rfl⟩, ⟨fun _ _ => rfl, fun _ _ => rfl⟩,
    ⟨fun _ => rfl, fun _ _ _ => rfl, fun _ _ _ => rfl⟩,
    ⟨humanizeName_length name, humanizeName_no_separator name⟩,
    ⟨by decide, by decide, by decide⟩⟩

/-- C10, at `Is(BoolP(&valFalse).True())` of `TestValidatorBoolPTrueWhenIsInvalid`, and at the
same chain evaluated second on a session: the entries are `value_0` and `value_1`, with the
messages "Value 0 must be true" and "Value 1 must be true". -/
theorem name_and_title_derivation_witness :
    shownEntries ((New { MarshalJsonFunc := none }).Is [boolPTrueChain Nat] 0).1.Errors =
      [("value_0", ["Value 0 must be true"])] ∧
    shownEntries ((New { MarshalJsonFunc := none }).Is
        [blankChain Nat, boolPTrueChain Nat] 0).1.Errors =
      [("value_1", ["Value 1 must be true"])] ∧
    (openContext Mode.FailFast 0 (boolPTrueChain Nat)).title = "Value 0" := by
  have h := @name_and_title_derivation Nat Mode.FailFast 0 (Value.boolP (some false))
    "phone_number" "Phone" []
  refine ⟨by decide, by decide, ?_⟩
  exact h.1.2.trans (by decide)

/-- C8: on every invalid session a caller can build, `Error()` returns an error value whose
default serialization, used when no custom serializer is supplied, is the JSON text of the
mapping from field name to messages. Deserializing that text succeeds and gives a mapping
`m` that is the session's mapping up to the order of its keys (a permutation of the entries,
each key once): the value of a key is the field's messages in recorded order, the keys are
exactly the names that are not valid, and no key has an empty value. -/
theorem default_serialization_shape (s : Session) (hr : s.Reachable)
    (hinvalid : s.Valid = false) :
    ∃ e, s.Error [] = some e ∧
      (s.marshalJsonFunc = none → e.MarshalJSON = Except.ok (defaultMarshal s.errorSet)) ∧
      ∃ m, jsonUnmarshal (defaultMarshal s.errorSet) = some m ∧
        m.Perm (shownEntries s.Errors) ∧
        (m.map (fun kv => kv.1)).Nodup ∧
        (∀ name, lookupMember m name = (s.errorSet.get name).map (fun r => r.messages)) ∧
        (∀ name, (lookupMember m name).isSome = !s.IsValid name) ∧
        (∀ name msgs, lookupMember m name = some msgs → msgs ≠ []) := by
  have hok := Session.reachable_entriesOk s hr
  have hnd := Session.reachable_nodup s hr
  have hkeys : ((shownEntries s.errorSet.entries).map (fun kv => kv.1)).Nodup := by
    rw [shownEntries_keys]; exact hnd
  have hperm := sortMembers_perm (shownEntries s.errorSet.entries)
  have hlook : ∀ name, lookupMember (sortMembers (shownEntries s.errorSet.entries)) name =
      (s.errorSet.get name).map (fun r => r.messages) := by
    intro name
    rw [lookupMember_perm _ _ name hperm hkeys, lookupMember_shownEntries, ErrorSet.get_eq]
  refine ⟨{ errors := s.errorSet, marshalJsonFunc := s.marshalJsonFunc }, ?_, ?_,
    sortMembers (shownEntries s.errorSet.entries), ?_, hperm, ?_, hlook, ?_, ?_⟩
  · simp only [Session.Error, hinvalid]
    rfl
  · intro hnone
    simp only [Error.MarshalJSON, hnone]
  · exact jsonUnmarshal_jsonMarshal _
  · exact (hperm.map _).nodup_iff.mpr hkeys
  · intro name
    rw [hlook]
    simp only [Session.IsValid]
    cases s.errorSet.get name <;> rfl
  · intro name msgs hm
    rw [hlook, ErrorSet.get_eq] at hm
    cases hg : findEntry s.errorSet.entries name with
    | none => rw [hg] at hm; simp at hm
    | some r =>
      rw [hg] at hm
      have : r.messages = msgs := by simpa using hm
      rw [← this]
      exact hok r (findEntry_some_mem _ _ _ hg).1

/-- C8, at the session of `TestErrorMarshallJSONWithCheck`: failures on "email" and "name"
serialize to the object with the two keys, and the text deserializes to that mapping. -/
theorem default_serialization_shape_witness :
    defaultMarshal (((New { MarshalJsonFunc := none }).Check [emailChain Nat] 0).1.Check
        [emptyNameChain Nat] 0).1.errorSet =
      "\x7b\"email\":[\"Email can't be blank\",\"Email must match to \\\"a\\\"\"],\"name\":[\"Name can't be blank\"]\x7d" ∧
    (∃ m, jsonUnmarshal (defaultMarshal (((New { MarshalJsonFunc := none }).Check
          [emailChain Nat] 0).1.Check [emptyNameChain Nat] 0).1.errorSet) = some m ∧
        lookupMember m "name" = some ["Name can't be blank"] ∧
        lookupMember m "email" =
          some ["Email can't be blank", "Email must match to \"a\""] ∧
        lookupMember m "phone" = none) := by
  obtain ⟨e, _, _, m, hm, _, _, hlook, _, _⟩ := default_serialization_shape
    (((New { MarshalJsonFunc := none }).Check [emailChain Nat] 0).1.Check
      [emptyNameChain Nat] 0).1
    (Session.Reachable.check _ _ _ (Session.Reachable.check _ _ _ (Session.Reachable.new _)))
    (by decide)
  refine ⟨by decide, m, hm, ?_, ?_, ?_⟩
  · rw [hlook]; decide
  · rw [hlook]; decide
  · rw [hlook]; decide

/-- C12: for every string `s`, `isStringBlank` is true exactly when every character of `s`
is white space, that is when `s` has length zero or consists only of white space; `Blank`
registers that test under its key; it is true for "" and " " and false for
"Vitalik Buterin". -/
theorem blank_iff_only_white_space (s : String) (nameAndTitle template : List String) :
    (isStringBlank s = true ↔ ∀ c ∈ s.data, isSpace c = true) ∧
    (isStringBlank s = true ↔ (len s = 0 ∨ (s ≠ "" ∧ ∀ c ∈ s.data, isSpace c = true))) ∧
    ((string s nameAndTitle : ValidatorString W).Blank template).context.fragments =
      [Step.Add (Predicate.ofBool (isStringBlank s)) ErrorKeyBlank [] template] ∧
    isStringBlank "" = true ∧ isStringBlank " " = true ∧
    isStringBlank "Vitalik Buterin" = false := by
  refine ⟨isStringBlank_iff s, ?_, rfl, by decide, by decide, by decide⟩
  rw [isStringBlank_iff, len_eq_zero]
  constructor
  · intro h
    by_cases hs : s = ""
    · exact Or.inl hs
    · exact Or.inr ⟨hs, h⟩
  · rintro (h | ⟨_, h⟩)
    · rw [h]; intro c hc; simp at hc
    · exact h

/-- C13: for every string `s`, `isStringEmpty` is true exactly when the length of `s` is
zero, that is when `s` is the empty string; it is false for every string of positive length,
also for " "; `Empty` registers that test under its key; every Empty string is Blank, and
" " is Blank without being Empty. -/
theorem empty_iff_length_zero (s : String) (nameAndTitle template : List String) :
    (isStringEmpty s = true ↔ len s = 0) ∧
    (isStringEmpty s = true ↔ s = "") ∧
    (0 < len s → isStringEmpty s = false) ∧
    ((string s nameAndTitle : ValidatorString W).Empty template).context.fragments =
      [Step.Add (Predicate.ofBool (isStringEmpty s)) ErrorKeyEmpty [] template] ∧
    isStringEmpty " " = false ∧
    (isStringEmpty s = true → isStringBlank s = true) ∧
    (∃ t : String, isStringBlank t = true ∧ isStringEmpty t = false) := by
  refine ⟨by simp [isStringEmpty], isStringEmpty_iff s, ?_, rfl, by decide, ?_,
    ⟨" ", by decide, by decide⟩⟩
  · intro h
    cases he : isStringEmpty s
    · rfl
    · simp [isStringEmpty] at he
      omega
  · intro h
    rw [isStringEmpty_iff] at h
    rw [h]
    decide

/-- C13, at a string of one space, whose length is positive. -/
theorem empty_iff_length_zero_witness :
    0 < len " " ∧ isStringEmpty " " = false :=
  ⟨by decide, (@empty_iff_length_zero Nat " " [] []).2.2.1 (by decide)⟩

/-- C15: for every string `v` and integers `min`, `max`, `n`: `isStringLengthBetween` is true
exactly when `min <= len(v) <= max`, both bounds included, and it is the conjunction of
`isStringMinLength` and `isStringMaxLength`; `isStringLength` is true exactly when
`len(v) = n` and equals `isStringLengthBetween` with both bounds `n`; `isStringMaxLength` is
true for a string of length exactly `n`; the checks register these tests under their
keys. -/
theorem length_checks (v : String) (min max n : Int) (nameAndTitle template : List String) :
    (isStringLengthBetween v min max = true ↔ (min ≤ (len v : Int) ∧ (len v : Int) ≤ max)) ∧
    isStringLengthBetween v min max = (isStringMinLength v min && isStringMaxLength v max) ∧
    (isStringLength v n = true ↔ (len v : Int) = n) ∧
    isStringLength v n = isStringLengthBetween v n n ∧
    ((len v : Int) = n → isStringMaxLength v n = true) ∧
    (((string v nameAndTitle : ValidatorString W).LengthBetween min max template).context.fragments =
        [Step.Add (Predicate.ofBool (isStringLengthBetween v min max)) ErrorKeyLengthBetween
          [("title", Value.string (nameAndTitle.tail.head?.getD "")), ("min", Value.int min),
            ("max", Value.int max)] template] ∧
      ((string v nameAndTitle : ValidatorString W).MaxLength n template).context.fragments =
        [Step.Add (Predicate.ofBool (isStringMaxLength v n)) ErrorKeyMaxLength
          [("title", Value.string (nameAndTitle.tail.head?.getD "")), ("length", Value.int n)]
          template]) := by
  refine ⟨?_, rfl, ?_, ?_, ?_, rfl, rfl⟩
  · simp [isStringLengthBetween]
  · simp [isStringLength]
  · simp only [isStringLength, isStringLengthBetween]
    by_cases h : (len v : Int) = n
    · simp [h]
    · have : ¬ ((len v : Int) ≥ n ∧ (len v : Int) ≤ n) := fun ⟨a, b⟩ => h (le_antisymm b a)
      simp only [h, decide_False]
      by_cases h1 : (len v : Int) ≥ n
      · have h2 : ¬ (len v : Int) ≤ n := fun b => this ⟨h1, b⟩
        simp [h1, h2]
      · simp [h1]
  · intro h
    simp [isStringMaxLength, h]

/-- C15, at the slug "myname" of the source's examples: its length is 6, so `MaxLength(6)`,
`Length(6)` and `LengthBetween(2, 6)` pass and `MaxLength(5)` fails. -/
theorem length_checks_witness :
    isStringMaxLength "myname" 6 = true ∧ isStringLength "myname" 6 = true ∧
    isStringLengthBetween "myname" 2 6 = true ∧ isStringMaxLength "myname" 5 = false := by
  refine ⟨(@length_checks Nat "myname" 2 6 6 [] []).2.2.2.2.1 (by decide), by decide, by decide,
    by decide⟩

/-- C16: for every string `v` and every slice, `isStringInSlice` is true exactly when some
element of the slice equals `v`; it is false for the empty slice; two slices with the same
elements, in whatever order and however often, give the same result; `InSlice` registers
that test under its key. -/
theorem in_slice_iff_member (v : String) (slice : List String)
    (nameAndTitle template : List String) :
    (isStringInSlice v slice = true ↔ ∃ x ∈ slice, x = v) ∧
    isStringInSlice v [] = false ∧
    (∀ other : List String, (∀ x, x ∈ slice ↔ x ∈ other) →
      isStringInSlice v other = isStringInSlice v slice) ∧
    (∀ other : List String, slice.Perm other →
      isStringInSlice v other = isStringInSlice v slice) ∧
    isStringInSlice v (slice ++ slice) = isStringInSlice v slice ∧
    ((string v nameAndTitle : ValidatorString W).InSlice slice template).context.fragments =
      [Step.Add (Predicate.ofBool (isStringInSlice v slice)) ErrorKeyInSlice
        [("value", Value.string v)] template] := by
  have key : ∀ other : List String, (∀ x, x ∈ slice ↔ x ∈ other) →
      isStringInSlice v other = isStringInSlice v slice := by
    intro other h
    have h1 := isStringInSlice_iff v slice
    have h2 := isStringInSlice_iff v other
    cases ha : isStringInSlice v slice <;> cases hb : isStringInSlice v other <;> simp_all
  refine ⟨?_, rfl, key, ?_, ?_, rfl⟩
  · rw [isStringInSlice_iff]
    constructor
    · intro h; exact ⟨v, h, rfl⟩
    · rintro ⟨x, hx, rfl⟩; exact hx
  · intro other hp
    exact key other (fun x => hp.mem_iff)
  · exact key (slice ++ slice) (fun x => by simp)

/-- C14: for all strings `v`, `min`, `max`, `isStringBetween` is true exactly when
`min <= v` and `v <= max` in Go's string order, both bounds included; it is the conjunction
of `isStringGreaterOrEqualTo(v, min)` and `isStringLessOrEqualTo(v, max)`; when
`min <= max` it is true for `v = min` and for `v = max`; when `min > max` it is true for no
`v`; `Between` registers that test under its key. -/
theorem between_iff_bounds (v min max : String) (nameAndTitle template : List String) :
    (isStringBetween v min max = true ↔ (stringLE min v = true ∧ stringLE v max = true)) ∧
    isStringBetween v min max =
      (isStringGreaterOrEqualTo v min && isStringLessOrEqualTo v max) ∧
    (stringLE min max = true →
      isStringBetween min min max = true ∧ isStringBetween max min max = true) ∧
    (stringGT min max = true → isStringBetween v min max = false) ∧
    ((string v nameAndTitle : ValidatorString W).Between min max template).context.fragments =
      [Step.Add (Predicate.ofBool (isStringBetween v min max)) ErrorKeyBetween
        [("title", Value.string (nameAndTitle.tail.head?.getD "")), ("min", Value.string min),
          ("max", Value.string max)] template] := by
  have hiff : isStringBetween v min max = true ↔
      (stringLE min v = true ∧ stringLE v max = true) := by
    simp only [isStringBetween, Bool.and_eq_true, stringGE_iff_stringLE]
  refine ⟨hiff, rfl, ?_, ?_, rfl⟩
  · intro h
    constructor
    · simp only [isStringBetween, Bool.and_eq_true, stringGE_iff_stringLE]
      exact ⟨stringLE_refl min, h⟩
    · simp only [isStringBetween, Bool.and_eq_true, stringGE_iff_stringLE]
      exact ⟨h, stringLE_refl max⟩
  · intro h
    cases hb : isStringBetween v min max
    · rfl
    · exfalso
      obtain ⟨h1, h2⟩ := hiff.mp hb
      have h3 := stringLE_trans min v max h1 h2
      rw [stringGT_iff_not_stringLE, h3] at h
      exact absurd h (by simp)

/-- C14, at the bounds "ba" and "bc": "ba", "bb" and "bc" are between them, "bd" is not, and
nothing is between "bc" and "ba". -/
theorem between_iff_bounds_witness :
    stringLE "ba" "bc" = true ∧
    isStringBetween "ba" "ba" "bc" = true ∧ isStringBetween "bc" "ba" "bc" = true ∧
    isStringBetween "bb" "ba" "bc" = true ∧ isStringBetween "bd" "ba" "bc" = false ∧
    stringGT "bc" "ba" = true ∧ isStringBetween "bb" "bc" "ba" = false := by
  have h := @between_iff_bounds Nat "bb" "ba" "bc" [] []
  have h2 := @between_iff_bounds Nat "bb" "bc" "ba" [] []
  exact ⟨by decide, (h.2.2.1 (by decide)).1, (h.2.2.1 (by decide)).2, by decide, by decide,
    by decide, h2.2.2.2.1 (by decide)⟩

/-- C17: for every boolean pointer `p`, the test of `BoolP(p).Nil()` is true exactly when
`p` is nil. On a new session, `Is(BoolP(p).Nil())` is valid with no error when `p` is nil;
when `p` is not nil it is invalid and its one entry, `value_0`, holds the one message
"Value 0 must be nil". -/
theorem nil_check_iff_nil_pointer (p : Option Bool) (options : Options) (w : W) :
    (boolPNilTest p = true ↔ p = none) ∧
    ((BoolP p [] : ValidatorBoolP W).Nil []).context.fragments =
      [Step.Add (Predicate.ofBool (boolPNilTest p)) ErrorKeyNil [] []] ∧
    (p = none →
      ((New options).Is [((BoolP p [] : ValidatorBoolP W).Nil []).context] w).1.Valid = true ∧
      ((New options).Is [((BoolP p [] : ValidatorBoolP W).Nil []).context] w).1.Errors = []) ∧
    (p ≠ none →
      ((New options).Is [((BoolP p [] : ValidatorBoolP W).Nil []).context] w).1.Valid = false ∧
      shownEntries ((New options).Is [((BoolP p [] : ValidatorBoolP W).Nil []).context] w).1.Errors
        = [("value_0", ["Value 0 must be nil"])]) := by
  have hset := Session.validate_single Mode.FailFast (New options)
    ((BoolP p [] : ValidatorBoolP W).Nil []).context (Predicate.ofBool (boolPNilTest p))
    ErrorKeyNil [] [] w rfl
  have his : ((New options).Is [((BoolP p [] : ValidatorBoolP W).Nil []).context] w).1 =
      ((New options).validate Mode.FailFast ((BoolP p [] : ValidatorBoolP W).Nil []).context w).1 :=
    rfl
  refine ⟨by cases p <;> simp [boolPNilTest], rfl, ?_, ?_⟩
  · intro hp
    subst hp
    simp only [Session.Valid, Session.Errors, his, hset]
    exact ⟨rfl, rfl⟩
  · intro hp
    cases p with
    | none => exact absurd rfl hp
    | some b =>
      have hmsg : (openContext Mode.FailFast (New options).currentIndex
          ((BoolP (some b) [] : ValidatorBoolP W).Nil []).context).message (New options).locale
          false ErrorKeyNil [] ([] : List String).head? = "Value 0 must be nil" := by
        have h := Context.message_title defaultMessages (openContext Mode.FailFast 0
          ((BoolP (some b) [] : ValidatorBoolP W).Nil []).context) false ErrorKeyNil []
          " must be nil" (by decide) (by decide)
        have htitle : (openContext Mode.FailFast 0
            ((BoolP (some b) [] : ValidatorBoolP W).Nil []).context).title = "Value 0" := by
          show humanizeName "value_0" = "Value 0"
          decide
        rw [htitle] at h
        exact h.trans (by decide)
      have hfalse : ¬ (Predicate.ofBool (boolPNilTest (some b)) w).1 = true := by
        simp [Predicate.ofBool, boolPNilTest]
      have hname : fieldName 0 none = "value_0" := by decide
      simp only [Session.Valid, Session.Errors, his, hset, if_neg hfalse, hmsg]
      refine ⟨rfl, ?_⟩
      show [(fieldName 0 none, ["Value 0 must be nil"])] = _
      rw [hname]

/-- C17, at a pointer to `true`, which is not nil. -/
theorem nil_check_iff_nil_pointer_witness :
    ((New { MarshalJsonFunc := none }).Is
        [((BoolP (some true) [] : ValidatorBoolP Nat).Nil []).context] 0).1.Valid = false ∧
    shownEntries ((New { MarshalJsonFunc := none }).Is
        [((BoolP (some true) [] : ValidatorBoolP Nat).Nil []).context] 0).1.Errors =
      [("value_0", ["Value 0 must be nil"])] :=
  (nil_check_iff_nil_pointer (some true) { MarshalJsonFunc := none } (0 : Nat)).2.2.2 (by decide)

/-- C18: for every boolean pointer `p` and boolean `b`, the tests of `True()`, `False()` and
`EqualTo(b)` return without panic, with the value true exactly when `p` is not nil and `*p`
is true, is false, equals `b`; so for a nil pointer the three return false, the pointer
being dereferenced only behind the nil guard, and for a pointer that is not nil exactly one
of `True()` and `False()` is true. The checks register these tests under their keys, and on
a valid session `Is` of the one check leaves the session valid exactly when the test is
true. -/
theorem boolP_checks_guard_nil (p : Option Bool) (b : Bool)
    (nameAndTitle template : List String) (s : Session) (w : W) (hvalid : s.Valid = true) :
    (boolPTrueTest p = Except.ok (decide (p = some true)) ∧
      boolPFalseTest p = Except.ok (decide (p = some false)) ∧
      boolPEqualToTest p b = Except.ok (decide (p = some b))) ∧
    (boolPTrueTest none = Except.ok false ∧ boolPFalseTest none = Except.ok false ∧
      boolPEqualToTest none b = Except.ok false) ∧
    (p ≠ none → (decide (p = some true) = !decide (p = some false))) ∧
    (((BoolP p nameAndTitle : ValidatorBoolP W).True template).context.fragments =
        [Step.Add (Predicate.ofBool (decide (p = some true))) ErrorKeyTrue [] template] ∧
      ((BoolP p nameAndTitle : ValidatorBoolP W).False template).context.fragments =
        [Step.Add (Predicate.ofBool (decide (p = some false))) ErrorKeyFalse [] template] ∧
      ((BoolP p nameAndTitle : ValidatorBoolP W).EqualTo b template).context.fragments =
        [Step.Add (Predicate.ofBool (decide (p = some b))) ErrorKeyEqualTo
          [("value", Value.bool b)] template]) ∧
    (((s.Is [((BoolP p nameAndTitle : ValidatorBoolP W).True template).context] w).1.Valid = true
        ↔ p = some true) ∧
      ((s.Is [((BoolP p nameAndTitle : ValidatorBoolP W).False template).context] w).1.Valid = true
        ↔ p = some false) ∧
      ((s.Is [((BoolP p nameAndTitle : ValidatorBoolP W).EqualTo b template).context] w).1.Valid
        = true ↔ p = some b)) := by
  have hT : ((BoolP p nameAndTitle : ValidatorBoolP W).True template).context.fragments =
      [Step.Add (Predicate.ofBool (decide (p = some true))) ErrorKeyTrue [] template] := by
    cases p with
    | none => rfl
    | some c => cases c <;> rfl
  have hF : ((BoolP p nameAndTitle : ValidatorBoolP W).False template).context.fragments =
      [Step.Add (Predicate.ofBool (decide (p = some false))) ErrorKeyFalse [] template] := by
    cases p with
    | none => rfl
    | some c => cases c <;> rfl
  have hE : ((BoolP p nameAndTitle : ValidatorBoolP W).EqualTo b template).context.fragments =
      [Step.Add (Predicate.ofBool (decide (p = some b))) ErrorKeyEqualTo
        [("value", Value.bool b)] template] := by
    cases p with
    | none => rfl
    | some c => cases c <;> cases b <;> rfl
  have hsession : ∀ (chain : ValidatorContext W) (t : Bool) (key : String) (params : Params),
      chain.fragments = [Step.Add (Predicate.ofBool t) key params template] →
      ((s.Is [chain] w).1.Valid = true ↔ t = true) := by
    intro chain t key params hc
    have hset := Session.validate_single Mode.FailFast s chain (Predicate.ofBool t) key params
      template w hc
    have his : (s.Is [chain] w).1 = (s.validate Mode.FailFast chain w).1 := rfl
    simp only [Session.Valid, his, hset]
    cases t
    · simp [Predicate.ofBool, ErrorSet.append]
    · simpa [Predicate.ofBool] using hvalid
  refine ⟨⟨?_, ?_, ?_⟩, ⟨rfl, rfl, rfl⟩, ?_, ⟨hT, hF, hE⟩, ⟨?_, ?_, ?_⟩⟩
  · cases p with
    | none => rfl
    | some c => cases c <;> rfl
  · cases p with
    | none => rfl
    | some c => cases c <;> rfl
  · cases p with
    | none => rfl
    | some c => cases c <;> cases b <;> rfl
  · intro hp
    cases p with
    | none => exact absurd rfl hp
    | some c => cases c <;> rfl
  · rw [hsession _ _ _ _ hT]; simp
  · rw [hsession _ _ _ _ hF]; simp
  · rw [hsession _ _ _ _ hE]; simp

/-- C18, at the pointers of the tests on a new session: a pointer to `false` fails `True()`
and passes `False()`, a pointer to `true` passes `EqualTo(true)`, and a nil pointer fails
`True()`. -/
theorem boolP_checks_guard_nil_witness :
    ((New { MarshalJsonFunc := none }).Is
        [((BoolP (some false) [] : ValidatorBoolP Nat).True []).context] 0).1.Valid = false ∧
    ((New { MarshalJsonFunc := none }).Is
        [((BoolP (some false) [] : ValidatorBoolP Nat).False []).context] 0).1.Valid = true ∧
    ((New { MarshalJsonFunc := none }).Is
        [((BoolP (some true) [] : ValidatorBoolP Nat).EqualTo true []).context] 0).1.Valid = true ∧
    ((New { MarshalJsonFunc := none }).Is
        [((BoolP none [] : ValidatorBoolP Nat).True []).context] 0).1.Valid = false ∧
    boolPTrueTest none = Except.ok false := by
  have h1 := boolP_checks_guard_nil (some false) true [] [] (New { MarshalJsonFunc := none })
    (0 : Nat) rfl
  have h2 := boolP_checks_guard_nil (some true) true [] [] (New { MarshalJsonFunc := none })
    (0 : Nat) rfl
  refine ⟨by decide, h1.2.2.2.2.2.1.mpr rfl, h2.2.2.2.2.2.2.mpr rfl, by decide, h1.2.1.1⟩

/-- C19: the message of a failed check is the template of its error key, or of the negated
key when the check failed under `Not()`, rendered with the title of the field. On a session
whose locale has the two templates of the `Blank` check, for every string field, whatever
its title `T` (supplied, or derived from the name), a failing `Blank()` records exactly
"T must be blank" and a failing `Not().Blank()` records exactly "T can't be blank", in
either mode; the default locale of a new session has these two templates. -/
theorem failed_blank_messages (s : Session) (v : String) (nameAndTitle : List String)
    (mode : Mode) (w : W)
    (hblank : s.locale.template ErrorKeyBlank = "\x7b\x7btitle\x7d\x7d must be blank")
    (hnot : s.locale.template (negatedKey ErrorKeyBlank) =
      "\x7b\x7btitle\x7d\x7d can't be blank") :
    (∀ (ctx : Context) (negated : Bool) (key : String) (params : Params),
      ctx.message s.locale negated key params none =
        render (s.locale.template (if negated then negatedKey key else key))
          (("title", Value.string ctx.title) :: (params ++ [("value", ctx.value)]))) ∧
    (isStringBlank v = false →
      (s.validate mode ((string v nameAndTitle : ValidatorString W).Blank []).context w
        ).1.errorSet =
        s.errorSet.append
          { name := fieldName s.currentIndex nameAndTitle.head?
            title := fieldTitle (fieldName s.currentIndex nameAndTitle.head?)
              nameAndTitle.tail.head?
            value := Value.string v
            messages := [fieldTitle (fieldName s.currentIndex nameAndTitle.head?)
              nameAndTitle.tail.head? ++ " must be blank"] }) ∧
    (isStringBlank v = true →
      (s.validate mode (((string v nameAndTitle : ValidatorString W).Not).Blank []).context w
        ).1.errorSet =
        s.errorSet.append
          { name := fieldName s.currentIndex nameAndTitle.head?
            title := fieldTitle (fieldName s.currentIndex nameAndTitle.head?)
              nameAndTitle.tail.head?
            value := Value.string v
            messages := [fieldTitle (fieldName s.currentIndex nameAndTitle.head?)
              nameAndTitle.tail.head? ++ " can't be blank"] }) ∧
    (∀ options : Options,
      (New options).locale.template ErrorKeyBlank = "\x7b\x7btitle\x7d\x7d must be blank" ∧
      (New options).locale.template (negatedKey ErrorKeyBlank) =
        "\x7b\x7btitle\x7d\x7d can't be blank") := by
  have hd1 : defaultMessages.template ErrorKeyBlank = "\x7b\x7btitle\x7d\x7d must be blank" := by
    decide
  have hd2 : defaultMessages.template (negatedKey ErrorKeyBlank) =
      "\x7b\x7btitle\x7d\x7d can't be blank" := by decide
  refine ⟨fun _ _ _ _ => rfl, ?_, ?_, fun _ => ⟨hd1, hd2⟩⟩
  · intro hv
    have hset := Session.validate_single mode s
      ((string v nameAndTitle : ValidatorString W).Blank []).context
      (Predicate.ofBool (isStringBlank v)) ErrorKeyBlank [] [] w rfl
    have hmsg := Context.message_title s.locale (openContext mode s.currentIndex
      ((string v nameAndTitle : ValidatorString W).Blank []).context) false ErrorKeyBlank []
      " must be blank" (hblank.trans (by decide)) (by decide)
    have hfalse : ¬ (Predicate.ofBool (isStringBlank v) w).1 = true := by
      simp [Predicate.ofBool, hv]
    rw [hset, if_neg hfalse]
    have hhead : ([] : List String).head? = none := rfl
    rw [hhead, hmsg]
    rfl
  · intro hv
    have hset := Session.validate_not_single mode s
      (((string v nameAndTitle : ValidatorString W).Not).Blank []).context
      (Predicate.ofBool (isStringBlank v)) ErrorKeyBlank [] [] w rfl
    have hmsg := Context.message_title s.locale (openContext mode s.currentIndex
      (((string v nameAndTitle : ValidatorString W).Not).Blank []).context) true ErrorKeyBlank []
      " can't be blank" (hnot.trans (by decide)) (by decide)
    have hfalse : ¬ (Predicate.ofBool (isStringBlank v) w).1 = false := by
      simp [Predicate.ofBool, hv]
    rw [hset, if_neg hfalse]
    have hhead : ([] : List String).head? = none := rfl
    rw [hhead, hmsg]
    rfl

/-- C19, at the fields of `error_test.go` on a new session: "Vitalik Buterin" named "name"
fails `Blank()` with "Name must be blank", and "" named "email" fails `Not().Blank()` with
"Email can't be blank"; with the title "E-mail" supplied the message is
"E-mail can't be blank". -/
theorem failed_blank_messages_witness :
    shownEntries ((New { MarshalJsonFunc := none }).Is
        [((string "Vitalik Buterin" ["name"] : ValidatorString Nat).Blank []).context] 0).1.Errors =
      [("name", ["Name must be blank"])] ∧
    shownEntries ((New { MarshalJsonFunc := none }).Is
        [(((string "" ["email"] : ValidatorString Nat).Not).Blank []).context] 0).1.Errors =
      [("email", ["Email can't be blank"])] ∧
    shownEntries ((New { MarshalJsonFunc := none }).Is
        [(((string "" ["email", "E-mail"] : ValidatorString Nat).Not).Blank []).context] 0
        ).1.Errors =
      [("email", ["E-mail can't be blank"])] := by
  have h1 := (failed_blank_messages (New { MarshalJsonFunc := none }) "Vitalik Buterin" ["name"]
    Mode.FailFast (0 : Nat) (by decide) (by decide)).2.1 (by decide)
  have h2 := (failed_blank_messages (New { MarshalJsonFunc := none }) "" ["email"]
    Mode.FailFast (0 : Nat) (by decide) (by decide)).2.2.1 (by decide)
  have h3 := (failed_blank_messages (New { MarshalJsonFunc := none }) "" ["email", "E-mail"]
    Mode.FailFast (0 : Nat) (by decide) (by decide)).2.2.1 (by decide)
  refine ⟨?_, ?_, ?_⟩
  · show shownEntries ((New { MarshalJsonFunc := none }).validate Mode.FailFast _ 0).1.errorSet.entries
      = _
    rw [h1]; decide
  · show shownEntries ((New { MarshalJsonFunc := none }).validate Mode.FailFast _ 0).1.errorSet.entries
      = _
    rw [h2]; decide
  · show shownEntries ((New { MarshalJsonFunc := none }).validate Mode.FailFast _ 0).1.errorSet.entries
      = _
    rw [h3]; decide

/-- C11: on a `Validator` whose index is -1 before any value is opened, the value opened by
`Is` after `n` earlier values, whatever names and titles those were given, gets the name
`value<n>` with no separator, a title equal to that name and the index `n` (for `n` in the
range of a Go `int`). When that validator has no error yet, a check that fails on the first
value, rendering the message `m`, leaves the validator invalid with exactly one error, the
record of `value0` with the one message `m`. -/
theorem nth_value_named_valueN (validator : Validator) (cs : List Validator.Call)
    (value : Value) (key : String) (values : Params) (m : String)
    (hstart : validator.currentIndex = -1)
    (hbound : (cs.countP Validator.Call.opens : Int) < 2 ^ 63) :
    (((validator.calls cs).Is value).currentName =
        "value" ++ toString (cs.countP Validator.Call.opens) ∧
      ((validator.calls cs).Is value).currentTitle =
        "value" ++ toString (cs.countP Validator.Call.opens) ∧
      ((validator.calls cs).Is value).currentIndex = (cs.countP Validator.Call.opens : Int)) ∧
    (validator.currentError = none → validator.errors = [] →
      (validator.Is value).message key values = Except.ok m →
      ∃ failed, (validator.Is value).invalidate key values = Except.ok failed ∧
        failed.Errors =
          [{ Name := "value0", Title := "value0", Value := value, Messages := [m] }] ∧
        failed.Valid = false) := by
  have e63 : (2 : Int) ^ 63 = 9223372036854775808 := by norm_num
  have hidx := Validator.calls_currentIndex cs validator (by rw [hstart])
    (by rw [hstart, e63]; rw [e63] at hbound; omega)
  have hwrap : wrapInt ((validator.calls cs).currentIndex + 1) =
      ((cs.countP Validator.Call.opens : Nat) : Int) := by
    rw [hidx, hstart]
    rw [wrapInt_of_range _ (by rw [e63]; omega) (by rw [e63]; rw [e63] at hbound; omega)]
    omega
  have hname : "value" ++ toString (wrapInt ((validator.calls cs).currentIndex + 1)) =
      "value" ++ toString (cs.countP Validator.Call.opens) := by
    rw [hwrap]
    rfl
  refine ⟨⟨hname, hname, hwrap⟩, ?_⟩
  intro herr herrors hmsg
  have hfirst : wrapInt (validator.currentIndex + 1) = 0 := by
    rw [hstart]; decide
  have hcur : (validator.Is value).currentError = none := herr
  have hname0 : (validator.Is value).currentName = "value0" := by
    show "value" ++ toString (wrapInt (validator.currentIndex + 1)) = "value0"
    rw [hfirst]; rfl
  have htitle0 : (validator.Is value).currentTitle = "value0" := hname0
  refine ⟨{ (validator.Is value) with
      currentError := some { Name := (validator.Is value).currentName
                             Title := (validator.Is value).currentTitle
                             Value := (validator.Is value).currentValue
                             Messages := [m] }
      currentValid := false
      valid := false
      errors := (validator.Is value).errors ++
        [{ Name := (validator.Is value).currentName
           Title := (validator.Is value).currentTitle
           Value := (validator.Is value).currentValue
           Messages := [m] }] }, ?_, ?_, rfl⟩
  · simp only [Validator.invalidate, hmsg, hcur]
  · have herrs : (validator.Is value).errors = [] := herrors
    simp only [Validator.Errors, herrs, hname0, htitle0, List.nil_append]
    rfl

/-- C11, at a validator with the template of the number type check: the third value opened
is `value2`, and a failing check on the first value "1" records the one message
"\"value0\" must be a number type". -/
theorem nth_value_named_valueN_witness :
    ((Validator.withNumberType.calls [Validator.Call.Is (Value.string "a"),
        Validator.Call.Named "first", Validator.Call.Is (Value.string "b")]).Is
        (Value.string "c")).currentName = "value2" ∧
    (∃ failed, (Validator.withNumberType.Is (Value.string "1")).invalidate "a_number_type"
        [("Title", Value.string "value0")] = Except.ok failed ∧
      failed.Errors =
        [{ Name := "value0", Title := "value0", Value := Value.string "1"
           Messages := ["\"value0\" must be a number type"] }] ∧
      failed.Valid = false) := by
  have h1 := nth_value_named_valueN Validator.withNumberType
    [Validator.Call.Is (Value.string "a"), Validator.Call.Named "first",
      Validator.Call.Is (Value.string "b")] (Value.string "c") "a_number_type"
    [("Title", Value.string "value0")] "" rfl (by decide)
  have h2 := nth_value_named_valueN Validator.withNumberType [] (Value.string "1")
    "a_number_type" [("Title", Value.string "value0")] "\"value0\" must be a number type"
    rfl (by decide)
  exact ⟨h1.1.1.trans (by decide), h2.2 rfl rfl (ok_of_returned _ _ (by decide))⟩

/-- C20, counterexample: rendering a failure message can abort the validation. With a
template whose start tag is never closed, `invalidate` panics when it parses the template;
with a placeholder whose entry is the integer 6, it panics when it executes the template. -/
theorem rendering_can_abort :
    panicked (Validator.withUnclosedTemplate.invalidate "blank"
      [("Title", Value.string "Email")]) = true ∧
    panicked (Validator.withLengthTemplate.invalidate "length"
      [("Title", Value.string "Name"), ("Length", Value.int 6)]) = true := by
  decide

/-- C20, amended: rendering the failure message of a key returns, and `invalidate` with it,
exactly when every start tag of the template of the key has an end tag after it and every
placeholder of the template has in the parameter map no entry, nil, a string or a byte
slice; in every other case the rendering panics, and `invalidate` with it. An entry that no
placeholder names does not matter, and the entries are values of the embedding, none of
them a function of the template library. When the rendering returns: a template with no start tag
is rendered unchanged; a placeholder after a text `pre` is replaced by its entry and what
follows is rendered in turn, `pre` staying as it is; a placeholder with no entry or a nil
entry is rendered as empty text and one with a string or a byte slice as that text; and
when the key has no template the message is empty, whatever the parameters. -/
theorem rendering_returns_iff_closed_and_text (validator : Validator) (key : String)
    (values : Params) :
    (panicked (validator.invalidate key values) = false ↔
      hasUnclosedTag (validator._locale.template key).data = false ∧
        ∀ tag ∈ templatePlaceholders (validator._locale.template key),
          values.entryIsText tag = true) ∧
    (panicked (validator.invalidate key values) = true ↔
      hasUnclosedTag (validator._locale.template key).data = true ∨
        ∃ tag ∈ templatePlaceholders (validator._locale.template key),
          values.entryIsText tag = false) ∧
    panicked (validator.message key values) = panicked (validator.invalidate key values) ∧
    (hasUnclosedTag (validator._locale.template key).data = false →
      (∀ tag ∈ templatePlaceholders (validator._locale.template key),
        values.entryIsText tag = true) →
      ∃ m failed, validator.message key values = Except.ok m ∧
        validator.invalidate key values = Except.ok failed) ∧
    (∀ text : String, splitAtTag '\x7b' '\x7b' text.data = none →
      renderTemplate text values = Except.ok text) ∧
    (∀ (pre tag post : List Char) (v rest : String),
      splitAtTag '\x7b' '\x7b' (pre ++ ['\x7b']) = none →
      splitAtTag '\x7d' '\x7d' (tag ++ ['\x7d']) = none →
      stdTagFunc values (String.mk tag) = Except.ok v →
      renderTemplate (String.mk post) values = Except.ok rest →
      renderTemplate (String.mk (pre ++ '\x7b' :: '\x7b' :: (tag ++ '\x7d' :: '\x7d' :: post)))
        values = Except.ok (String.mk pre ++ v ++ rest)) ∧
    (∀ tag : String, values.get tag = none → stdTagFunc values tag = Except.ok "") ∧
    (∀ tag : String, values.get tag = some Value.nil → stdTagFunc values tag = Except.ok "") ∧
    (∀ tag s : String, values.get tag = some (Value.string s) →
      stdTagFunc values tag = Except.ok s) ∧
    (∀ tag s : String, values.get tag = some (Value.bytes s) →
      stdTagFunc values tag = Except.ok s) ∧
    (∀ (k : String) (ps : Params), validator._locale.template k = "" →
      validator.message k ps = Except.ok "") := by
  have hiff := renderTemplate_returns_iff values (validator._locale.template key)
  have hmsg : panicked (validator.message key values) =
      panicked (validator.invalidate key values) := by
    unfold Validator.invalidate
    cases hm : validator.message key values with
    | error e => rfl
    | ok m =>
      cases validator.currentError with
      | none => rfl
      | some e => rfl
  have hiff2 : panicked (validator.invalidate key values) = false ↔
      hasUnclosedTag (validator._locale.template key).data = false ∧
        ∀ tag ∈ templatePlaceholders (validator._locale.template key),
          values.entryIsText tag = true := by
    rw [← hmsg]; exact hiff
  refine ⟨hiff2, ?_, hmsg, ?_, fun text h => renderTemplate_text values text h,
    fun pre tag post v rest h1 h2 h3 h4 =>
      renderTemplate_placeholder values pre tag post v rest h1 h2 h3 h4, ?_, ?_, ?_, ?_, ?_⟩
  · constructor
    · intro hp
      by_cases hu : hasUnclosedTag (validator._locale.template key).data = true
      · exact Or.inl hu
      · right
        by_contra hne
        have hall : ∀ tag ∈ templatePlaceholders (validator._locale.template key),
            values.entryIsText tag = true := by
          intro tag htag
          cases hx : values.entryIsText tag with
          | true => rfl
          | false => exact absurd ⟨tag, htag, hx⟩ hne
        have := hiff2.mpr ⟨by simpa using hu, hall⟩
        rw [this] at hp; cases hp
    · intro hor
      cases hp : panicked (validator.invalidate key values) with
      | true => rfl
      | false =>
        obtain ⟨hu, hall⟩ := hiff2.mp hp
        rcases hor with h1 | ⟨tag, htag, hx⟩
        · rw [hu] at h1; cases h1
        · rw [hall tag htag] at hx; cases hx
  · intro hu hall
    have hp := hiff2.mpr ⟨hu, hall⟩
    obtain ⟨failed, hfailed⟩ := returned_of_not_panicked _ hp
    obtain ⟨m, hm⟩ := returned_of_not_panicked _ (hmsg.trans hp)
    exact ⟨m, failed, hm, hfailed⟩
  · intro tag h
    simp only [stdTagFunc, h]
  · intro tag h
    simp only [stdTagFunc, h]
  · intro tag s h
    simp only [stdTagFunc, h]
  · intro tag s h
    simp only [stdTagFunc, h]
  · intro k ps hk
    simp only [Validator.message, hk]
    exact renderTemplate_text ps "" (by decide)

/-- C20, amended, at three maps. With the template "{{Title}} can not be blank" and the
entries `Title` = "Name" and `Length` = 6, an integer that no placeholder names, the message
is "Name can not be blank". With the template "{{Title}} must have {{Length}} characters"
and the strings "Name" and "6" the message is "Name must have 6 characters", and without
entry for `Length` it is "Name must have  characters". -/
theorem rendering_returns_iff_closed_and_text_witness :
    hasUnclosedTag "\x7b\x7bTitle\x7d\x7d can not be blank".data = false ∧
    templatePlaceholders "\x7b\x7bTitle\x7d\x7d can not be blank" = ["Title"] ∧
    (∃ m failed, Validator.withTwoTemplates.message "blank"
        [("Title", Value.string "Name"), ("Length", Value.int 6)] = Except.ok m ∧
      Validator.withTwoTemplates.invalidate "blank"
        [("Title", Value.string "Name"), ("Length", Value.int 6)] = Except.ok failed) ∧
    Validator.withTwoTemplates.message "blank"
        [("Title", Value.string "Name"), ("Length", Value.int 6)] =
      Except.ok "Name can not be blank" ∧
    Validator.withLengthTemplate.message "length"
        [("Title", Value.string "Name"), ("Length", Value.string "6")] =
      Except.ok "Name must have 6 characters" ∧
    Validator.withLengthTemplate.message "length" [("Title", Value.string "Name")] =
      Except.ok "Name must have  characters" ∧
    panicked (Validator.withLengthTemplate.invalidate "length"
      [("Title", Value.string "Name")]) = false := by
  have h := rendering_returns_iff_closed_and_text Validator.withTwoTemplates "blank"
    [("Title", Value.string "Name"), ("Length", Value.int 6)]
  have h2 := rendering_returns_iff_closed_and_text Validator.withLengthTemplate "length"
    [("Title", Value.string "Name")]
  exact ⟨by decide, by decide, h.2.2.2.1 (by decide) (by decide),
    ok_of_returned _ _ (by decide), ok_of_returned _ _ (by decide),
    ok_of_returned _ _ (by decide), h2.1.mpr ⟨by decide, by decide⟩⟩

/-- C25: the string comparison checks are mutually consistent. For all strings `a` and `b`
exactly one of `isStringLessThan`, `isStringEqualTo` and `isStringGreaterThan` holds;
`isStringGreaterOrEqualTo` holds exactly when `isStringLessThan` does not;
`isStringLessOrEqualTo` holds exactly when `isStringGreaterThan` does not; and
`isStringGreaterThan a b` holds exactly when `isStringLessThan b a` does. -/
theorem string_comparisons_consistent (a b : String) :
    ((isStringLessThan a b = true ∧ isStringEqualTo a b = false ∧
        isStringGreaterThan a b = false) ∨
      (isStringLessThan a b = false ∧ isStringEqualTo a b = true ∧
        isStringGreaterThan a b = false) ∨
      (isStringLessThan a b = false ∧ isStringEqualTo a b = false ∧
        isStringGreaterThan a b = true)) ∧
    (isStringGreaterOrEqualTo a b = true ↔ isStringLessThan a b = false) ∧
    (isStringLessOrEqualTo a b = true ↔ isStringGreaterThan a b = false) ∧
    (isStringGreaterThan a b = true ↔ isStringLessThan b a = true) := by
  have heq := isStringEqualTo_iff a b
  have hswap := stringGT_iff_stringLT a b
  have heq2 : isStringEqualTo a b = false ↔ compareString a.data b.data ≠ Ordering.eq := by
    rw [Ne, ← heq]; simp
  refine ⟨?_, ?_, ?_, ?_⟩
  · rw [heq, heq2]
    simp only [isStringLessThan, isStringGreaterThan, stringLT, stringGT]
    cases compareString a.data b.data <;> simp
  · simp only [isStringGreaterOrEqualTo, isStringLessThan, stringGE, stringLT]
    cases compareString a.data b.data <;> simp
  · simp only [isStringLessOrEqualTo, isStringGreaterThan, stringLE, stringGT]
    cases compareString a.data b.data <;> simp
  · simp only [isStringGreaterThan, isStringLessThan]
    rw [hswap]

/-- C26: the length that `isStringMaxLength`, `isStringMinLength`, `isStringLength`,
`isStringLengthBetween` and `isStringEmpty` measure is the number of bytes of the UTF-8
encoding of the string. It is never below the number of characters, and strictly above it
for every string holding a character outside ASCII: the one-character string "é" fails
a length of 1 and a maximum length of 1, and passes a length of 2. -/
theorem length_is_utf8_byte_count (v : String) :
    len v = v.toUTF8.size ∧
    len v = (v.data.map Char.utf8Size).sum ∧
    (∀ length, isStringMaxLength v length = true ↔ (v.toUTF8.size : Int) ≤ length) ∧
    (∀ length, isStringMinLength v length = true ↔ (v.toUTF8.size : Int) ≥ length) ∧
    (∀ length, isStringLength v length = true ↔ (v.toUTF8.size : Int) = length) ∧
    (∀ min max, isStringLengthBetween v min max = true ↔
      min ≤ (v.toUTF8.size : Int) ∧ (v.toUTF8.size : Int) ≤ max) ∧
    (isStringEmpty v = true ↔ v.toUTF8.size = 0) ∧
    v.length ≤ len v ∧
    ((∃ c ∈ v.data, 128 ≤ c.toNat) → v.length < len v) ∧
    ("é".length = 1 ∧ isStringLength "é" 1 = false ∧ isStringMaxLength "é" 1 = false ∧
      isStringLength "é" 2 = true) := by
  have hsize : v.toUTF8.size = len v := String.size_toUTF8 v
  refine ⟨hsize.symm, ?_, ?_, ?_, ?_, ?_, ?_, ?_, ?_, ?_⟩
  · exact utf8ByteSize_go_eq_sum v.data
  · intro length; rw [hsize]; simp [isStringMaxLength]
  · intro length; rw [hsize]; simp [isStringMinLength]
  · intro length; rw [hsize]; simp [isStringLength]
  · intro min max; rw [hsize]; simp [isStringLengthBetween]
  · rw [hsize]; simp [isStringEmpty]
  · exact length_le_utf8ByteSize_go v.data
  · intro h; exact length_lt_utf8ByteSize_go v.data h
  · decide

/-- C26, at the strings "né" and "é": "né" holds the character é outside ASCII, so its
two characters measure three bytes; "é" measures two. -/
theorem length_is_utf8_byte_count_witness :
    (∃ c ∈ "né".data, 128 ≤ c.toNat) ∧ "né".length = 2 ∧ len "né" = 3 ∧
    "né".length < len "né" ∧ isStringLength "é" 2 = true := by
  have h := length_is_utf8_byte_count "né"
  have hc : ∃ c ∈ "né".data, 128 ≤ c.toNat := ⟨Char.ofNat 233, by decide, by decide⟩
  exact ⟨hc, by decide, by decide, h.2.2.2.2.2.2.2.2.1 hc, h.2.2.2.2.2.2.2.2.2.2.2.2⟩

/-- C27: `Named` and `Titled` are setters that preserve the frame. `Named` changes only the
current name and `Titled` only the current title; each leaves the current value, index,
validity and error, the locale, the validity of the session and the recorded errors
unchanged, and the two calls commute. -/
theorem named_titled_frame (validator : Validator) (name title : String) :
    ((validator.Named name).currentName = name ∧
      (validator.Named name).currentTitle = validator.currentTitle ∧
      (validator.Named name).currentValue = validator.currentValue ∧
      (validator.Named name).currentIndex = validator.currentIndex ∧
      (validator.Named name).currentValid = validator.currentValid ∧
      (validator.Named name).currentError = validator.currentError ∧
      (validator.Named name)._locale = validator._locale ∧
      (validator.Named name).Valid = validator.Valid ∧
      (validator.Named name).Errors = validator.Errors) ∧
    ((validator.Titled title).currentTitle = title ∧
      (validator.Titled title).currentName = validator.currentName ∧
      (validator.Titled title).currentValue = validator.currentValue ∧
      (validator.Titled title).currentIndex = validator.currentIndex ∧
      (validator.Titled title).currentValid = validator.currentValid ∧
      (validator.Titled title).currentError = validator.currentError ∧
      (validator.Titled title)._locale = validator._locale ∧
      (validator.Titled title).Valid = validator.Valid ∧
      (validator.Titled title).Errors = validator.Errors) ∧
    (validator.Named name).Titled title = (validator.Titled title).Named name ∧
    ((validator.Named name).Titled title).currentName = name ∧
    ((validator.Named name).Titled title).currentTitle = title :=
  ⟨⟨rfl, rfl, rfl, rfl, rfl, rfl, rfl, rfl, rfl⟩, ⟨rfl, rfl, rfl, rfl, rfl, rfl, rfl, rfl, rfl⟩,
    rfl, rfl, rfl⟩

/-- C21: the predicate `valid == (errors is empty)` is preserved by every operation of
`Validator`. When it holds of a validator it holds after `Is`, `Named` and `Titled`, and
after `invalidate`, which returns whenever the message renders; so it holds after every
run of operations, which returns whenever every message renders: from a state that is
valid with no errors, every state reached has `Valid()` true exactly when `Errors()` is
empty. -/
theorem validity_invariant_preserved (validator : Validator)
    (hinv : validator.valid = true ↔ validator.errors = []) :
    (∀ value, (validator.Is value).valid = true ↔ (validator.Is value).errors = []) ∧
    (∀ name, (validator.Named name).valid = true ↔ (validator.Named name).errors = []) ∧
    (∀ title, (validator.Titled title).valid = true ↔ (validator.Titled title).errors = []) ∧
    (∀ key values, panicked (validator.message key values) = false →
      ∃ failed, validator.invalidate key values = Except.ok failed ∧
        (failed.valid = true ↔ failed.errors = [])) ∧
    (∀ ops, (∀ op ∈ ops, Validator.Operation.panics validator op = false) →
      ∃ last, validator.run ops = Except.ok last ∧
        (last.Valid = true ↔ last.Errors = [])) ∧
    (∀ ops last, validator.run ops = Except.ok last →
      (last.Valid = true ↔ last.Errors = [])) := by
  refine ⟨fun _ => hinv, fun _ => hinv, fun _ => hinv, ?_, ?_, ?_⟩
  · intro key values h
    have hr := Validator.invalidate_returns validator key values h
    cases hi : validator.invalidate key values with
    | error e => rw [hi] at hr; cases hr
    | ok failed =>
      exact ⟨failed, rfl, Validator.invalidate_invariant validator failed key values hinv hi⟩
  · intro ops h
    have hr := Validator.run_returns ops validator h
    cases hi : validator.run ops with
    | error e => rw [hi] at hr; cases hr
    | ok last => exact ⟨last, rfl, Validator.run_invariant ops validator last hinv hi⟩
  · intro ops last h
    exact Validator.run_invariant ops validator last hinv h

/-- C21, at a valid validator with no errors and two templates: the run that opens the
value "", names it, records two failures on it, opens a second value and records a failure
on it returns a state that is invalid and whose errors are not empty. -/
theorem validity_invariant_preserved_witness :
    (Validator.withTwoTemplates.valid = true ↔ Validator.withTwoTemplates.errors = []) ∧
    (∃ last, Validator.withTwoTemplates.run
        [Validator.Operation.Is (Value.string ""), Validator.Operation.Named "name",
          Validator.Operation.invalidate "blank" [("Title", Value.string "Name")],
          Validator.Operation.invalidate "min_length" [("Title", Value.string "Name")],
          Validator.Operation.Is (Value.string "b"), Validator.Operation.Titled "B",
          Validator.Operation.invalidate "blank" [("Title", Value.string "B")]] =
        Except.ok last ∧
      (last.Valid = true ↔ last.Errors = [])) ∧
    (returned (Validator.withTwoTemplates.run
        [Validator.Operation.Is (Value.string ""), Validator.Operation.Named "name",
          Validator.Operation.invalidate "blank" [("Title", Value.string "Name")],
          Validator.Operation.invalidate "min_length" [("Title", Value.string "Name")],
          Validator.Operation.Is (Value.string "b"), Validator.Operation.Titled "B",
          Validator.Operation.invalidate "blank" [("Title", Value.string "B")]])).map
      Validator.Valid = some false := by
  have hinv : Validator.withTwoTemplates.valid = true ↔
      Validator.withTwoTemplates.errors = [] := by decide
  exact ⟨hinv, (validity_invariant_preserved Validator.withTwoTemplates hinv).2.2.2.2.1 _
    (by decide), by decide⟩

/-- C22, the behaviour of the code: for every validator with no current error, after a
first failure and any number of further failures on the same value whose messages render,
`Errors()` has one new record with the name, title and value of the value, and the
`Messages` of that record are the first message alone; the later messages are appended to
the current error only, which `Errors()` does not show. -/
theorem errors_keep_first_message_only (validator : Validator) (key : String)
    (values : Params) (failures : List (String × Params)) (message : String)
    (hnone : validator.currentError = none)
    (hfirst : validator.message key values = Except.ok message)
    (hrest : ∀ f ∈ failures, panicked (validator.message f.1 f.2) = false) :
    ∃ failed, validator.invalidateAll ((key, values) :: failures) = Except.ok failed ∧
      failed.Errors = validator.Errors ++
        [{ Name := validator.currentName, Title := validator.currentTitle
           Value := validator.currentValue, Messages := [message] }] ∧
      failed.currentError =
        some { Name := validator.currentName, Title := validator.currentTitle
               Value := validator.currentValue
               Messages := message :: validator.messages failures } ∧
      (validator.messages failures).length = failures.length := by
  have hall : validator.invalidateAll ((key, values) :: failures) = Except.ok
      { validator with
        currentError := some { Name := validator.currentName, Title := validator.currentTitle
                               Value := validator.currentValue
                               Messages := [message] ++ validator.messages failures }
        currentValid := false
        valid := false
        errors := validator.errors ++
          [{ Name := validator.currentName, Title := validator.currentTitle
             Value := validator.currentValue, Messages := [message] }] } := by
    simp only [Validator.invalidateAll]
    rw [Validator.invalidate_first validator key values message hnone hfirst]
    simp only
    exact Validator.invalidateAll_later failures
      { validator with
        currentError := some { Name := validator.currentName, Title := validator.currentTitle
                               Value := validator.currentValue, Messages := [message] }
        currentValid := false
        valid := false
        errors := validator.errors ++
          [{ Name := validator.currentName, Title := validator.currentTitle
             Value := validator.currentValue, Messages := [message] }] }
      { Name := validator.currentName, Title := validator.currentTitle
        Value := validator.currentValue, Messages := [message] } rfl hrest
  exact ⟨_, hall, rfl, rfl, Validator.messages_length validator failures hrest⟩

/-- C22, at two failures on the value "" opened as `value0`: `Errors()` holds the one
record of `value0` with the message "value0 can not be blank" alone; the second message
"value0 is too short" is in the current error only. -/
theorem errors_keep_first_message_only_witness :
    ∃ failed, (Validator.withTwoTemplates.Is (Value.string "")).invalidateAll
        [("blank", [("Title", Value.string "value0")]),
          ("min_length", [("Title", Value.string "value0")])] = Except.ok failed ∧
      failed.Errors =
        [{ Name := "value0", Title := "value0", Value := Value.string ""
           Messages := ["value0 can not be blank"] }] ∧
      failed.currentError =
        some { Name := "value0", Title := "value0", Value := Value.string ""
               Messages := ["value0 can not be blank", "value0 is too short"] } := by
  obtain ⟨failed, h1, h2, h3, _⟩ := errors_keep_first_message_only
    (Validator.withTwoTemplates.Is (Value.string "")) "blank"
    [("Title", Value.string "value0")] [("min_length", [("Title", Value.string "value0")])]
    "value0 can not be blank" rfl (ok_of_returned _ _ (by decide)) (by decide)
  exact ⟨failed, h1, h2.trans (by decide), h3.trans (by decide)⟩

/-- C23, the behaviour of the code: for every validator with no current error, after a
failure on the current value, any calls of `Is`, `Named` and `Titled` that open a second
value, and a failure on that value, `Errors()` has the record of the first value alone, with
its first message: `Is` leaves the current error in place, so the failure of the second
value creates no record, its message joins the current error of the first value, and the
second value stays marked valid. -/
theorem second_value_gets_no_record (validator : Validator) (key1 key2 : String)
    (values1 values2 : Params) (value2 : Value) (cs : List Validator.Call)
    (message1 message2 : String)
    (hnone : validator.currentError = none)
    (h1 : validator.message key1 values1 = Except.ok message1)
    (h2 : validator.message key2 values2 = Except.ok message2) :
    ∃ first second, validator.invalidate key1 values1 = Except.ok first ∧
      ((first.Is value2).calls cs).invalidate key2 values2 = Except.ok second ∧
      second.Errors = validator.Errors ++
        [{ Name := validator.currentName, Title := validator.currentTitle
           Value := validator.currentValue, Messages := [message1] }] ∧
      second.Errors.length = validator.Errors.length + 1 ∧
      second.currentError =
        some { Name := validator.currentName, Title := validator.currentTitle
               Value := validator.currentValue, Messages := [message1, message2] } ∧
      second.currentValid = true := by
  have hfirst := Validator.invalidate_first validator key1 values1 message1 hnone h1
  obtain ⟨hce, hloc, herr, _⟩ := Validator.calls_fields cs
    (Validator.Is { validator with
        currentError := some { Name := validator.currentName, Title := validator.currentTitle
                               Value := validator.currentValue, Messages := [message1] }
        currentValid := false
        valid := false
        errors := validator.errors ++
          [{ Name := validator.currentName, Title := validator.currentTitle
             Value := validator.currentValue, Messages := [message1] }] } value2)
  have hm : Validator.message (Validator.calls (Validator.Is { validator with
        currentError := some { Name := validator.currentName, Title := validator.currentTitle
                               Value := validator.currentValue, Messages := [message1] }
        currentValid := false
        valid := false
        errors := validator.errors ++
          [{ Name := validator.currentName, Title := validator.currentTitle
             Value := validator.currentValue, Messages := [message1] }] } value2) cs)
      key2 values2 = Except.ok message2 := by
    rw [Validator.message_of_locale _ validator key2 values2 (hloc.trans rfl)]
    exact h2
  have hsecond := Validator.invalidate_later _ key2 values2 message2 _ (hce.trans rfl) hm
  refine ⟨_, _, hfirst, hsecond, ?_, ?_, rfl, Validator.calls_currentValid cs _ rfl⟩
  · exact herr
  · show (Validator.errors _).length = _
    rw [herr]
    simp [Validator.Errors, Validator.Is]

/-- C23, at the values "" and "b", each opened by its own `Is` and each with one failure:
`Errors()` holds one record, that of the first value `value0`; the second value, named
"second", has none. -/
theorem second_value_gets_no_record_witness :
    ∃ first second, (Validator.withTwoTemplates.Is (Value.string "")).invalidate "blank"
        [("Title", Value.string "value0")] = Except.ok first ∧
      ((first.Is (Value.string "b")).calls [Validator.Call.Named "second"]).invalidate
        "min_length" [("Title", Value.string "value1")] = Except.ok second ∧
      second.Errors =
        [{ Name := "value0", Title := "value0", Value := Value.string ""
           Messages := ["value0 can not be blank"] }] ∧
      second.Errors.length = 1 ∧
      second.currentValid = true := by
  obtain ⟨first, second, h1, h2, h3, h4, _, h6⟩ := second_value_gets_no_record
    (Validator.withTwoTemplates.Is (Value.string "")) "blank" "min_length"
    [("Title", Value.string "value0")] [("Title", Value.string "value1")] (Value.string "b")
    [Validator.Call.Named "second"] "value0 can not be blank" "value1 is too short" rfl
    (ok_of_returned _ _ (by decide)) (ok_of_returned _ _ (by decide))
  exact ⟨first, second, h1, h2, h3.trans (by decide), h4.trans (by decide), h6⟩

/-- C24, the behaviour of the code: `ensureString` returns the base-10 text of a `uint64`
and of an `int64`, the text of a `float64` and a string unchanged, and the empty string for
a value of a type that its type switch does not list; for a `uint8`, `uint16`, `uint32`,
`int8`, `int16`, `int32` or `float32`, which the switch lists, the type assertion of the
case fails and the call panics. -/
theorem ensureString_by_type (validator : Validator) :
    (∀ n, Validator.ensureString { validator with currentValue := Value.uint64 n } =
      Except.ok (FormatUint n)) ∧
    (∀ i, Validator.ensureString { validator with currentValue := Value.int64 i } =
      Except.ok (FormatInt i)) ∧
    (∀ shown, Validator.ensureString { validator with currentValue := Value.float64 shown } =
      Except.ok shown) ∧
    (∀ s, Validator.ensureString { validator with currentValue := Value.string s } =
      Except.ok s) ∧
    (∀ n, panicked (Validator.ensureString
        { validator with currentValue := Value.uint8 n }) = true ∧
      panicked (Validator.ensureString
        { validator with currentValue := Value.uint16 n }) = true ∧
      panicked (Validator.ensureString
        { validator with currentValue := Value.uint32 n }) = true) ∧
    (∀ i, panicked (Validator.ensureString
        { validator with currentValue := Value.int8 i }) = true ∧
      panicked (Validator.ensureString
        { validator with currentValue := Value.int16 i }) = true ∧
      panicked (Validator.ensureString
        { validator with currentValue := Value.int32 i }) = true) ∧
    (∀ shown, panicked (Validator.ensureString
        { validator with currentValue := Value.float32 shown }) = true) ∧
    (∀ b, Validator.ensureString { validator with currentValue := Value.bool b } =
      Except.ok "") ∧
    (∀ i, Validator.ensureString { validator with currentValue := Value.int i } =
      Except.ok "") ∧
    Validator.ensureString { validator with currentValue := Value.nil } = Except.ok "" ∧
    (FormatUint 10 = "10" ∧ FormatInt (-10) = "-10" ∧
      returned (Validator.fresh.Is (Value.uint64 10)).ensureString = some "10" ∧
      panicked (Validator.fresh.Is (Value.uint8 10)).ensureString = true) :=
  ⟨fun _ => rfl, fun _ => rfl, fun _ => rfl, fun _ => rfl, fun _ => ⟨rfl, rfl, rfl⟩,
    fun _ => ⟨rfl, rfl, rfl⟩, fun _ => rfl, fun _ => rfl, fun _ => rfl, rfl,
    ⟨by decide, by decide, by decide, by decide⟩⟩

end Claims

end Valgo
